import Mathlib

/-!
EH-DSB: program store, Brainfuck engine and Brainfuck-to-C transpiler.

Shallow embedding of the language subsystem of the EH-DSB kernel sources
(`src/v2/kernel3.cpp`, `src/v3/kernel3.cpp`).

Conventions of the embedding

* a C `char` / `uint8_t` is a `Nat` below 256, a `uint32_t` a `Nat` reduced
  modulo `2 ^ 32` where the source computes with it, an `int` an `Int`;
* a C string argument (`const char*`) is the list of its bytes; reading at or
  past the end of the list yields the terminator 0, and an embedded 0 ends the
  string exactly as it does in C;
* a C array that the code indexes (`files[MAX_FILES]`, the backing region, a
  caller's buffer, the tape) is a total function on indices; the code only
  touches the indices its loops reach;
* Brainfuck source text is a `List Char`, read through `progAt`.
-/

namespace EHDSB

/-! ## Constants (`src/v3/kernel3.cpp`, lines 9-17) -/

def MAX_FILES : Nat := 64
def MAX_FILE_SIZE : Nat := 8192
def FS_METADATA_SIZE : Nat := 4096
def FS_TOTAL_SIZE : Nat := 0x20000
def FS_MAGIC : Nat := 0xE4F5D3B2

/-- Modulus of `uint32_t` arithmetic. -/
def UINT32_MOD : Nat := 2 ^ 32

/-! ## C library helpers (`src/v3/kernel3.cpp`, lines 31-95) -/

/-- Value of a `char` holding byte `c` once promoted to `int` (`char` is signed
on the x86 target). -/
def scharVal (c : Nat) : Int := if c < 128 then (c : Int) else (c : Int) - 256

/-- `strlen`: number of bytes before the first 0. -/
def strlen : List Nat → Nat
  | [] => 0
  | c :: cs => if c = 0 then 0 else strlen cs + 1

/-- `strcmp(a, b)`: `while (*a && *b && *a == *b) { a++; b++; } return *a - *b;`. -/
def strcmp : List Nat → List Nat → Int
  | a :: as, b :: bs =>
      if a ≠ 0 ∧ b ≠ 0 ∧ a = b then strcmp as bs else scharVal a - scharVal b
  | a :: _, [] => scharVal a - scharVal 0
  | [], b :: _ => scharVal 0 - scharVal b
  | [], [] => 0

/-- `strncpy(dest, src, n)` of this kernel:
`for (i = 0; i < n - 1 && src[i]; i++) dest[i] = src[i];  dest[i] = 0;`.
The recursion walks `dest` and `src` together; `n` decreases as `i` grows, so
`i < n - 1` is the test "at least two left".  The bytes of `dest` after the
written terminator keep their old value. -/
def strncpy : List Nat → List Nat → Nat → List Nat
  | _ :: ds, s :: ss, n + 2 => if s ≠ 0 then s :: strncpy ds ss (n + 1) else 0 :: ds
  | _ :: ds, _, _ => 0 :: ds
  | [], _, _ => []

/-- `memset(ptr, value, n)` on an array given as the list of its bytes. -/
def memset (l : List Nat) (value n : Nat) : List Nat :=
  List.replicate (min n l.length) value ++ l.drop n

/-- `memcpy(dest, src, n)`: `for (i = 0; i < n; i++) d[i] = s[i];` where
`dest = dmem + d` and `src = smem + s0` point into distinct memories. -/
def memcpy (dmem : Nat → Nat) (d : Nat) (smem : Nat → Nat) (s0 : Nat) (n : Nat) : Nat → Nat :=
  (List.range n).foldl (fun m i => Function.update m (d + i) (smem (s0 + i))) dmem

/-- A C string or byte array seen as memory: byte `i`, 0 past its end. -/
def bytesOf (l : List Nat) : Nat → Nat := fun i => l.getD i 0

/-- The cast `(uint32_t)x` of an `int`. -/
def toU32 (x : Int) : Nat := (x % (UINT32_MOD : Int)).toNat

/-- The difference `max - k` in `uint32_t` arithmetic. -/
def subU32 (max k : Nat) : Nat := (((max : Int) - (k : Int)) % (UINT32_MOD : Int)).toNat

/-! ## Program store (`src/v3/kernel3.cpp`, lines 120-341) -/

/-- `struct FileEntry`. -/
structure FileEntry where
  name : List Nat
  size : Nat
  data_offset : Nat
  used : Bool
  read_only : Bool
deriving DecidableEq, Repr

/-- `struct FileSystemHeader`. -/
structure FileSystemHeader where
  magic : Nat
  version : Nat
  next_free_offset : Nat
  file_count : Nat
deriving DecidableEq, Repr

/-- `class FileSystem`: the in-memory table and allocation cursor, together with
the backing region `fs_buffer`, split into the persisted header, the persisted
entry table (both inside the first `FS_METADATA_SIZE` bytes: 16 + 64 * 28 =
1808 bytes) and the data region that starts at `fs_buffer + FS_METADATA_SIZE`. -/
structure FileSystem where
  files : Nat → FileEntry
  next_free_offset : Nat
  fs_header : FileSystemHeader
  fs_table : Nat → FileEntry
  fs_data : Nat → Nat

/-- An all-zero `FileEntry` (13 name bytes). -/
def zeroEntry : FileEntry :=
  { name := List.replicate 13 0, size := 0, data_offset := 0, used := false, read_only := false }

/-- The store over a zeroed backing region, as `load_metadata` leaves it when the
magic does not match. -/
def emptyFS : FileSystem :=
  { files := fun _ => zeroEntry
    next_free_offset := 0
    fs_header := { magic := 0, version := 0, next_free_offset := 0, file_count := 0 }
    fs_table := fun _ => zeroEntry
    fs_data := fun _ => 0 }

/-- Every name field is the 13-byte array of the struct. -/
def FileSystem.wf (s : FileSystem) : Prop :=
  ∀ i, i < MAX_FILES → (s.files i).name.length = 13

/-- Loop of `get_file_count`, from index `i` with `k` indices left. -/
def get_file_count_from (files : Nat → FileEntry) : Nat → Nat → Int → Int
  | _, 0, count => count
  | i, k + 1, count =>
      get_file_count_from files (i + 1) k (if (files i).used then count + 1 else count)

/-- `FileSystem::get_file_count`. -/
def get_file_count (s : FileSystem) : Int := get_file_count_from s.files 0 MAX_FILES 0

/-- `FileSystem::save_metadata`: header and whole table copied to the backing
region. -/
def save_metadata (s : FileSystem) : FileSystem :=
  { s with
    fs_header :=
      { magic := FS_MAGIC, version := 2, next_free_offset := s.next_free_offset,
        file_count := (get_file_count s).toNat }
    fs_table := fun i => if i < MAX_FILES then s.files i else s.fs_table i }

/-- Loop of `find_free_file`, from index `i` with `k` indices left. -/
def find_free_file_from (files : Nat → FileEntry) : Nat → Nat → Int
  | _, 0 => -1
  | i, k + 1 => if !(files i).used then (i : Int) else find_free_file_from files (i + 1) k

/-- `FileSystem::find_free_file`. -/
def find_free_file (s : FileSystem) : Int := find_free_file_from s.files 0 MAX_FILES

/-- Test of the `find_file` loop: `files[i].used && strcmp(files[i].name, name) == 0`. -/
def nameHit (e : FileEntry) (name : List Nat) : Bool :=
  e.used && decide (strcmp e.name name = 0)

/-- Loop of `find_file`, from index `i` with `k` indices left. -/
def find_file_from (files : Nat → FileEntry) (name : List Nat) : Nat → Nat → Int
  | _, 0 => -1
  | i, k + 1 => if nameHit (files i) name then (i : Int) else find_file_from files name (i + 1) k

/-- `FileSystem::find_file`. -/
def find_file (s : FileSystem) (name : List Nat) : Int :=
  find_file_from s.files name 0 MAX_FILES

/-- Lines 266-272 of `save_file`, common to both branches: the size is stored,
then the capacity test either returns false or lets the copy and the metadata
write happen. -/
def save_file_finish (s : FileSystem) (i : Nat) (content : List Nat) (size : Nat) :
    Bool × FileSystem :=
  let s2 := { s with files := Function.update s.files i { s.files i with size := size } }
  if ((s2.files i).data_offset + size) % UINT32_MOD > FS_TOTAL_SIZE - FS_METADATA_SIZE then
    (false, s2)
  else
    let s3 := { s2 with
      fs_data := memcpy s2.fs_data (s2.files i).data_offset (bytesOf content) 0 size }
    (true, save_metadata s3)

/-- `FileSystem::save_file(name, content, size)`. -/
def save_file (s : FileSystem) (name content : List Nat) (size : Nat) : Bool × FileSystem :=
  let idx := find_file s name
  if idx = -1 then
    let idx := find_free_file s
    if idx = -1 then (false, s)
    else
      let i := idx.toNat
      let e := s.files i
      let e1 := { e with
        name := strncpy e.name name 12, used := true, read_only := false,
        data_offset := s.next_free_offset }
      let s1 := { s with
        files := Function.update s.files i e1,
        next_free_offset := (s.next_free_offset + size) % UINT32_MOD }
      save_file_finish s1 i content size
  else
    let i := idx.toNat
    if (s.files i).read_only then (false, s)
    else
      let new_offset := s.next_free_offset
      let s1 := { s with
        next_free_offset := (s.next_free_offset + size) % UINT32_MOD,
        files := Function.update s.files i { s.files i with data_offset := new_offset } }
      save_file_finish s1 i content size

/-- `FileSystem::load_file(name, buffer, size)`: the result is the return value,
the caller's buffer and the caller's `size` variable. -/
def load_file (s : FileSystem) (name : List Nat) (buffer : Nat → Nat) (size : Nat) :
    Bool × (Nat → Nat) × Nat :=
  let idx := find_file s name
  if idx = -1 then (false, buffer, size)
  else
    let i := idx.toNat
    let size := (s.files i).size
    let size := if size > MAX_FILE_SIZE then MAX_FILE_SIZE else size
    let buffer := memcpy buffer 0 s.fs_data (s.files i).data_offset size
    let buffer := if size < MAX_FILE_SIZE then Function.update buffer size 0 else buffer
    (true, buffer, size)

/-- `FileSystem::delete_file(name)`. -/
def delete_file (s : FileSystem) (name : List Nat) : Bool × FileSystem :=
  let idx := find_file s name
  if idx = -1 then (false, s)
  else
    let i := idx.toNat
    if (s.files i).read_only then (false, s)
    else
      let s1 := { s with files := Function.update s.files i { s.files i with used := false } }
      (true, save_metadata s1)

/-- `FileSystem::rename_file(old_name, new_name)`. -/
def rename_file (s : FileSystem) (old_name new_name : List Nat) : Bool × FileSystem :=
  let idx := find_file s old_name
  if idx = -1 then (false, s)
  else
    let i := idx.toNat
    if (s.files i).read_only then (false, s)
    else if find_file s new_name ≠ -1 then (false, s)
    else
      let e := s.files i
      let s1 := { s with
        files := Function.update s.files i
          { e with name := strncpy (memset e.name 0 13) new_name 12 } }
      (true, save_metadata s1)

/-- The first `n` bytes of a buffer, as a list. -/
def bufferBytes (buffer : Nat → Nat) (n : Nat) : List Nat := (List.range n).map buffer

/-- A store whose slot 0 holds the read-only entry "R" (one byte at offset 0). -/
def roFS : FileSystem :=
  { emptyFS with
    files := Function.update emptyFS.files 0
      { name := strncpy zeroEntry.name [82] 12, size := 1, data_offset := 0,
        used := true, read_only := true }
    next_free_offset := 1 }

/-- Two entries "X" (writable, slot 0) and "Y" (writable, slot 1). -/
def twoFS : FileSystem :=
  (save_file (save_file emptyFS [88] [43] 1).2 [89] [45] 1).2



/-! ## Program store: creation, boot and space accounting
(`src/v3/kernel3.cpp`, lines 141-150, 177-246, 330-340) -/

/-- `FileSystem::load_metadata`: without the magic the table is zeroed and the
cursor reset; with it, table and cursor are read back from the backing
region. -/
def load_metadata (s : FileSystem) : FileSystem :=
  if s.fs_header.magic ≠ FS_MAGIC then
    { s with
      files := fun i => if i < MAX_FILES then zeroEntry else s.files i,
      next_free_offset := 0 }
  else
    { s with
      files := fun i => if i < MAX_FILES then s.fs_table i else s.files i,
      next_free_offset := s.fs_header.next_free_offset }

/-- `FileSystem::create_file(name, content, read_only)`; `content` is `none` for a
null pointer. -/
def create_file (s : FileSystem) (name : List Nat) (content : Option (List Nat))
    (read_only : Bool) : Bool × FileSystem :=
  let idx := find_free_file s
  if idx = -1 then (false, s)
  else
    let i := idx.toNat
    let e1 : FileEntry :=
      { name := strncpy (s.files i).name name 12,
        size := (match content with
          | some c => strlen c % UINT32_MOD
          | none => 0),
        used := true, read_only := read_only, data_offset := s.next_free_offset }
    let s1 := { s with files := Function.update s.files i e1 }
    if (s1.next_free_offset + e1.size) % UINT32_MOD > FS_TOTAL_SIZE - FS_METADATA_SIZE then
      (false, { s1 with files := Function.update s1.files i { e1 with used := false } })
    else
      let s2 :=
        match content with
        | some c => { s1 with fs_data := memcpy s1.fs_data e1.data_offset (bytesOf c) 0 e1.size }
        | none => s1
      (true, save_metadata
        { s2 with next_free_offset := (s2.next_free_offset + e1.size) % UINT32_MOD })

/-- The bytes of a string literal of the source. -/
def cstr (text : String) : List Nat := text.toList.map Char.toNat

/-- Content of the seed file README.TXT (lines 185-202). -/
def README_TXT : List Nat :=
  cstr ("EH-DSB v2 - System Commands\n" ++
    "==========================\n" ++
    "help/?       - Show help\n" ++
    "ls/dir       - List files\n" ++
    "cat <file>   - View file\n" ++
    "edit <file>  - Edit file\n" ++
    "rm <file>    - Delete file\n" ++
    "mv <old> <new> - Rename\n" ++
    "time         - Show time\n" ++
    "clear/cls    - Clear screen\n" ++
    "about        - System info\n" ++
    "calc         - Calculator\n" ++
    "files        - File manager\n" ++
    "bf           - Brainfuck IDE\n" ++
    "monitor      - System monitor\n" ++
    "reboot       - Reboot\n" ++
    "shutdown     - Shutdown\n" ++
    "\nF1-Editor F2-Calc F3-Files F4-Term F5-BF F6-Mon")

/-- Content of the seed file HELLO.BF (line 206). -/
def HELLO_BF : List Nat :=
  cstr ("++++++++[>++++[>++>+++>+++>+<<<<-]>+>+>->>+[<]<-]>>.>---.+++++++..+++.>>.<-.<.+++." ++
    "------.--------.>>+.>++.")

/-- Content of the seed file ECHO.BF (line 209). -/
def ECHO_BF : List Nat := cstr ",[.,]"

/-- Content of the seed file FIB.BF (lines 213-220). -/
def FIB_BF : List Nat :=
  cstr ("+++++++++++\n" ++
    ">+>>>>++++++++++++++++++++++++++++++++++++++++++++\n" ++
    ">++++++++++++++++++++++++++++++++<<<<<<[>[>>>>>>+>\n" ++
    "+<<<<<<<-]>>>>>>>[<<<<<<<+>>>>>>>-]<[>++++++++++[-\n" ++
    "<-[>>+>+<<<-]>>>[<<<+>>>-]+<[>[-]<[-]]>[<<[>>>+>+<\n" ++
    "<<<-]>>>[<<<+>>>-]+<[>[-]<[-]]>]<<<<[>>+>+<<<-]>>>[\n" ++
    "<<<+>>>-]+<[>[-]<[-]]>[<<+>+>-]<<[>>+<<-]>>>]<<<<<\n" ++
    "<[>+<-]>>]")

/-- One statement of `create_default_files`:
`if (find_file(name) == -1) { create_file(name, content, read_only); }`. -/
def create_if_absent (s : FileSystem) (name content : List Nat) (read_only : Bool) :
    FileSystem :=
  if find_file s name = -1 then (create_file s name (some content) read_only).2 else s

/-- `FileSystem::create_default_files`: each seed is created when no used entry
bears its name; only README.TXT is passed `read_only = true`, the other three
take the default `false`. -/
def create_default_files (s : FileSystem) : FileSystem :=
  create_if_absent
    (create_if_absent
      (create_if_absent
        (create_if_absent s (cstr "README.TXT") README_TXT true)
        (cstr "HELLO.BF") HELLO_BF false)
      (cstr "ECHO.BF") ECHO_BF false)
    (cstr "FIB.BF") FIB_BF false

/-- The constructor `FileSystem()` over a given backing region: `load_metadata()`
followed by `create_default_files()`. -/
def bootFS (s : FileSystem) : FileSystem := create_default_files (load_metadata s)

/-- Loop of `get_fs_size`, from index `i` with `k` indices left (`uint32_t total`). -/
def get_fs_size_from (files : Nat → FileEntry) : Nat → Nat → Nat → Nat
  | _, 0, total => total
  | i, k + 1, total =>
    get_fs_size_from files (i + 1) k
      (if (files i).used then (total + (files i).size) % UINT32_MOD else total)

/-- `FileSystem::get_fs_size`. -/
def get_fs_size (s : FileSystem) : Nat := get_fs_size_from s.files 0 MAX_FILES 0

/-- `FileSystem::get_free_space`: `FS_TOTAL_SIZE - FS_METADATA_SIZE - get_fs_size()`
in `uint32_t`. -/
def get_free_space (s : FileSystem) : Nat :=
  subU32 (FS_TOTAL_SIZE - FS_METADATA_SIZE) (get_fs_size s)

/-- Two stores with the same in-memory table (slots below `MAX_FILES`) and the
same cursor. -/
def sameTable (s t : FileSystem) : Prop :=
  (∀ i, i < MAX_FILES → s.files i = t.files i) ∧ s.next_free_offset = t.next_free_offset

/-- A store whose data region is full but for six bytes: one file "A" of 126970
bytes. -/
def nearlyFullFS : FileSystem := (save_file emptyFS [65] (List.replicate 126970 7) 126970).2

/-- The 12-character name "ABCDEFGH.TXT". -/
def name12 : List Nat := [65, 66, 67, 68, 69, 70, 71, 72, 46, 84, 88, 84]

/-- Store states reachable from the empty store by calls of `create_file`,
`save_file`, `delete_file` and `rename_file`, whatever they return. -/
inductive Reachable : FileSystem → Prop
  | empty : Reachable emptyFS
  | create (s : FileSystem) (name : List Nat) (content : Option (List Nat)) (read_only : Bool) :
      Reachable s → Reachable (create_file s name content read_only).2
  | save (s : FileSystem) (name content : List Nat) (size : Nat) :
      Reachable s → Reachable (save_file s name content size).2
  | delete (s : FileSystem) (name : List Nat) :
      Reachable s → Reachable (delete_file s name).2
  | rename (s : FileSystem) (old_name new_name : List Nat) :
      Reachable s → Reachable (rename_file s old_name new_name).2

/-- Sum of the sizes of the used entries, as an exact integer. -/
def usedSizeSum (s : FileSystem) : Nat :=
  (((List.range MAX_FILES).filter (fun i => (s.files i).used)).map (fun i => (s.files i).size)).sum

/-- The in-memory table and cursor are what `load_metadata` would read back from
the backing region. -/
def persisted (s : FileSystem) : Prop :=
  (∀ i, i < MAX_FILES → (load_metadata s).files i = s.files i) ∧
  (load_metadata s).next_free_offset = s.next_free_offset

/-! ## Brainfuck engine, v3 (`src/v3/kernel3.cpp`, lines 1353-1458, 1558-1590) -/

/-- The string terminator. -/
def NUL : Char := Char.ofNat 0

/-- `prog[pos]` for a C string: the terminator at and past the end. -/
def progAt (prog : List Char) (pos : Int) : Char := prog.getD pos.toNat NUL

/-- Loop of `BrainfuckIDE::find_match` (`while (true)`), one iteration per unit of
fuel; `none` only when the fuel runs out. -/
def find_match_loop (prog : List Char) (openc closec : Char) (forward : Bool) :
    Nat → Int → Int → Option Int
  | 0, _, _ => none
  | fuel + 1, pos, depth =>
    let pos := if forward then pos + 1 else pos - 1
    if pos < 0 ∨ progAt prog pos = NUL then some (-1)
    else
      let depth :=
        if progAt prog pos = openc then depth + 1
        else if progAt prog pos = closec then depth - 1
        else depth
      if depth = 0 then some pos
      else find_match_loop prog openc closec forward fuel pos depth

/-- `BrainfuckIDE::find_match(prog, pos, open, close, forward)`.  The scan moves
one position per iteration and stops at the terminator or below position 0,
so `prog.length + pos + 2` iterations always suffice (`find_match_total`). -/
def find_match (prog : List Char) (pos : Int) (openc closec : Char) (forward : Bool) :
    Option Int :=
  find_match_loop prog openc closec forward (prog.length + pos.toNat + 2) pos 1

/-- How a run of `run_program` ends: the message it writes, or the suspension at
a `,`.  `silent` is the exit with `running` cleared and no message. -/
inductive Status
  | awaitingInput
  | unmatchedOpen
  | unmatchedClose
  | tooManySteps
  | finished
  | silent
deriving DecidableEq, Repr

/-- Locals of `run_program` (`memory`, `ptr`, `pc`, `steps`) and the members it
updates while the loop runs; `out` collects the bytes given to `term.putchar`. -/
structure Exec where
  memory : Nat → Nat
  ptr : Int
  pc : Int
  steps : Int
  running : Bool
  input_mode : Bool
  input_pos : Int
  out : List Nat

/-- Result of one pass through the `switch`: `break` (the loop goes on with
`pc++`) or `return` out of `run_program`. -/
inductive Switched
  | brk (st : Exec)
  | ret (status : Status) (st : Exec)

/-- The `switch (c)` of `run_program` (lines 1401-1439). -/
def exec_switch (code : List Char) (input_buffer : Nat → Nat) (c : Char) (st : Exec) :
    Option Switched :=
  if c = '>' then some (.brk { st with ptr := (st.ptr + 1) % 30000 })
  else if c = '<' then some (.brk { st with ptr := if st.ptr = 0 then 29999 else st.ptr - 1 })
  else if c = '+' then
    some (.brk { st with
      memory := Function.update st.memory st.ptr.toNat ((st.memory st.ptr.toNat + 1) % 256) })
  else if c = '-' then
    some (.brk { st with
      memory := Function.update st.memory st.ptr.toNat ((st.memory st.ptr.toNat + 255) % 256) })
  else if c = '.' then some (.brk { st with out := st.out ++ [st.memory st.ptr.toNat] })
  else if c = ',' then
    if !st.input_mode then
      some (.ret .awaitingInput { st with input_mode := true, input_pos := 0 })
    else
      some (.brk { st with
        memory := Function.update st.memory st.ptr.toNat (input_buffer 0), input_mode := false })
  else if c = '[' then
    if st.memory st.ptr.toNat = 0 then
      match find_match code st.pc '[' ']' true with
      | none => none
      | some m =>
        if m = -1 then some (.ret .unmatchedOpen { st with running := false })
        else some (.brk { st with pc := m })
    else some (.brk st)
  else if c = ']' then
    if st.memory st.ptr.toNat ≠ 0 then
      match find_match code st.pc ']' '[' false with
      | none => none
      | some m =>
        if m = -1 then some (.ret .unmatchedClose { st with running := false })
        else some (.brk { st with pc := m })
    else some (.brk st)
  else some (.brk st)

/-- The `while (code[pc] && steps < MAX_STEPS && running)` loop of `run_program`
followed by lines 1443-1455 (final message, `running = false`,
`input_mode = false`); one iteration per unit of fuel, `none` only when the
fuel runs out. -/
def run_loop (code : List Char) (input_buffer : Nat → Nat) (max_steps : Int) :
    Nat → Exec → Option (Status × Exec)
  | 0, _ => none
  | fuel + 1, st =>
    if progAt code st.pc ≠ NUL ∧ st.steps < max_steps ∧ st.running = true then
      match exec_switch code input_buffer (progAt code st.pc) { st with steps := st.steps + 1 } with
      | none => none
      | some (.ret status st1) => some (status, st1)
      | some (.brk st1) => run_loop code input_buffer max_steps fuel { st1 with pc := st1.pc + 1 }
    else
      let status :=
        if st.steps ≥ max_steps then Status.tooManySteps
        else if st.running then Status.finished
        else Status.silent
      some (status, { st with running := false, input_mode := false })

/-- `class BrainfuckIDE` (v3): the members the engine reads and writes.
`term_out` collects the bytes given to `term.putchar` and the echo written by
`handle_input`; the fixed texts that `run_program` writes are represented by
the `Status` of its report. -/
structure BrainfuckIDE where
  code : List Char
  active : Bool
  running : Bool
  input_mode : Bool
  input_buffer : Nat → Nat
  input_pos : Int
  term_out : List Nat

/-- What `run_program` leaves when it returns: the status and its locals. -/
structure Report where
  status : Status
  memory : Nat → Nat
  ptr : Int
  pc : Int
  steps : Int

/-- `run_program` with the step limit as a parameter: `running = true`,
`input_mode = false`, a zeroed tape, `ptr = pc = steps = 0`, then the loop.
Every iteration adds one step, so `max_steps + 1` iterations suffice.  The
wait for a key press before the editor is redrawn is not part of the model. -/
def run_program_with (max_steps : Nat) (ide : BrainfuckIDE) : Option (Report × BrainfuckIDE) :=
  let st0 : Exec :=
    { memory := fun _ => 0, ptr := 0, pc := 0, steps := 0, running := true,
      input_mode := false, input_pos := ide.input_pos, out := [] }
  match run_loop ide.code ide.input_buffer max_steps (max_steps + 1) st0 with
  | none => none
  | some (status, st) =>
    some ({ status := status, memory := st.memory, ptr := st.ptr, pc := st.pc, steps := st.steps },
      { ide with
        running := st.running, input_mode := st.input_mode, input_pos := st.input_pos,
        term_out := ide.term_out ++ st.out })

/-- `const int MAX_STEPS = 100000;` of the v3 `run_program`. -/
def MAX_STEPS : Nat := 100000

/-- `BrainfuckIDE::run_program` (v3). -/
def run_program (ide : BrainfuckIDE) : Option (Report × BrainfuckIDE) :=
  run_program_with MAX_STEPS ide

/-- The `if (running) { ... return; }` block of `BrainfuckIDE::handle_input`
(lines 1561-1590): what `handle_input(c)` does when `active` and `running` are
set, that is while a program is running or suspended.  The report is `none`
when `run_program` is not called. -/
def handle_input_running (ide : BrainfuckIDE) (c : Nat) :
    Option (Option Report × BrainfuckIDE) :=
  if ide.input_mode then
    if c = 10 then
      let ide1 := { ide with
        input_buffer := Function.update ide.input_buffer ide.input_pos.toNat 0,
        term_out := ide.term_out ++ [10] }
      match run_program ide1 with
      | none => none
      | some (r, ide2) => some (some r, ide2)
    else if c = 8 then
      if ide.input_pos > 0 then
        some (none, { ide with
          input_pos := ide.input_pos - 1, term_out := ide.term_out ++ [8, 32, 8] })
      else some (none, ide)
    else if c ≥ 32 ∧ c ≤ 126 ∧ ide.input_pos < 255 then
      some (none, { ide with
        input_buffer := Function.update ide.input_buffer ide.input_pos.toNat c,
        input_pos := ide.input_pos + 1, term_out := ide.term_out ++ [c] })
    else if c = 0xFA then
      some (none, { ide with running := false, input_mode := false })
    else some (none, ide)
  else
    if c = 0xFA then some (none, { ide with running := false })
    else some (none, ide)

/-- An IDE opened on `code` (`open()` followed by typing the text). -/
def ideWith (code : List Char) : BrainfuckIDE :=
  { code := code, active := true, running := false, input_mode := false,
    input_buffer := fun _ => 0, input_pos := 0, term_out := [] }


/-! ## Brainfuck interpreter, v2 (`src/v2/kernel3.cpp`, lines 508-725) -/

/-- `BrainfuckInterpreter::find_matching_bracket(start, open, close, forward)` on
`this->program`: the same loop as the v3 `find_match`, started at `start`. -/
def find_matching_bracket (program : List Char) (start : Int) (openc closec : Char)
    (forward : Bool) : Option Int :=
  find_match_loop program openc closec forward (program.length + start.toNat + 2) start 1

/-- Texts that `run` writes on the status line (line 17 of the screen). -/
inductive Message
  | unmatchedOpen
  | unmatchedClose
  | stoppedByUser
  | limitReached
  | finishedSuccessfully
deriving DecidableEq, Repr

/-- Members of `BrainfuckInterpreter` and locals of `run`.  `kbd` is the keyboard
as the run sees it: one element per poll of `Keyboard::is_key_pressed()`,
`none` when no key is waiting, `some c` when `get_char()` then yields `c`;
when the list is used up no key is ever pressed again. -/
structure Interp where
  memory : Nat → Nat
  mem_ptr : Nat
  program_counter : Nat
  running : Bool
  output_buffer : List Nat
  steps : Int
  messages : List Message
  kbd : List (Option Nat)

/-- `BrainfuckInterpreter::get_input`: polls until a printable character comes;
`none` when it never comes (the busy wait does not return). -/
def get_input : List (Option Nat) → Option (Nat × List (Option Nat))
  | [] => none
  | none :: rest => get_input rest
  | some c :: rest => if c ≠ 0 ∧ c ≥ 32 ∧ c ≤ 126 then some (c, rest) else get_input rest

/-- The `switch (instruction)` of `run` (lines 626-684); `none` when `get_input`
does not return or the bracket scan runs out of fuel. -/
def interp_switch (program : List Char) (instruction : Char) (st : Interp) : Option Interp :=
  if instruction = '>' then
    some { st with mem_ptr := if (st.mem_ptr + 1) % 65536 ≥ 30000 then 0 else (st.mem_ptr + 1) % 65536 }
  else if instruction = '<' then
    some { st with mem_ptr := if st.mem_ptr = 0 then 29999 else st.mem_ptr - 1 }
  else if instruction = '+' then
    some { st with
      memory := Function.update st.memory st.mem_ptr ((st.memory st.mem_ptr + 1) % 256) }
  else if instruction = '-' then
    some { st with
      memory := Function.update st.memory st.mem_ptr ((st.memory st.mem_ptr + 255) % 256) }
  else if instruction = '.' then
    if st.output_buffer.length < 255 then
      some { st with output_buffer := st.output_buffer ++ [st.memory st.mem_ptr] }
    else some st
  else if instruction = ',' then
    match get_input st.kbd with
    | none => none
    | some (c, rest) =>
      some { st with memory := Function.update st.memory st.mem_ptr c, kbd := rest }
  else if instruction = '[' then
    if st.memory st.mem_ptr = 0 then
      match find_matching_bracket program st.program_counter '[' ']' true with
      | none => none
      | some m =>
        if m ≠ -1 then some { st with program_counter := (m % 65536).toNat }
        else some { st with running := false, messages := st.messages ++ [.unmatchedOpen] }
    else some st
  else if instruction = ']' then
    if st.memory st.mem_ptr ≠ 0 then
      match find_matching_bracket program st.program_counter ']' '[' false with
      | none => none
      | some m =>
        if m ≠ -1 then some { st with program_counter := (m % 65536).toNat }
        else some { st with running := false, messages := st.messages ++ [.unmatchedClose] }
    else some st
  else some st

/-- The F10 poll at the end of each iteration (lines 705-711). -/
def poll_stop (st : Interp) : Interp :=
  match st.kbd with
  | [] => st
  | none :: rest => { st with kbd := rest }
  | some c :: rest =>
    if c = 0xFA then
      { st with kbd := rest, running := false, messages := st.messages ++ [.stoppedByUser] }
    else { st with kbd := rest }

/-- The loop `while (running && program[program_counter] != 0 && steps < 10000)` of
`run`, with the limit as a parameter; one iteration per unit of fuel. -/
def interp_loop (program : List Char) (max_steps : Int) : Nat → Interp → Option Interp
  | 0, _ => none
  | fuel + 1, st =>
    if st.running = true ∧ progAt program st.program_counter ≠ NUL ∧ st.steps < max_steps then
      match interp_switch program (progAt program st.program_counter)
          { st with steps := st.steps + 1 } with
      | none => none
      | some st1 =>
        interp_loop program max_steps fuel
          (poll_stop { st1 with program_counter := (st1.program_counter + 1) % 65536 })
    else some st

/-- `BrainfuckInterpreter::run(code)` with the step limit as a parameter: `reset()`,
the loop, then the closing message of lines 714-718. -/
def run_with (max_steps : Nat) (code : List Char) (kbd : List (Option Nat)) : Option Interp :=
  let st0 : Interp :=
    { memory := fun _ => 0, mem_ptr := 0, program_counter := 0, running := true,
      output_buffer := [], steps := 0, messages := [], kbd := kbd }
  match interp_loop code max_steps (max_steps + 1) st0 with
  | none => none
  | some st =>
    if st.steps ≥ max_steps then some { st with messages := st.messages ++ [.limitReached] }
    else if st.running then some { st with messages := st.messages ++ [.finishedSuccessfully] }
    else some st

/-- `BrainfuckInterpreter::run(code)` (v2): the limit is 10000 steps. -/
def run (code : List Char) (kbd : List (Option Nat)) : Option Interp :=
  run_with 10000 code kbd



/-! ## Typing a byte into a suspended run (v3) -/

/-- The caller's way to supply the byte `b` to a suspended program: the key `b`,
then Enter, both through the running block of `handle_input`. -/
def supply_input (ide : BrainfuckIDE) (b : Nat) : Option (Option Report × BrainfuckIDE) :=
  (handle_input_running ide b).bind (fun r => handle_input_running r.2 10)

/-- F5 on `code`, then the byte `b` supplied as input. -/
def run_then_supply (code : List Char) (b : Nat) : Option (Option Report × BrainfuckIDE) :=
  (run_program (ideWith code)).bind (fun r => supply_input r.2 b)

/-! ## Brainfuck-to-C transpiler, v2 (`src/v2/kernel3.cpp`, lines 727-956) -/

/-- The eight instruction characters. -/
def isInstr (c : Char) : Bool :=
  c = '>' || c = '<' || c = '+' || c = '-' || c = '.' || c = ',' || c = '[' || c = ']'

/-- `BrainfuckCompiler::optimize_bf_code`: the instruction characters of the C
string, in order. -/
def optimize_bf_code : List Char → List Char
  | [] => []
  | c :: cs =>
    if c = NUL then []
    else if isInstr c then c :: optimize_bf_code cs
    else optimize_bf_code cs

/-- Writing state of `compile_to_c`: the cursor, the nesting depth and every
store `output[pos] = c` made so far, newest first. -/
structure Emit where
  out_pos : Int
  loop_depth : Int
  writes : List (Int × Char)

/-- `output[out_pos++] = c;`. -/
def put (e : Emit) (c : Char) : Emit :=
  { e with writes := (e.out_pos, c) :: e.writes, out_pos := e.out_pos + 1 }

/-- A run of `output[out_pos++] = c;` statements. -/
def putAll (e : Emit) (cs : List Char) : Emit := cs.foldl put e

/-- `strcpy(output + out_pos, text)`: the bytes of `text` and the terminator; the
cursor does not move. -/
def strcpyAt (e : Emit) (text : List Char) : Emit :=
  { e with writes := (putAll (putAll e text) [NUL]).writes }

/-- The text of `header` (138 characters). -/
def header : List Char :=
  ("/* Generated by EH-DSB Brainfuck */\n" ++
   "#include <stdio.h>\n\n" ++
   "int main() \x7b\n" ++
   "    unsigned char tape[30000] = \x7b0\x7d;\n" ++
   "    unsigned char* ptr = tape;\n\n").toList

/-- The closing text copied after the loop. -/
def footer : List Char := "\n    return 0;\n\x7d\n".toList

/-- The indentation loop `for (j = 0; j < loop_depth + 1; j++)` with `k`
iterations left: two spaces each time the cursor is below `max - 2`. -/
def indent (max : Nat) : Nat → Emit → Emit
  | 0, e => e
  | k + 1, e =>
    indent max k (if toU32 e.out_pos < subU32 max 2 then put (put e ' ') ' ' else e)

/-- Text stored by the `switch` for an instruction other than `]`. -/
def statementOf (instr : Char) : List Char :=
  if instr = '>' then "++ptr;\n".toList
  else if instr = '<' then "--ptr;\n".toList
  else if instr = '+' then "++(*ptr);\n".toList
  else if instr = '-' then "--(*ptr);\n".toList
  else if instr = '.' then "putchar(*ptr);\n".toList
  else if instr = ',' then "*ptr = getchar();\n".toList
  else if instr = '[' then "while (*ptr) \x7b\n".toList
  else []

/-- Why the `for` loop of `compile_to_c` is left: the end of the filtered source,
the test `(uint32_t)out_pos < max - 100` failing, or `return false` at a `]`
that has no open loop. -/
inductive LoopExit
  | endOfSource
  | budget
  | unmatched
deriving DecidableEq, Repr

/-- The `for` loop of `compile_to_c` (lines 820-947) over the filtered source. -/
def compile_loop (max : Nat) : List Char → Emit → LoopExit × Emit
  | [], e => (.endOfSource, e)
  | instr :: rest, e =>
    if toU32 e.out_pos < subU32 max 100 then
      let e1 := indent max (e.loop_depth + 1).toNat e
      if instr = ']' then
        let e2 := { e1 with loop_depth := e1.loop_depth - 1 }
        if e2.loop_depth < 0 then (.unmatched, e2)
        else
          let e3 := { e2 with out_pos := e2.out_pos - ((e2.loop_depth + 1) * 2 + 2) }
          let e4 := put (put e3 '\x7d') '\n'
          compile_loop max rest { e4 with writes := (e4.out_pos, NUL) :: e4.writes }
      else
        let e2 := putAll e1 (statementOf instr)
        let e3 := if instr = '[' then { e2 with loop_depth := e2.loop_depth + 1 } else e2
        compile_loop max rest { e3 with writes := (e3.out_pos, NUL) :: e3.writes }
    else (.budget, e)

/-- State of `compile_to_c` when the `for` loop is entered: the header is in the
buffer and `out_pos` is its length. -/
def compile_start : Emit :=
  let e := strcpyAt { out_pos := 0, loop_depth := 0, writes := [] } header
  { e with out_pos := e.out_pos + header.length }

/-- How the `for` loop of `compile_to_c(bf_code, output, max_size)` is left. -/
def compile_exit (bf_code : List Char) (max_size : Nat) : LoopExit :=
  (compile_loop max_size (optimize_bf_code bf_code) compile_start).1

/-- `BrainfuckCompiler::compile_to_c(bf_code, output, max_size)`: the return value
and the stores made into `output`, newest first.  The local copy
`optimized[1024]` is taken to hold the source (callers pass at most 1023
characters). -/
def compile_to_c (bf_code : List Char) (max_size : Nat) : Bool × List (Int × Char) :=
  match compile_loop max_size (optimize_bf_code bf_code) compile_start with
  | (.unmatched, e) => (false, e.writes)
  | (_, e) =>
    if e.loop_depth ≠ 0 then (false, e.writes)
    else (true, (strcpyAt e footer).writes)

/-! ## Bracket balance (the notion used by the claims about matching) -/

/-- Change of the nesting depth caused by one character. -/
def bracketWeight (c : Char) : Int := if c = '[' then 1 else if c = ']' then -1 else 0

/-- Running-depth check from depth `d`: the depth never goes below zero and is
zero at the end. -/
def balancedFrom : List Char → Int → Bool
  | [], d => decide (d = 0)
  | c :: cs, d =>
    if d + bracketWeight c < 0 then false else balancedFrom cs (d + bracketWeight c)

/-- A program is bracket-balanced. -/
def balanced (prog : List Char) : Bool := balancedFrom prog 0

/-- Nesting depth in front of position `i`. -/
def depthAt (prog : List Char) (i : Nat) : Int := ((prog.take i).map bracketWeight).sum

/-! ## Straight-line programs as the specification words them -/

/-- Tape, pointer and output of a run. -/
structure Tape where
  cells : Nat → Nat
  pointer : Nat
  output : List Nat

/-- Effect of one character of a program without brackets and input: `>` and `<`
move the pointer modulo 30000, `+` and `-` change the cell by 1 modulo 256, `.`
appends the cell to the output, every other byte changes nothing. -/
def straightStep (t : Tape) (c : Char) : Tape :=
  if c = '>' then { t with pointer := (t.pointer + 1) % 30000 }
  else if c = '<' then { t with pointer := (t.pointer + 29999) % 30000 }
  else if c = '+' then
    { t with cells := Function.update t.cells t.pointer ((t.cells t.pointer + 1) % 256) }
  else if c = '-' then
    { t with cells := Function.update t.cells t.pointer ((t.cells t.pointer + 255) % 256) }
  else if c = '.' then { t with output := t.output ++ [t.cells t.pointer] }
  else t

/-- The fresh tape: all cells zero, pointer 0, nothing written. -/
def freshTape : Tape := { cells := fun _ => 0, pointer := 0, output := [] }

/-- Effect of a whole straight-line program on the fresh tape. -/
def straightRun (code : List Char) : Tape := code.foldl straightStep freshTape

/-- A character other than `[`, `]` and `,`. -/
def isStraight (c : Char) : Bool := c ≠ '[' && c ≠ ']' && c ≠ ','

/-! ## Listing of the store (`src/v3/kernel3.cpp`, lines 318-328) -/

/-- Loop of `get_file`, from slot `i` with `k` slots left and `count` used slots
seen so far; the result is the slot whose address is returned, `none` for the
null pointer. -/
def get_file_from (files : Nat → FileEntry) (index : Int) : Nat → Nat → Int → Option Nat
  | _, 0, _ => none
  | i, k + 1, count =>
    if (files i).used then
      if count = index then some i else get_file_from files index (i + 1) k (count + 1)
    else get_file_from files index (i + 1) k count

/-- `FileSystem::get_file(index)`: the slot of the entry, `none` for the null
pointer. -/
def get_file (s : FileSystem) (index : Int) : Option Nat :=
  if index < 0 ∨ index ≥ (MAX_FILES : Int) then none
  else get_file_from s.files index 0 MAX_FILES 0

/-- The used slots of the table, in ascending slot order. -/
def usedSlots (s : FileSystem) : List Nat :=
  (List.range MAX_FILES).filter (fun i => (s.files i).used)

/-- The store after `create_file("A", "a")`, `create_file("B", "b")`,
`delete_file("A")` and `create_file("C", "c")` on the empty store. -/
def listFS : FileSystem :=
  (create_file (delete_file (create_file (create_file emptyFS [65] (some [97]) false).2
    [66] (some [98]) false).2 [65]).2 [67] (some [99]) false).2

/-! ## Program store, v2 (`src/v2/kernel3.cpp`, lines 10-12, 33-38, 302-433) -/

namespace V2

/-- `#define MAX_FILES 16` of v2. -/
def MAX_FILES : Nat := 16

/-- `#define MAX_FILE_SIZE 2048` of v2. -/
def MAX_FILE_SIZE : Nat := 2048

/-- `struct FileEntry` of v2. -/
structure FileEntry where
  name : List Nat
  size : Nat
  data_offset : Nat
  used : Bool
deriving DecidableEq, Repr

/-- `class FileSystem` of v2: the table and the memory at `fs_buffer`
(`FS_START`). -/
structure FileSystem where
  files : Nat → FileEntry
  fs_buffer : Nat → Nat

/-- `strcpy(dest, src)` into an array given as the list of its bytes: the
characters of `src`, the terminator, and the old bytes behind it.  A source
longer than the array overruns it in the C code; the list is cut at the end of
the array, so the definition describes sources that fit (12 characters for a
name). -/
def strcpy : List Nat → List Nat → List Nat
  | _ :: ds, s :: ss => if s ≠ 0 then s :: strcpy ds ss else 0 :: ds
  | _ :: ds, [] => 0 :: ds
  | [], _ => []

/-- The table as the constructor leaves it before `create_default_files`, over a
zeroed memory. -/
def emptyFS : FileSystem :=
  { files := fun _ => { name := List.replicate 13 0, size := 0, data_offset := 0, used := false }
    fs_buffer := fun _ => 0 }

/-- Loop of `find_free_file`, from index `i` with `k` indices left. -/
def find_free_file_from (files : Nat → FileEntry) : Nat → Nat → Int
  | _, 0 => -1
  | i, k + 1 => if !(files i).used then (i : Int) else find_free_file_from files (i + 1) k

/-- `FileSystem::find_free_file` of v2. -/
def find_free_file (s : FileSystem) : Int := find_free_file_from s.files 0 MAX_FILES

/-- Loop of `find_file`, from index `i` with `k` indices left. -/
def find_file_from (files : Nat → FileEntry) (name : List Nat) : Nat → Nat → Int
  | _, 0 => -1
  | i, k + 1 =>
    if (files i).used && decide (strcmp (files i).name name = 0) then (i : Int)
    else find_file_from files name (i + 1) k

/-- `FileSystem::find_file` of v2. -/
def find_file (s : FileSystem) (name : List Nat) : Int :=
  find_file_from s.files name 0 MAX_FILES

/-- The loop that computes `offset` in `create_file` and `save_file`: the sum, in
`uint32_t`, of the sizes of the used entries other than `idx`. -/
def offset_from (files : Nat → FileEntry) (idx : Nat) : Nat → Nat → Nat → Nat
  | _, 0, offset => offset
  | i, k + 1, offset =>
    offset_from files idx (i + 1) k
      (if (files i).used ∧ i ≠ idx then (offset + (files i).size) % UINT32_MOD else offset)

/-- `FileSystem::create_file(name, content)` of v2. -/
def create_file (s : FileSystem) (name content : List Nat) : Bool × FileSystem :=
  let idx := find_free_file s
  if idx = -1 then (false, s)
  else
    let i := idx.toNat
    let e1 : FileEntry :=
      { s.files i with name := strcpy (s.files i).name name, size := strlen content % UINT32_MOD }
    let s1 : FileSystem := { s with files := Function.update s.files i e1 }
    let offset := offset_from s1.files i 0 MAX_FILES 0
    if (offset + e1.size) % UINT32_MOD > 0x8000 then (false, s1)
    else
      (true,
        { files := Function.update s1.files i { e1 with data_offset := offset, used := true }
          fs_buffer := memcpy s1.fs_buffer offset (bytesOf content) 0 e1.size })

/-- Lines 390-408 of `save_file`, common to both branches. -/
def save_file_finish (s : FileSystem) (i : Nat) (content : List Nat) (size : Nat) :
    Bool × FileSystem :=
  let s1 : FileSystem :=
    { s with files := Function.update s.files i { s.files i with size := size } }
  let offset := offset_from s1.files i 0 MAX_FILES 0
  if (offset + size) % UINT32_MOD > 0x8000 then (false, s1)
  else
    (true,
      { files := Function.update s1.files i { s1.files i with data_offset := offset }
        fs_buffer := memcpy s1.fs_buffer offset (bytesOf content) 0 size })

/-- `FileSystem::save_file(name, content, size)` of v2. -/
def save_file (s : FileSystem) (name content : List Nat) (size : Nat) : Bool × FileSystem :=
  let idx := find_file s name
  if idx = -1 then
    let idx := find_free_file s
    if idx = -1 then (false, s)
    else
      let i := idx.toNat
      let e1 : FileEntry :=
        { s.files i with name := strcpy (s.files i).name name, used := true }
      save_file_finish { s with files := Function.update s.files i e1 } i content size
  else save_file_finish s idx.toNat content size

/-- `FileSystem::load_file(name, buffer, size)` of v2: the return value, the
caller's buffer and the caller's `size` variable. -/
def load_file (s : FileSystem) (name : List Nat) (buffer : Nat → Nat) (size : Nat) :
    Bool × (Nat → Nat) × Nat :=
  let idx := find_file s name
  if idx = -1 then (false, buffer, size)
  else
    let i := idx.toNat
    let size := (s.files i).size
    let size := if size > MAX_FILE_SIZE then MAX_FILE_SIZE else size
    let buffer := memcpy buffer 0 s.fs_buffer (s.files i).data_offset size
    let buffer := if size < MAX_FILE_SIZE then Function.update buffer size 0 else buffer
    (true, buffer, size)

/-- `FileSystem::delete_file(name)` of v2. -/
def delete_file (s : FileSystem) (name : List Nat) : Bool × FileSystem :=
  let idx := find_file s name
  if idx = -1 then (false, s)
  else
    let i := idx.toNat
    (true, { s with files := Function.update s.files i { s.files i with used := false } })

/-- Content of "README.TXT" in `create_default_files` of v2. -/
def README_TXT : List Nat :=
  cstr ("EH-DSB*beta_1\n\nWelcome to Event Horizon DSB!\nThis is a real operating system.\n\n" ++
    "Commands:\n- edit [file] - Text Editor\n- files - File Manager\n- calc - Calculator\n" ++
    "- brainfuck - Brainfuck IDE\n- time - Show time\n- clear - Clear screen\n" ++
    "- about - System info\n\nPress F1-F5 for quick access.")

/-- Content of "HELP.TXT". -/
def HELP_TXT : List Nat :=
  cstr ("EH-DSB*beta_1 Help\n\nF1 - Text Editor\nF2 - Calculator\nF3 - File Manager\n" ++
    "F5 - Brainfuck IDE\n\nIn Text Editor:\n- F4 - Save file\n- F1 - Exit\n\n" ++
    "In Brainfuck IDE:\n- F5 - Run\n- F6 - Compile\n- F7 - Save\n- F8 - Load\n" ++
    "- F9 - Examples\n- F10 - Exit")

/-- Content of "SYSTEM.CFG". -/
def SYSTEM_CFG : List Nat :=
  cstr "[System]\nVersion=beta_1\nShell=ehdsb\nMemory=640KB\nFiles=16 max\nClock=RTC"

/-- Content of "HELLO.BF". -/
def HELLO_BF : List Nat :=
  cstr ("++++++++[>++++[>++>+++>+++>+<<<<-]>+>+>->>+[<]<-]>>.>---.+++++++..+++.>>.<-.<.+++." ++
    "------.--------.>>+.>++.")

/-- Content of "CAT.BF". -/
def CAT_BF : List Nat := cstr ",.[,.]"

/-- Content of "FIB.BF". -/
def FIB_BF : List Nat :=
  cstr (">++++++++++>+>+[\n    [+++++[>++++++++<-]>.<++++++[>--------<-]+<<<]>.>>[\n" ++
    "        [-]<[>+<-]>>[<<+>>-]<<<<<.>\n    ]\n]")

/-- `FileSystem::create_default_files` of v2: six `create_file` calls. -/
def create_default_files (s : FileSystem) : FileSystem :=
  let s := (create_file s (cstr "README.TXT") README_TXT).2
  let s := (create_file s (cstr "HELP.TXT") HELP_TXT).2
  let s := (create_file s (cstr "SYSTEM.CFG") SYSTEM_CFG).2
  let s := (create_file s (cstr "HELLO.BF") HELLO_BF).2
  let s := (create_file s (cstr "CAT.BF") CAT_BF).2
  (create_file s (cstr "FIB.BF") FIB_BF).2

/-- The store as the constructor `FileSystem()` leaves it. -/
def bootFS : FileSystem := create_default_files emptyFS

/-- Store states reached from the constructor's table by calls of `create_file`,
`save_file` and `delete_file`, whatever they return; the default files are
`create_file` calls themselves. -/
inductive Reachable : FileSystem → Prop
  | empty : Reachable emptyFS
  | create (s : FileSystem) (name content : List Nat) :
      Reachable s → Reachable (create_file s name content).2
  | save (s : FileSystem) (name content : List Nat) (size : Nat) :
      Reachable s → Reachable (save_file s name content size).2
  | delete (s : FileSystem) (name : List Nat) :
      Reachable s → Reachable (delete_file s name).2

end V2

/-- A store whose backing region holds the magic and the cursor 0xFFFFFFFF in its
header, and an empty table. -/
def wrapFS : FileSystem :=
  { emptyFS with
    fs_header :=
      { magic := FS_MAGIC, version := 2, next_free_offset := 4294967295, file_count := 0 } }

/-! ## Programs that run for an exact number of steps -/

/-- A source that runs for exactly `a * (L + 3) + 1` steps: `a` times `+`, a `[`,
`L` blanks, `-` and `]`. -/
def countdown (a L : Nat) : List Char :=
  List.replicate a '+' ++ '[' :: (List.replicate L ' ' ++ ['-', ']'])

/-- State of the v3 loop on a `countdown` source: cell 0 holds `c`. -/
def countState (c pc steps : Nat) (ip : Int) : Exec :=
  { memory := Function.update (fun _ => 0) 0 c, ptr := 0, pc := (pc : Int),
    steps := (steps : Int), running := true, input_mode := false, input_pos := ip, out := [] }

/-- State of the v2 loop on a `countdown` source with no key pressed: cell 0 holds
`c`. -/
def countInterp (c pc steps : Nat) : Interp :=
  { memory := Function.update (fun _ => 0) 0 c, mem_ptr := 0, program_counter := pc,
    running := true, output_buffer := [], steps := (steps : Int), messages := [], kbd := [] }

/-- The source "++[>+++<-]>.": 2 times 3, written out as one byte. -/
def timesThree : List Char := ['+', '+', '[', '>', '+', '+', '+', '<', '-', ']', '>', '.']

/-! ## Shape of the generated text -/

/-- The byte of the output buffer at `pos` after the stores `writes` (newest
first); `none` where nothing was stored. -/
def outputAt : List (Int × Char) → Int → Option Char
  | [], _ => none
  | (p, c) :: ws, pos => if p = pos then some c else outputAt ws pos

/-- Nesting depth behind an instruction executed at depth `d`. -/
def depthAfter (c : Char) (d : Nat) : Nat :=
  if c = '[' then d + 1 else if c = ']' then d - 1 else d

/-- The line the claim describes for an instruction at depth `d`: indentation of
`2 * (d + 1)` blanks and the statement; the `}` of a `]` indented like the
`while` line of the `[` it closes, that is at depth `d - 1`. -/
def claimedLine (d : Nat) (c : Char) : List Char :=
  if c = ']' then List.replicate (2 * (d - 1 + 1)) ' ' ++ ['\x7d', '\n']
  else List.replicate (2 * (d + 1)) ' ' ++ statementOf c

/-- The lines the claim describes for a filtered source, from depth `d`. -/
def claimedBody : List Char → Nat → List Char
  | [], _ => []
  | c :: cs, d => claimedLine d c ++ claimedBody cs (depthAfter c d)

/-- The text the claim describes: header, one line per instruction, closing
text. -/
def claimedText (bf_code : List Char) : List Char :=
  header ++ claimedBody (optimize_bf_code bf_code) 0 ++ footer

/-- The line that the loop stores for an instruction at depth `d`: as above, but
the `}` of a `]` has no indentation. -/
def emittedLine (d : Nat) (c : Char) : List Char :=
  if c = ']' then ['\x7d', '\n'] else List.replicate (2 * (d + 1)) ' ' ++ statementOf c

/-- The lines that the loop stores for a filtered source, from depth `d`. -/
def emittedBody : List Char → Nat → List Char
  | [], _ => []
  | c :: cs, d => emittedLine d c ++ emittedBody cs (depthAfter c d)

/-- The text that `compile_to_c` stores: header, one line per instruction, closing
text. -/
def emittedText (bf_code : List Char) : List Char :=
  header ++ emittedBody (optimize_bf_code bf_code) 0 ++ footer

/-- Greatest nesting depth reached by a filtered source, from depth `d`. -/
def nesting : List Char → Nat → Nat
  | [], d => d
  | c :: cs, d => max d (nesting cs (depthAfter c d))

/-- The stores `writes` hold the text `T` from position 0 on. -/
def holdsText (writes : List (Int × Char)) (T : List Char) : Prop :=
  ∀ i : Nat, i < T.length → outputAt writes (i : Int) = T[i]?

instance (writes : List (Int × Char)) (T : List Char) : Decidable (holdsText writes T) :=
  Nat.decidableBallLT _ _

/-! ## Store states with a repeated name or a wrapped cursor -/

/-- Two used entries named "X" after two calls of `create_file`: a writable one
in slot 0 and a read-only one in slot 1. -/
def shadowFS : FileSystem :=
  (create_file (create_file emptyFS [88] (some [97]) false).2 [88] (some [98]) true).2

/-- Two used writable entries named "X" after two calls of `create_file`, with
contents "a" (slot 0) and "b" (slot 1). -/
def twinFS : FileSystem :=
  (create_file (create_file emptyFS [88] (some [97]) false).2 [88] (some [98]) false).2

/-- The 11 characters "ABCDEFGH.TX" that `strncpy(.., 12)` keeps of `name12`. -/
def name11 : List Nat := [65, 66, 67, 68, 69, 70, 71, 72, 46, 84, 88]

/-- Two used entries that both bear the stored name "ABCDEFGH.TX", after two
calls `save_file("ABCDEFGH.TXT", ..)`. -/
def twin12FS : FileSystem := (save_file (save_file emptyFS name12 [97] 1).2 name12 [98] 1).2

/-- The files "K" = "abc" (offsets 0 to 2) and "X" = "q" (offset 3), then the
failed call `save_file("A", .., 0xFFFFFFFB)`, which leaves the cursor at
0xFFFFFFFF. -/
def highFS : FileSystem :=
  (save_file (save_file (save_file emptyFS [75] [97, 98, 99] 3).2 [88] [113] 1).2
    [65] [] 4294967291).2

/-- The store `highFS` after `save_file("X", "xy", 2)`. -/
def wrappedFS : FileSystem := (save_file highFS [88] [120, 121] 2).2

/-! ## Store lemmas -/

theorem memcpy_apply (dmem : Nat → Nat) (d : Nat) (smem : Nat → Nat) (s0 n a : Nat) :
    memcpy dmem d smem s0 n a =
      if d ≤ a ∧ a < d + n then smem (s0 + (a - d)) else dmem a := by
  unfold memcpy
  induction n with
  | zero =>
    have h0 : ¬ (d ≤ a ∧ a < d + 0) := by omega
    rw [if_neg h0]
    rfl
  | succ n ih =>
    rw [List.range_succ, List.foldl_append]
    simp only [List.foldl_cons, List.foldl_nil]
    by_cases h : a = d + n
    · subst h
      simp
    · rw [Function.update_noteq h, ih]
      by_cases h1 : d ≤ a ∧ a < d + n
      · have h2 : d ≤ a ∧ a < d + (n + 1) := ⟨h1.1, by omega⟩
        rw [if_pos h1, if_pos h2]
      · have h2 : ¬ (d ≤ a ∧ a < d + (n + 1)) := by
          intro h3
          exact h1 ⟨h3.1, by omega⟩
        rw [if_neg h1, if_neg h2]

theorem find_file_from_spec (files : Nat → FileEntry) (name : List Nat) :
    ∀ k i, (find_file_from files name i k = -1 ∧
        ∀ j, i ≤ j → j < i + k → nameHit (files j) name = false) ∨
      ∃ j : Nat, find_file_from files name i k = (j : Int) ∧ i ≤ j ∧ j < i + k ∧
        nameHit (files j) name = true ∧
        ∀ j', i ≤ j' → j' < j → nameHit (files j') name = false := by
  intro k
  induction k with
  | zero =>
    intro i
    left
    refine ⟨rfl, ?_⟩
    intro j h1 h2
    omega
  | succ k ih =>
    intro i
    by_cases h : nameHit (files i) name = true
    · right
      refine ⟨i, ?_, le_refl i, by omega, h, ?_⟩
      · simp [find_file_from, h]
      · intro j' h1 h2
        omega
    · have hf : nameHit (files i) name = false := by simpa using h
      have hstep : find_file_from files name i (k + 1) = find_file_from files name (i + 1) k := by
        simp [find_file_from, hf]
      rcases ih (i + 1) with ⟨h1, h2⟩ | ⟨j, h1, h2, h3, h4, h5⟩
      · left
        refine ⟨by rw [hstep, h1], ?_⟩
        intro j hj1 hj2
        by_cases hji : j = i
        · rw [hji]; exact hf
        · exact h2 j (by omega) (by omega)
      · right
        refine ⟨j, by rw [hstep, h1], by omega, by omega, h4, ?_⟩
        intro j' hj1 hj2
        by_cases hji : j' = i
        · rw [hji]; exact hf
        · exact h5 j' (by omega) hj2

theorem find_file_from_unique (files : Nat → FileEntry) (name : List Nat) (k i j : Nat)
    (h1 : i ≤ j) (h2 : j < i + k) (h3 : nameHit (files j) name = true)
    (h4 : ∀ j', i ≤ j' → j' < j → nameHit (files j') name = false) :
    find_file_from files name i k = (j : Int) := by
  rcases find_file_from_spec files name k i with ⟨_, g2⟩ | ⟨j0, g1, g2, g3, g4, g5⟩
  · rw [g2 j h1 h2] at h3
    exact absurd h3 (by simp)
  · rw [g1]
    have : j0 = j := by
      rcases Nat.lt_trichotomy j0 j with hlt | heq | hgt
      · rw [h4 j0 g2 hlt] at g4
        exact absurd g4 (by simp)
      · exact heq
      · rw [g5 j h1 hgt] at h3
        exact absurd h3 (by simp)
    rw [this]

theorem find_free_file_from_spec (files : Nat → FileEntry) :
    ∀ k i, find_free_file_from files i k = -1 ∨
      ∃ j : Nat, find_free_file_from files i k = (j : Int) ∧ i ≤ j ∧ j < i + k ∧
        (files j).used = false := by
  intro k
  induction k with
  | zero =>
    intro i
    left
    rfl
  | succ k ih =>
    intro i
    by_cases h : (files i).used = true
    · have hstep : find_free_file_from files i (k + 1) = find_free_file_from files (i + 1) k := by
        simp [find_free_file_from, h]
      rcases ih (i + 1) with h1 | ⟨j, h1, h2, h3, h4⟩
      · left
        rw [hstep, h1]
      · right
        exact ⟨j, by rw [hstep, h1], by omega, by omega, h4⟩
    · have hf : (files i).used = false := by simpa using h
      right
      refine ⟨i, ?_, le_refl i, by omega, hf⟩
      simp [find_free_file_from, hf]

theorem strcmp_strncpy (src : List Nat) (hsrc : ∀ c ∈ src, c ≠ 0) :
    ∀ (dest : List Nat) (n : Nat), src.length + 1 ≤ n → src.length + 1 ≤ dest.length →
      strcmp (strncpy dest src n) src = 0 := by
  induction src with
  | nil =>
    intro dest n _ hd
    cases dest with
    | nil => simp at hd
    | cons d ds =>
      cases n with
      | zero => simp [strncpy, strcmp, scharVal]
      | succ n =>
        cases n with
        | zero => simp [strncpy, strcmp, scharVal]
        | succ n => simp [strncpy, strcmp, scharVal]
  | cons c cs ih =>
    intro dest n hn hd
    have hc : c ≠ 0 := hsrc c (by simp)
    have hcs : ∀ x ∈ cs, x ≠ 0 := fun x hx => hsrc x (by simp [hx])
    cases dest with
    | nil => simp at hd
    | cons d ds =>
      obtain ⟨m, rfl⟩ : ∃ m, n = m + 2 := ⟨n - 2, by simp at hn; omega⟩
      simp only [List.length_cons] at hn hd
      have := ih hcs ds (m + 1) (by omega) (by omega)
      simp [strncpy, strcmp, hc, this]

theorem find_file_congr (s t : FileSystem) (name : List Nat)
    (h : ∀ j, j < MAX_FILES → nameHit (t.files j) name = nameHit (s.files j) name) :
    find_file t name = find_file s name := by
  unfold find_file
  rcases find_file_from_spec s.files name MAX_FILES 0 with ⟨g1, g2⟩ | ⟨j, g1, g2, g3, g4, g5⟩
  · rw [g1]
    rcases find_file_from_spec t.files name MAX_FILES 0 with ⟨k1, _⟩ | ⟨j, _, k2, k3, k4, _⟩
    · exact k1
    · rw [h j (by omega), g2 j k2 k3] at k4
      exact absurd k4 (by simp)
  · rw [g1]
    apply find_file_from_unique t.files name MAX_FILES 0 j g2 g3
    · rw [h j (by omega)]; exact g4
    · intro j' h1 h2
      rw [h j' (by omega)]
      exact g5 j' h1 h2

theorem load_file_of_find (s : FileSystem) (name : List Nat) (buffer : Nat → Nat) (sz0 i : Nat)
    (h : find_file s name = (i : Int)) :
    (load_file s name buffer sz0).1 = true ∧
    (load_file s name buffer sz0).2.2 = min (s.files i).size MAX_FILE_SIZE ∧
    ∀ a, a < min (s.files i).size MAX_FILE_SIZE →
      (load_file s name buffer sz0).2.1 a = s.fs_data ((s.files i).data_offset + a) := by
  have hne : ¬ ((i : Int) = -1) := by omega
  have hmin : (if (s.files i).size > MAX_FILE_SIZE then MAX_FILE_SIZE else (s.files i).size)
      = min (s.files i).size MAX_FILE_SIZE := by
    split <;> omega
  simp only [load_file, h, hne, if_false, Int.toNat_ofNat, hmin]
  refine ⟨trivial, trivial, ?_⟩
  intro a ha
  have hcopy : memcpy buffer 0 s.fs_data (s.files i).data_offset
      (min (s.files i).size MAX_FILE_SIZE) a = s.fs_data ((s.files i).data_offset + a) := by
    rw [memcpy_apply, if_pos ⟨Nat.zero_le a, by omega⟩]
    simp
  split
  · rw [Function.update_noteq (by omega)]
    exact hcopy
  · exact hcopy

/-- What a successful `save_file` leaves behind: the name resolves to a slot whose
size and offset are the saved size and the old allocation cursor, and the data
region holds the content at that offset. -/
theorem save_file_true_spec (s : FileSystem) (name content : List Nat) (size : Nat)
    (hwf : s.wf) (hname : ∀ c ∈ name, c ≠ 0) (hlen : name.length ≤ 11)
    (hsave : (save_file s name content size).1 = true) :
    ∃ i : Nat, find_file (save_file s name content size).2 name = (i : Int) ∧
      ((save_file s name content size).2.files i).size = size ∧
      ((save_file s name content size).2.files i).data_offset = s.next_free_offset ∧
      (save_file s name content size).2.fs_data =
        memcpy s.fs_data s.next_free_offset (bytesOf content) 0 size := by
  rcases find_file_from_spec s.files name MAX_FILES 0 with ⟨g1, g2⟩ | ⟨j, g1, g2, g3, g4, g5⟩
  · -- the name is new: a free slot is taken
    have hfind : find_file s name = -1 := g1
    rcases find_free_file_from_spec s.files MAX_FILES 0 with f1 | ⟨f, f1, f2, f3, f4⟩
    · have hfree : find_free_file s = -1 := f1
      simp [save_file, hfind, hfree] at hsave
    · have hfree : find_free_file s = (f : Int) := f1
      have hne : ¬ ((f : Int) = -1) := by omega
      simp only [save_file, hfind, hfree, hne, if_true, if_false, Int.toNat_ofNat,
        save_file_finish, Function.update_same] at hsave ⊢
      split at hsave
      · simp at hsave
      · rename_i hcap
        rw [if_neg hcap]
        refine ⟨f, ?_, ?_, ?_, ?_⟩
        · apply find_file_from_unique _ name MAX_FILES 0 f f2 f3
          · simp only [save_metadata, Function.update_same, nameHit, Bool.true_and,
              decide_eq_true_eq, Function.update_idem]
            apply strcmp_strncpy name hname
            · omega
            · rw [hwf f (by omega)]; omega
          · intro j' h1 h2
            simp only [save_metadata, Function.update_idem]
            rw [Function.update_noteq (by omega)]
            exact g2 j' h1 (by omega)
        · simp [save_metadata]
        · simp [save_metadata]
        · simp [save_metadata]
  · -- the name exists: its slot is redirected to a fresh offset
    have hfind : find_file s name = (j : Int) := g1
    have hne : ¬ ((j : Int) = -1) := by omega
    simp only [save_file, hfind, hne, if_false, Int.toNat_ofNat,
      save_file_finish, Function.update_same] at hsave ⊢
    split at hsave
    · simp at hsave
    · split at hsave
      · simp at hsave
      · rename_i hro hcap
        rw [if_neg hro, if_neg hcap]
        refine ⟨j, ?_, ?_, ?_, ?_⟩
        · apply find_file_from_unique _ name MAX_FILES 0 j g2 g3
          · simp only [save_metadata, Function.update_same, Function.update_idem, nameHit]
            exact g4
          · intro j' h1 h2
            simp only [save_metadata, Function.update_idem]
            rw [Function.update_noteq (by omega)]
            exact g5 j' h1 h2
        · simp [save_metadata]
        · simp [save_metadata]
        · simp [save_metadata]

theorem emptyFS_wf : emptyFS.wf := by
  intro i _
  rfl

/-! ## Claims about the program store -/

/-- C1 (as amended): round trip of the v3 store.  For every store state with
13-byte name fields, every name of at most 11 non-zero bytes and every content
of `size` bytes that fits in the remaining capacity, once `save_file` has
returned true, `load_file` of the same name returns true, reports
`min size MAX_FILE_SIZE` as size and hands back the first
`min size MAX_FILE_SIZE` bytes of the content. -/
theorem save_load_round_trip (s : FileSystem) (name content : List Nat) (size : Nat)
    (buffer : Nat → Nat) (sz0 : Nat)
    (hwf : s.wf) (hname : ∀ c ∈ name, c ≠ 0) (hlen : name.length ≤ 11)
    (hsize : size ≤ content.length)
    (_hcap : s.next_free_offset + size ≤ FS_TOTAL_SIZE - FS_METADATA_SIZE)
    (hsave : (save_file s name content size).1 = true) :
    (load_file (save_file s name content size).2 name buffer sz0).1 = true ∧
    (load_file (save_file s name content size).2 name buffer sz0).2.2
      = min size MAX_FILE_SIZE ∧
    bufferBytes (load_file (save_file s name content size).2 name buffer sz0).2.1
        (min size MAX_FILE_SIZE)
      = content.take (min size MAX_FILE_SIZE) := by
  obtain ⟨i, h1, h2, h3, h4⟩ := save_file_true_spec s name content size hwf hname hlen hsave
  obtain ⟨l1, l2, l3⟩ := load_file_of_find (save_file s name content size).2 name buffer sz0 i h1
  rw [h2] at l2 l3
  refine ⟨l1, l2, ?_⟩
  apply List.ext_getElem
  · simp [bufferBytes]
    omega
  · intro a ha1 ha2
    simp only [bufferBytes, List.length_map, List.length_range] at ha1
    simp only [bufferBytes, List.getElem_map, List.getElem_range, List.getElem_take]
    rw [l3 a ha1, h3, h4, memcpy_apply, if_pos ⟨by omega, by omega⟩]
    simp only [bytesOf, Nat.add_sub_cancel_left, Nat.zero_add]
    rw [List.getD_eq_getElem _ _ (by omega)]

/-- Witness of `save_load_round_trip`: "A.BF" with the three bytes of "++." on the
empty store. -/
theorem save_load_round_trip_witness :
    (save_file emptyFS [65, 46, 66, 70] [43, 43, 46] 3).1 = true ∧
    (load_file (save_file emptyFS [65, 46, 66, 70] [43, 43, 46] 3).2 [65, 46, 66, 70]
      (fun _ => 0) 0).2.2 = min 3 MAX_FILE_SIZE ∧
    bufferBytes (load_file (save_file emptyFS [65, 46, 66, 70] [43, 43, 46] 3).2
      [65, 46, 66, 70] (fun _ => 0) 0).2.1 (min 3 MAX_FILE_SIZE)
      = [43, 43, 46].take (min 3 MAX_FILE_SIZE) :=
  ⟨by decide,
   (save_load_round_trip emptyFS [65, 46, 66, 70] [43, 43, 46] 3 (fun _ => 0) 0
      emptyFS_wf (by decide) (by decide) (by decide) (by decide) (by decide)).2⟩

/-- C1 as stated fails: a content of 8193 bytes fits in the data region of the
empty store and `save_file` returns true, yet `load_file` reports 8192 bytes,
not the saved size. -/
theorem save_load_size_counterexample :
    0 + 8193 ≤ FS_TOTAL_SIZE - FS_METADATA_SIZE ∧
    (save_file emptyFS [65] (List.replicate 8193 7) 8193).1 = true ∧
    (load_file (save_file emptyFS [65] (List.replicate 8193 7) 8193).2 [65]
      (fun _ => 0) 0).1 = true ∧
    (load_file (save_file emptyFS [65] (List.replicate 8193 7) 8193).2 [65]
      (fun _ => 0) 0).2.2 = 8192 ∧
    (load_file (save_file emptyFS [65] (List.replicate 8193 7) 8193).2 [65]
      (fun _ => 0) 0).2.2 ≠ 8193 := by
  decide

/-- C2: evaluation of `save_file` on a request that exceeds the data region.  On
the store that holds "A.BF" = "+", saving 126977 bytes under "A.BF" returns
false, yet the entry now has the new size and offset, so `load_file` no longer
reports the prior single byte; on the empty store the same failed save of the
new name "B.BF" leaves a used entry behind, so `load_file` finds it; the
allocation cursor has moved in both cases. -/
theorem save_file_failure_not_atomic :
    (save_file (save_file emptyFS [65, 46, 66, 70] [43] 1).2 [65, 46, 66, 70]
      (List.replicate 126977 0) 126977).1 = false ∧
    (load_file (save_file emptyFS [65, 46, 66, 70] [43] 1).2 [65, 46, 66, 70]
      (fun _ => 0) 0).2.2 = 1 ∧
    (load_file (save_file (save_file emptyFS [65, 46, 66, 70] [43] 1).2 [65, 46, 66, 70]
      (List.replicate 126977 0) 126977).2 [65, 46, 66, 70] (fun _ => 0) 0).2.2 = 8192 ∧
    (save_file (save_file emptyFS [65, 46, 66, 70] [43] 1).2 [65, 46, 66, 70]
      (List.replicate 126977 0) 126977).2.next_free_offset = 126978 ∧
    (save_file emptyFS [66, 46, 66, 70] (List.replicate 126977 0) 126977).1 = false ∧
    (load_file emptyFS [66, 46, 66, 70] (fun _ => 0) 0).1 = false ∧
    (load_file (save_file emptyFS [66, 46, 66, 70] (List.replicate 126977 0) 126977).2
      [66, 46, 66, 70] (fun _ => 0) 0).1 = true ∧
    (save_file emptyFS [66, 46, 66, 70] (List.replicate 126977 0) 126977).2.next_free_offset
      = 126977 := by
  decide

theorem find_file_of_first_hit (s : FileSystem) (name : List Nat) (i : Nat)
    (hi : i < MAX_FILES) (hhit : nameHit (s.files i) name = true)
    (hfirst : ∀ j, j < i → nameHit (s.files j) name = false) :
    find_file s name = (i : Int) :=
  find_file_from_unique s.files name MAX_FILES 0 i (Nat.zero_le i) (by omega) hhit
    (fun j _ hj => hfirst j hj)

/-- Read-only enforcement of the v3 store for a name that designates the entry.
For every store state and every used entry `i` whose `read_only` flag is set,
calling `save_file`, `delete_file` or `rename_file` with a name that designates
that entry (the entry bears it and no earlier used entry does) returns false
and leaves the whole store (entry table, `next_free_offset`, backing region)
unchanged.  The hypothesis `hfirst` is needed: behind a writable entry of the
same name the calls act on that entry. -/
theorem read_only_enforced (s : FileSystem) (i : Nat) (name content new_name : List Nat)
    (size : Nat)
    (hi : i < MAX_FILES) (hused : (s.files i).used = true)
    (hro : (s.files i).read_only = true)
    (hname : strcmp (s.files i).name name = 0)
    (hfirst : ∀ j, j < i → nameHit (s.files j) name = false) :
    save_file s name content size = (false, s) ∧
    delete_file s name = (false, s) ∧
    rename_file s name new_name = (false, s) := by
  have hhit : nameHit (s.files i) name = true := by simp [nameHit, hused, hname]
  have hfind := find_file_of_first_hit s name i hi hhit hfirst
  have hne : ¬ ((i : Int) = -1) := by omega
  refine ⟨?_, ?_, ?_⟩
  · simp [save_file, hfind, hne, hro]
  · simp [delete_file, hfind, hne, hro]
  · simp [rename_file, hfind, hne, hro]

/-- Witness of `read_only_enforced` on `roFS`. -/
theorem read_only_enforced_witness :
    (roFS.files 0).used = true ∧ (roFS.files 0).read_only = true ∧
    save_file roFS [82] [43, 43] 2 = (false, roFS) ∧
    delete_file roFS [82] = (false, roFS) ∧
    rename_file roFS [82] [83] = (false, roFS) :=
  ⟨by decide, by decide,
   read_only_enforced roFS 0 [82] [43, 43] [83] 2 (by decide) (by decide) (by decide)
     (by decide) (by intro j hj; omega)⟩

/-- C4: rename collision in the v3 store.  For every store state and all names
`old_name`, `new_name` such that `new_name` is the name of a used entry,
`rename_file old_name new_name` returns false and the store, hence every
entry, is unchanged. -/
theorem rename_collision (s : FileSystem) (old_name new_name : List Nat) (i : Nat)
    (hi : i < MAX_FILES) (hused : (s.files i).used = true)
    (hname : strcmp (s.files i).name new_name = 0) :
    rename_file s old_name new_name = (false, s) := by
  have hhit : nameHit (s.files i) new_name = true := by simp [nameHit, hused, hname]
  have hnew : find_file s new_name ≠ -1 := by
    intro h
    rcases find_file_from_spec s.files new_name MAX_FILES 0 with ⟨_, g2⟩ | ⟨j, g1, _, _, _, _⟩
    · rw [g2 i (Nat.zero_le i) (by omega)] at hhit
      exact absurd hhit (by simp)
    · unfold find_file at h
      rw [g1] at h
      omega
  by_cases h1 : find_file s old_name = -1
  · simp [rename_file, h1]
  · by_cases h2 : (s.files (find_file s old_name).toNat).read_only = true
    · simp [rename_file, h1, h2]
    · simp [rename_file, h1, h2, hnew]

/-- Witness of `rename_collision`: renaming "X" to the existing "Y". -/
theorem rename_collision_witness :
    (twoFS.files 1).used = true ∧ strcmp (twoFS.files 1).name [89] = 0 ∧
    rename_file twoFS [88] [89] = (false, twoFS) :=
  ⟨by decide, by decide,
   rename_collision twoFS [88] [89] 1 (by decide) (by decide) (by decide)⟩

/-! ## Engine lemmas -/

theorem run_loop_brk (code : List Char) (ib : Nat → Nat) (N : Int) (fuel : Nat) (st st1 : Exec)
    (hc : progAt code st.pc ≠ NUL) (hs : st.steps < N) (hr : st.running = true)
    (hsw : exec_switch code ib (progAt code st.pc) { st with steps := st.steps + 1 }
      = some (.brk st1)) :
    run_loop code ib N (fuel + 1) st = run_loop code ib N fuel { st1 with pc := st1.pc + 1 } := by
  simp only [run_loop]
  rw [if_pos ⟨hc, hs, hr⟩]
  simp only [hsw]

theorem run_loop_limit (code : List Char) (ib : Nat → Nat) (N : Int) (fuel : Nat) (st : Exec)
    (hs : N ≤ st.steps) :
    run_loop code ib N (fuel + 1) st
      = some (.tooManySteps, { st with running := false, input_mode := false }) := by
  have h : ¬ st.steps < N := by omega
  simp [run_loop, h, hs]

/-- The program "+[]" once the cell is 1 and `pc` stands on the `]`: every further
step is the `]` jumping back to itself, until the step limit. -/
theorem run_loop_spin (ib : Nat → Nat) (N : Int) :
    ∀ (k : Nat) (st : Exec), st.pc = 2 → st.ptr = 0 → st.memory 0 = 1 → st.running = true →
      st.steps + k = N →
      run_loop ['+', '[', ']'] ib N (k + 1) st
        = some (.tooManySteps, { st with steps := N, running := false, input_mode := false }) := by
  intro k
  induction k with
  | zero =>
    intro st _ _ _ _ hsteps
    rw [run_loop_limit _ _ _ _ _ (by omega)]
    have : st.steps = N := by omega
    rw [← this]
  | succ k ih =>
    intro st hpc hptr hmem hrun hsteps
    have hat : progAt ['+', '[', ']'] st.pc = ']' := by rw [hpc]; decide
    have hsw : exec_switch ['+', '[', ']'] ib (progAt ['+', '[', ']'] st.pc)
        { st with steps := st.steps + 1 }
        = some (.brk { st with steps := st.steps + 1, pc := 1 }) := by
      have hfm : find_match ['+', '[', ']'] 2 ']' '[' false = some 1 := by decide
      rw [hat]
      simp [exec_switch, hptr, hmem, hpc, hfm]
    rw [run_loop_brk _ _ _ _ _ _ (by rw [hat]; decide) (by push_cast at hsteps; omega) hrun hsw]
    have hsteps1 : st.steps + 1 + (k : Int) = N := by push_cast at hsteps; omega
    refine (ih { st with steps := st.steps + 1, pc := 1 + 1 } rfl hptr hmem hrun hsteps1).trans ?_
    simp [hpc]

/-- First state of the v3 loop. -/
theorem run_loop_spin_start (ib : Nat → Nat) (ip : Int) (n : Nat) :
    run_loop ['+', '[', ']'] ib ((n + 2 : Nat) : Int) (n + 2 + 1)
        { memory := fun _ => 0, ptr := 0, pc := 0, steps := 0, running := true,
          input_mode := false, input_pos := ip, out := [] }
      = some (.tooManySteps,
        { memory := Function.update (fun _ => 0) 0 1, ptr := 0, pc := 2,
          steps := ((n + 2 : Nat) : Int), running := false, input_mode := false,
          input_pos := ip, out := [] }) := by
  rw [run_loop_brk ['+', '[', ']'] ib _ (n + 2)
    { memory := fun _ => 0, ptr := 0, pc := 0, steps := 0, running := true,
      input_mode := false, input_pos := ip, out := [] }
    { memory := Function.update (fun _ => 0) 0 1, ptr := 0, pc := 0, steps := 1, running := true,
      input_mode := false, input_pos := ip, out := [] }
    (by show progAt ['+', '[', ']'] 0 ≠ NUL; decide) (by push_cast; omega) rfl (by rfl)]
  rw [run_loop_brk ['+', '[', ']'] ib _ (n + 1)
    { memory := Function.update (fun _ => 0) 0 1, ptr := 0, pc := 0 + 1, steps := 1,
      running := true, input_mode := false, input_pos := ip, out := [] }
    { memory := Function.update (fun _ => 0) 0 1, ptr := 0, pc := 0 + 1, steps := 1 + 1,
      running := true, input_mode := false, input_pos := ip, out := [] }
    (by show progAt ['+', '[', ']'] (0 + 1) ≠ NUL; decide) (by push_cast; omega) rfl (by rfl)]
  rw [run_loop_spin ib _ n _ (by rfl) rfl (by rfl) rfl (by push_cast; omega)]
  rfl

theorem poll_stop_quiet (st : Interp) (h : ∀ x ∈ st.kbd, x ≠ some 0xFA) :
    poll_stop st = { st with kbd := st.kbd.tail } := by
  rcases st with ⟨memory, mem_ptr, pc, running, ob, steps, messages, kbd⟩
  cases kbd with
  | nil => rfl
  | cons x rest =>
    cases x with
    | none => rfl
    | some c =>
      have hc : c ≠ 0xFA := by
        intro hc
        exact h (some c) (by simp) (by rw [hc])
      simp [poll_stop, hc]

theorem interp_loop_step (program : List Char) (N : Int) (fuel : Nat) (st st1 : Interp)
    (hr : st.running = true) (hc : progAt program st.program_counter ≠ NUL) (hs : st.steps < N)
    (hsw : interp_switch program (progAt program st.program_counter)
      { st with steps := st.steps + 1 } = some st1) :
    interp_loop program N (fuel + 1) st
      = interp_loop program N fuel
          (poll_stop { st1 with program_counter := (st1.program_counter + 1) % 65536 }) := by
  simp only [interp_loop]
  rw [if_pos ⟨hr, hc, hs⟩]
  simp only [hsw]

/-- The v2 loop on "+[]" once the cell is 1 and the counter stands on the `]`. -/
theorem interp_loop_spin (N : Int) :
    ∀ (k : Nat) (st : Interp), st.program_counter = 2 → st.mem_ptr = 0 → st.memory 0 = 1 →
      st.running = true → (∀ x ∈ st.kbd, x ≠ some 0xFA) → st.steps + k = N →
      interp_loop ['+', '[', ']'] N (k + 1) st
        = some { st with steps := N, kbd := st.kbd.drop k } := by
  intro k
  induction k with
  | zero =>
    intro st _ _ _ _ _ hsteps
    have h : ¬ st.steps < N := by omega
    have : st.steps = N := by omega
    simp [interp_loop, h, ← this]
  | succ k ih =>
    intro st hpc hptr hmem hrun hq hsteps
    have hat : progAt ['+', '[', ']'] st.program_counter = ']' := by rw [hpc]; decide
    have hsw : interp_switch ['+', '[', ']'] (progAt ['+', '[', ']'] st.program_counter)
        { st with steps := st.steps + 1 }
        = some { st with steps := st.steps + 1, program_counter := 1 } := by
      have hfm : find_matching_bracket ['+', '[', ']'] 2 ']' '[' false = some 1 := by
        decide
      rw [hat]
      simp [interp_switch, hptr, hmem, hpc, hfm]
    rw [interp_loop_step _ _ _ _ _ hrun (by rw [hat]; decide) (by push_cast at hsteps; omega) hsw]
    have hsteps1 : st.steps + 1 + (k : Int) = N := by push_cast at hsteps; omega
    rw [poll_stop_quiet { st with steps := st.steps + 1, program_counter := (1 + 1) % 65536 } hq]
    have hq1 : ∀ x ∈ st.kbd.tail, x ≠ some 0xFA := fun x hx => hq x (List.mem_of_mem_tail hx)
    let st2 : Interp :=
      { st with steps := st.steps + 1, program_counter := (1 + 1) % 65536, kbd := st.kbd.tail }
    refine (ih st2 rfl hptr hmem hrun hq1 hsteps1).trans ?_
    simp [st2, hpc]

theorem interp_loop_step_quiet (program : List Char) (N : Int) (fuel : Nat)
    (st st1 st2 : Interp)
    (hr : st.running = true) (hc : progAt program st.program_counter ≠ NUL) (hs : st.steps < N)
    (hsw : interp_switch program (progAt program st.program_counter)
      { st with steps := st.steps + 1 } = some st1)
    (hq : ∀ x ∈ st1.kbd, x ≠ some 0xFA)
    (h2 : st2 = { st1 with
      program_counter := (st1.program_counter + 1) % 65536, kbd := st1.kbd.tail }) :
    interp_loop program N (fuel + 1) st = interp_loop program N fuel st2 := by
  rw [interp_loop_step program N fuel st st1 hr hc hs hsw,
    poll_stop_quiet { st1 with program_counter := (st1.program_counter + 1) % 65536 } hq, h2]

theorem interp_loop_spin_start (kbd : List (Option Nat)) (hq : ∀ x ∈ kbd, x ≠ some 0xFA)
    (n : Nat) :
    interp_loop ['+', '[', ']'] ((n + 2 : Nat) : Int) (n + 2 + 1)
        { memory := fun _ => 0, mem_ptr := 0, program_counter := 0, running := true,
          output_buffer := [], steps := 0, messages := [], kbd := kbd }
      = some
        { memory := Function.update (fun _ => 0) 0 1, mem_ptr := 0, program_counter := 2,
          running := true, output_buffer := [], steps := ((n + 2 : Nat) : Int), messages := [],
          kbd := (kbd.tail.tail).drop n } := by
  have hq1 : ∀ x ∈ kbd.tail, x ≠ some 0xFA := fun x hx => hq x (List.mem_of_mem_tail hx)
  have hq2 : ∀ x ∈ kbd.tail.tail, x ≠ some 0xFA := fun x hx => hq1 x (List.mem_of_mem_tail hx)
  refine (interp_loop_step_quiet ['+', '[', ']'] _ (n + 2)
    { memory := fun _ => 0, mem_ptr := 0, program_counter := 0, running := true,
      output_buffer := [], steps := 0, messages := [], kbd := kbd }
    { memory := Function.update (fun _ => 0) 0 1, mem_ptr := 0, program_counter := 0,
      running := true, output_buffer := [], steps := 1, messages := [], kbd := kbd }
    { memory := Function.update (fun _ => 0) 0 1, mem_ptr := 0, program_counter := 1,
      running := true, output_buffer := [], steps := 1, messages := [], kbd := kbd.tail }
    rfl (by show progAt ['+', '[', ']'] ((0 : Nat) : Int) ≠ NUL; decide) (by push_cast; omega)
    (by rfl) hq (by rfl)).trans ?_
  refine (interp_loop_step_quiet ['+', '[', ']'] _ (n + 1)
    { memory := Function.update (fun _ => 0) 0 1, mem_ptr := 0, program_counter := 1,
      running := true, output_buffer := [], steps := 1, messages := [], kbd := kbd.tail }
    { memory := Function.update (fun _ => 0) 0 1, mem_ptr := 0, program_counter := 1,
      running := true, output_buffer := [], steps := 1 + 1, messages := [], kbd := kbd.tail }
    { memory := Function.update (fun _ => 0) 0 1, mem_ptr := 0, program_counter := 2,
      running := true, output_buffer := [], steps := 1 + 1, messages := [],
      kbd := kbd.tail.tail }
    rfl (by show progAt ['+', '[', ']'] ((1 : Nat) : Int) ≠ NUL; decide) (by push_cast; omega)
    (by rfl) hq1 (by rfl)).trans ?_
  exact interp_loop_spin _ n _ (by rfl) rfl (by rfl) rfl hq2 (by push_cast; omega)

theorem exec_switch_ignores_input (code : List Char) (ib ib' : Nat → Nat) (c : Char) (st : Exec)
    (h : st.input_mode = false) :
    exec_switch code ib c st = exec_switch code ib' c st := by
  unfold exec_switch
  simp [h]

theorem exec_switch_brk_input_mode (code : List Char) (ib : Nat → Nat) (c : Char) (st st1 : Exec)
    (h : st.input_mode = false) (hsw : exec_switch code ib c st = some (.brk st1)) :
    st1.input_mode = false := by
  unfold exec_switch at hsw
  by_cases h1 : c = '>'
  · rw [if_pos h1] at hsw; cases hsw; exact h
  rw [if_neg h1] at hsw
  by_cases h2 : c = '<'
  · rw [if_pos h2] at hsw; cases hsw; exact h
  rw [if_neg h2] at hsw
  by_cases h3 : c = '+'
  · rw [if_pos h3] at hsw; cases hsw; exact h
  rw [if_neg h3] at hsw
  by_cases h4 : c = '-'
  · rw [if_pos h4] at hsw; cases hsw; exact h
  rw [if_neg h4] at hsw
  by_cases h5 : c = '.'
  · rw [if_pos h5] at hsw; cases hsw; exact h
  rw [if_neg h5] at hsw
  by_cases h6 : c = ','
  · rw [if_pos h6] at hsw
    simp [h] at hsw
  rw [if_neg h6] at hsw
  by_cases h7 : c = '['
  · rw [if_pos h7] at hsw
    by_cases hz : st.memory st.ptr.toNat = 0
    · rw [if_pos hz] at hsw
      cases hfm : find_match code st.pc '[' ']' true with
      | none => rw [hfm] at hsw; simp at hsw
      | some m =>
        rw [hfm] at hsw
        simp only [] at hsw
        by_cases hm : m = -1
        · rw [if_pos hm] at hsw; simp at hsw
        · rw [if_neg hm] at hsw; cases hsw; exact h
    · rw [if_neg hz] at hsw; cases hsw; exact h
  rw [if_neg h7] at hsw
  by_cases h8 : c = ']'
  · rw [if_pos h8] at hsw
    by_cases hz : st.memory st.ptr.toNat ≠ 0
    · rw [if_pos hz] at hsw
      cases hfm : find_match code st.pc ']' '[' false with
      | none => rw [hfm] at hsw; simp at hsw
      | some m =>
        rw [hfm] at hsw
        simp only [] at hsw
        by_cases hm : m = -1
        · rw [if_pos hm] at hsw; simp at hsw
        · rw [if_neg hm] at hsw; cases hsw; exact h
    · rw [if_neg hz] at hsw; cases hsw; exact h
  rw [if_neg h8] at hsw
  cases hsw
  exact h

theorem run_loop_ignores_input (code : List Char) (ib ib' : Nat → Nat) (N : Int) :
    ∀ (fuel : Nat) (st : Exec), st.input_mode = false →
      run_loop code ib N fuel st = run_loop code ib' N fuel st := by
  intro fuel
  induction fuel with
  | zero => intro st _; rfl
  | succ fuel ih =>
    intro st h
    simp only [run_loop]
    split
    · rw [exec_switch_ignores_input code ib ib' _ { st with steps := st.steps + 1 } h]
      cases hsw : exec_switch code ib' (progAt code st.pc) { st with steps := st.steps + 1 } with
      | none => rfl
      | some r =>
        cases r with
        | ret status st1 => rfl
        | brk st1 =>
          simp only []
          apply ih
          exact exec_switch_brk_input_mode code ib' _ { st with steps := st.steps + 1 } st1 h hsw
    · rfl

/-- The report of `run_program` does not depend on the input buffer: the
assignment `memory[ptr] = input_buffer[0]` is never reached, because
`input_mode` is cleared on entry and set only on the way out. -/
theorem run_program_ignores_input (ide : BrainfuckIDE) (ib : Nat → Nat) :
    (run_program { ide with input_buffer := ib }).map (fun r => r.1)
      = (run_program ide).map (fun r => r.1) := by
  unfold run_program run_program_with
  simp only []
  rw [run_loop_ignores_input ide.code ib ide.input_buffer _ _ _ rfl]
  cases run_loop ide.code ide.input_buffer (MAX_STEPS : Int) (MAX_STEPS + 1)
      { memory := fun _ => 0, ptr := 0, pc := 0, steps := 0, running := true,
        input_mode := false, input_pos := ide.input_pos, out := [] } with
  | none => rfl
  | some r => rfl

/-! ## Bracket matching lemmas -/

theorem progAt_nat (prog : List Char) (k : Nat) : progAt prog (k : Int) = prog.getD k NUL := by
  simp [progAt]

theorem getD_ne_NUL (prog : List Char) (hnul : ∀ c ∈ prog, c ≠ NUL) (k : Nat)
    (hk : k < prog.length) : prog.getD k NUL ≠ NUL := by
  rw [List.getD_eq_getElem _ _ hk]
  exact hnul _ (List.getElem_mem hk)

theorem depthAt_zero (prog : List Char) : depthAt prog 0 = 0 := by
  simp [depthAt]

theorem depthAt_succ (prog : List Char) (k : Nat) (hk : k < prog.length) :
    depthAt prog (k + 1) = depthAt prog k + bracketWeight (prog.getD k NUL) := by
  unfold depthAt
  rw [List.getD_eq_getElem _ _ hk, List.take_succ, List.getElem?_eq_getElem hk]
  simp only [Option.toList_some, List.map_append, List.map_cons, List.map_nil, List.sum_append,
    List.sum_cons, List.sum_nil, add_zero]

theorem bracketWeight_bounds (c : Char) : -1 ≤ bracketWeight c ∧ bracketWeight c ≤ 1 := by
  unfold bracketWeight
  split
  · omega
  · split <;> omega

theorem forward_depth (c : Char) (d : Int) :
    (if c = '[' then d + 1 else if c = ']' then d - 1 else d) = d + bracketWeight c := by
  unfold bracketWeight
  split
  · rfl
  · split <;> omega

theorem backward_depth (c : Char) (d : Int) :
    (if c = ']' then d + 1 else if c = '[' then d - 1 else d) = d - bracketWeight c := by
  unfold bracketWeight
  by_cases h1 : c = ']'
  · have h2 : c ≠ '[' := by rw [h1]; decide
    simp [h1]
  · by_cases h2 : c = '['
    · simp [h2]
    · simp [h1, h2]

theorem balancedFrom_depth : ∀ (l : List Char) (d : Int), balancedFrom l d = true →
    (∀ i, i ≤ l.length → 0 ≤ d + depthAt l i) ∧ d + depthAt l l.length = 0 ∨ d < 0 := by
  intro l
  induction l with
  | nil =>
    intro d h
    left
    have hd : d = 0 := by simpa [balancedFrom] using h
    constructor
    · intro i _
      simp [depthAt, hd]
    · simp [depthAt, hd]
  | cons c cs ih =>
    intro d h
    by_cases hd : d < 0
    · right; exact hd
    · left
      have hstep : ¬ (d + bracketWeight c < 0) := by
        intro hneg
        simp [balancedFrom, hneg] at h
      have h' : balancedFrom cs (d + bracketWeight c) = true := by
        simpa [balancedFrom, hstep] using h
      rcases ih (d + bracketWeight c) h' with ⟨g1, g2⟩ | g
      · constructor
        · intro i hi
          cases i with
          | zero => simp [depthAt]; omega
          | succ i =>
            have := g1 i (by simpa using hi)
            simp only [depthAt, List.take_succ_cons, List.map_cons, List.sum_cons] at this ⊢
            omega
        · simp only [depthAt, List.length_cons, List.take_succ_cons, List.map_cons,
            List.sum_cons] at g2 ⊢
          omega
      · exact absurd g hstep

theorem balanced_depth (prog : List Char) (h : balanced prog = true) :
    (∀ i, i ≤ prog.length → 0 ≤ depthAt prog i) ∧ depthAt prog prog.length = 0 := by
  rcases balancedFrom_depth prog 0 h with ⟨g1, g2⟩ | g
  · constructor
    · intro i hi
      have := g1 i hi
      omega
    · omega
  · omega

/-- Forward scan: from position `p` with `depth = depthAt (p + 1) - B`, the loop
returns the first position `q` behind `p` with `depthAt (q + 1) = B`. -/
theorem find_match_loop_forward (prog : List Char) (hnul : ∀ c ∈ prog, c ≠ NUL) (B : Int)
    (q : Nat) (hq : q < prog.length) (hqB : depthAt prog (q + 1) = B) :
    ∀ (fuel p : Nat) (depth : Int), p < q → q - p ≤ fuel →
      depth = depthAt prog (p + 1) - B →
      (∀ j, p < j → j < q → depthAt prog (j + 1) ≠ B) →
      find_match_loop prog '[' ']' true fuel (p : Int) depth = some (q : Int) := by
  intro fuel
  induction fuel with
  | zero =>
    intro p depth hpq hfuel
    omega
  | succ fuel ih =>
    intro p depth hpq hfuel hdepth hfirst
    have hcast : ((p : Int) + 1) = ((p + 1 : Nat) : Int) := by push_cast; rfl
    have hlen : p + 1 < prog.length := by omega
    have hnn : ¬ (((p + 1 : Nat) : Int) < 0 ∨ progAt prog ((p + 1 : Nat) : Int) = NUL) := by
      rw [progAt_nat]
      intro h
      rcases h with h | h
      · omega
      · exact getD_ne_NUL prog hnul _ hlen h
    simp only [find_match_loop, if_true, hcast]
    rw [if_neg hnn, forward_depth, progAt_nat]
    have hd : depth + bracketWeight (prog.getD (p + 1) NUL) = depthAt prog (p + 1 + 1) - B := by
      rw [depthAt_succ prog (p + 1) hlen, hdepth]
      omega
    by_cases hpq1 : p + 1 = q
    · have h0 : depth + bracketWeight (prog.getD (p + 1) NUL) = 0 := by
        rw [hd, hpq1, hqB]; omega
      rw [if_pos h0, hpq1]
    · have h0 : ¬ (depth + bracketWeight (prog.getD (p + 1) NUL) = 0) := by
        rw [hd]
        have := hfirst (p + 1) (by omega) (by omega)
        omega
      rw [if_neg h0]
      apply ih (p + 1) _ (by omega) (by omega) hd
      intro j hj1 hj2
      exact hfirst j (by omega) hj2

/-- Backward scan: from position `pos` with `depth = depthAt pos - B`, the loop
returns the first position `p` in front of `pos` with `depthAt p = B`. -/
theorem find_match_loop_backward (prog : List Char) (hnul : ∀ c ∈ prog, c ≠ NUL) (B : Int)
    (p : Nat) (hpB : depthAt prog p = B) :
    ∀ (fuel pos : Nat) (depth : Int), p < pos → pos ≤ prog.length → pos - p ≤ fuel →
      depth = depthAt prog pos - B →
      (∀ j, p < j → j < pos → depthAt prog j ≠ B) →
      find_match_loop prog ']' '[' false fuel (pos : Int) depth = some (p : Int) := by
  intro fuel
  induction fuel with
  | zero =>
    intro pos depth hp _ hfuel
    omega
  | succ fuel ih =>
    intro pos depth hp hlen hfuel hdepth hfirst
    obtain ⟨k, rfl⟩ : ∃ k, pos = k + 1 := ⟨pos - 1, by omega⟩
    have hcast : (((k + 1 : Nat) : Int) - 1) = (k : Int) := by push_cast; omega
    have hk : k < prog.length := by omega
    have hnn : ¬ ((k : Int) < 0 ∨ progAt prog (k : Int) = NUL) := by
      rw [progAt_nat]
      intro h
      rcases h with h | h
      · omega
      · exact getD_ne_NUL prog hnul _ hk h
    simp only [find_match_loop, Bool.false_eq_true, if_false, hcast]
    rw [if_neg hnn, backward_depth, progAt_nat]
    have hd : depth - bracketWeight (prog.getD k NUL) = depthAt prog k - B := by
      rw [hdepth, depthAt_succ prog k hk]
      omega
    by_cases hpk : k = p
    · have h0 : depth - bracketWeight (prog.getD k NUL) = 0 := by
        rw [hd, hpk, hpB]; omega
      rw [if_pos h0, hpk]
    · have h0 : ¬ (depth - bracketWeight (prog.getD k NUL) = 0) := by
        rw [hd]
        have := hfirst k (by omega) (by omega)
        omega
      rw [if_neg h0]
      apply ih k _ (by omega) (by omega) (by omega) hd
      intro j hj1 hj2
      exact hfirst j hj1 (by omega)

theorem find_match_loop_total (prog : List Char) (openc closec : Char) (forward : Bool) :
    ∀ (fuel : Nat) (pos depth : Int), 1 ≤ fuel →
      (forward = true → pos + 1 < 0 ∨ (prog.length : Int) ≤ fuel + pos) →
      (forward = false → pos < fuel) →
      ∃ r, find_match_loop prog openc closec forward fuel pos depth = some r := by
  intro fuel
  induction fuel with
  | zero =>
    intro pos depth h
    omega
  | succ fuel ih =>
    intro pos depth _ hf hb
    cases forward with
    | true =>
      simp only [find_match_loop, if_true]
      by_cases hstop : pos + 1 < 0 ∨ progAt prog (pos + 1) = NUL
      · rw [if_pos hstop]
        exact ⟨_, rfl⟩
      · rw [if_neg hstop]
        generalize (if progAt prog (pos + 1) = openc then depth + 1
          else if progAt prog (pos + 1) = closec then depth - 1 else depth) = d
        by_cases hd : d = 0
        · rw [if_pos hd]
          exact ⟨_, rfl⟩
        · rw [if_neg hd]
          have hin : (pos + 1).toNat < prog.length := by
            by_contra hge
            apply hstop
            right
            unfold progAt
            exact List.getD_eq_default _ _ (by omega)
          have := hf rfl
          apply ih
          · omega
          · intro _; right; push_cast at this ⊢; omega
          · intro h; exact absurd h (by simp)
    | false =>
      simp only [find_match_loop, Bool.false_eq_true, if_false]
      by_cases hstop : pos - 1 < 0 ∨ progAt prog (pos - 1) = NUL
      · rw [if_pos hstop]
        exact ⟨_, rfl⟩
      · rw [if_neg hstop]
        generalize (if progAt prog (pos - 1) = openc then depth + 1
          else if progAt prog (pos - 1) = closec then depth - 1 else depth) = d
        by_cases hd : d = 0
        · rw [if_pos hd]
          exact ⟨_, rfl⟩
        · rw [if_neg hd]
          have := hb rfl
          apply ih
          · push_cast at this; omega
          · intro h; exact absurd h (by simp)
          · intro _; push_cast at this; omega

/-- The fuel given to the bracket scan always suffices: `find_match` returns. -/
theorem find_match_total (prog : List Char) (pos : Int) (openc closec : Char) (forward : Bool) :
    ∃ r, find_match prog pos openc closec forward = some r := by
  unfold find_match
  apply find_match_loop_total
  · omega
  · intro _
    by_cases h : pos + 1 < 0
    · left; exact h
    · right; push_cast; omega
  · intro _
    push_cast
    omega

theorem bracketWeight_neg (c : Char) (h : bracketWeight c = -1) : c = ']' := by
  unfold bracketWeight at h
  split at h
  · omega
  · split at h
    · assumption
    · omega

/-! ## Claims about the engine -/

/-- C5 as stated fails: on a fresh tape the source "+[" is reported as finished,
in v3 and in v2, and not with the unmatched-bracket status. -/
theorem plus_open_bracket_counterexample :
    (run_program (ideWith ['+', '['])).map (fun r => r.1.status) = some Status.finished ∧
    (run_program (ideWith ['+', '['])).map (fun r => r.1.status) ≠ some Status.unmatchedOpen ∧
    (run ['+', '['] []).map (fun r => r.messages) = some [Message.finishedSuccessfully] := by
  decide

/-- C5 (as amended): on a fresh tape, with no key pressed, the source "+[" ends
after exactly 2 executed steps and is reported as finished, in v3 and in v2
(the `[` is executed on a non-zero cell, so no scan for its partner happens);
the unmatched-bracket status is what the source "[" gets, whose `[` is executed
on a zero cell, after exactly 1 step. -/
theorem plus_open_bracket_finishes :
    (run_program (ideWith ['+', '['])).map (fun r => (r.1.status, r.1.steps, r.1.pc))
      = some (Status.finished, 2, 2) ∧
    (run ['+', '['] []).map (fun r => (r.messages, r.steps, r.program_counter))
      = some ([Message.finishedSuccessfully], 2, 2) ∧
    (run_program (ideWith ['['])).map (fun r => (r.1.status, r.1.steps, r.1.pc))
      = some (Status.unmatchedOpen, 1, 0) ∧
    (run ['['] []).map (fun r => (r.messages, r.steps, r.running))
      = some ([Message.unmatchedOpen], 1, false) := by
  decide

/-- C6: step-limit boundary.  For every step budget `N`, the source "+[]" run on
a fresh tape (in v2: with no F10 key press among the keyboard polls) halts with
the step-limit status after exactly `N` executed steps; in particular
`run_program` (v3, `MAX_STEPS = 100000`) stops at step 100000 and `run` (v2)
at step 10000, and at no smaller step count. -/
theorem step_limit_boundary (N : Nat) (kbd : List (Option Nat))
    (hq : ∀ x ∈ kbd, x ≠ some 0xFA) :
    (run_program_with N (ideWith ['+', '[', ']'])).map (fun r => (r.1.status, r.1.steps))
      = some (Status.tooManySteps, (N : Int)) ∧
    (run_with N ['+', '[', ']'] kbd).map (fun r => (r.messages, r.steps))
      = some ([Message.limitReached], (N : Int)) ∧
    (run_program (ideWith ['+', '[', ']'])).map (fun r => (r.1.status, r.1.steps))
      = some (Status.tooManySteps, 100000) ∧
    (run ['+', '[', ']'] kbd).map (fun r => (r.messages, r.steps))
      = some ([Message.limitReached], 10000) := by
  have h3 : ∀ M : Nat,
      (run_program_with M (ideWith ['+', '[', ']'])).map (fun r => (r.1.status, r.1.steps))
        = some (Status.tooManySteps, (M : Int)) := by
    intro M
    rcases M with _ | _ | n
    · decide
    · decide
    · simp only [run_program_with, ideWith]
      rw [run_loop_spin_start]
      rfl
  have h2 : ∀ M : Nat,
      (run_with M ['+', '[', ']'] kbd).map (fun r => (r.messages, r.steps))
        = some ([Message.limitReached], (M : Int)) := by
    intro M
    rcases M with _ | _ | n
    · rfl
    · simp only [run_with]
      rw [interp_loop_step_quiet ['+', '[', ']'] _ 1
        { memory := fun _ => 0, mem_ptr := 0, program_counter := 0, running := true,
          output_buffer := [], steps := 0, messages := [], kbd := kbd }
        { memory := Function.update (fun _ => 0) 0 1, mem_ptr := 0, program_counter := 0,
          running := true, output_buffer := [], steps := 1, messages := [], kbd := kbd }
        { memory := Function.update (fun _ => 0) 0 1, mem_ptr := 0, program_counter := 1,
          running := true, output_buffer := [], steps := 1, messages := [], kbd := kbd.tail }
        rfl (by show progAt ['+', '[', ']'] ((0 : Nat) : Int) ≠ NUL; decide)
        (by show (0 : Int) < ((0 + 1 : Nat) : Int); decide) (by rfl) hq (by rfl)]
      rfl
    · simp only [run_with]
      rw [interp_loop_spin_start kbd hq]
      have h : ((n + 2 : Nat) : Int) ≥ ((n + 1 + 1 : Nat) : Int) := by push_cast; omega
      simp only []
      rw [if_pos h]
      simp
      omega
  exact ⟨h3 N, h2 N, h3 100000, h2 10000⟩

/-- Witness of `step_limit_boundary`: budget 5, one idle keyboard poll. -/
theorem step_limit_boundary_witness :
    (run_program_with 5 (ideWith ['+', '[', ']'])).map (fun r => (r.1.status, r.1.steps))
      = some (Status.tooManySteps, 5) ∧
    (run_with 5 ['+', '[', ']'] [none]).map (fun r => (r.messages, r.steps))
      = some ([Message.limitReached], 5) :=
  ⟨(step_limit_boundary 5 [none] (by decide)).1, (step_limit_boundary 5 [none] (by decide)).2.1⟩

/-- C7: bracket symmetry.  For every bracket-balanced program (a C string, so
without a 0 byte) and every position `p` that holds `[`, the forward scan
`find_match(prog, p, '[', ']', true)` returns a position `q` that holds `]`,
and the backward scan `find_match(prog, q, ']', '[', false)` returns `p`; the
same holds for `find_matching_bracket` of v2. -/
theorem bracket_symmetry (prog : List Char) (p : Nat)
    (hnul : ∀ c ∈ prog, c ≠ NUL) (hbal : balanced prog = true)
    (hopen : progAt prog p = '[') :
    ∃ q : Nat, find_match prog p '[' ']' true = some (q : Int) ∧ progAt prog q = ']' ∧
      find_match prog q ']' '[' false = some (p : Int) ∧
      find_matching_bracket prog p '[' ']' true = some (q : Int) ∧
      find_matching_bracket prog q ']' '[' false = some (p : Int) := by
  have hp : p < prog.length := by
    by_contra hge
    rw [progAt_nat, List.getD_eq_default _ _ (by omega)] at hopen
    exact absurd hopen (by decide)
  obtain ⟨hge, hend⟩ := balanced_depth prog hbal
  have hB1 : depthAt prog (p + 1) = depthAt prog p + 1 := by
    rw [depthAt_succ prog p hp, ← progAt_nat, hopen]
    rfl
  have hB0 : 0 ≤ depthAt prog p := hge p (le_of_lt hp)
  have hp1 : p + 1 < prog.length := by
    by_contra h
    have h1 : p + 1 = prog.length := by omega
    rw [h1, hend] at hB1
    omega
  have hex : ∃ j, p < j ∧ j < prog.length ∧ depthAt prog (j + 1) ≤ depthAt prog p := by
    refine ⟨prog.length - 1, by omega, by omega, ?_⟩
    rw [show prog.length - 1 + 1 = prog.length by omega, hend]
    exact hB0
  obtain ⟨hq1, hq2, hq3⟩ := Nat.find_spec hex
  have hmin : ∀ j, p < j → j < Nat.find hex → depthAt prog p < depthAt prog (j + 1) := by
    intro j h1 h2
    have hnot := Nat.find_min hex h2
    by_contra hc
    exact hnot ⟨h1, by omega, by omega⟩
  generalize Nat.find hex = q at hq1 hq2 hq3 hmin
  have hDq : depthAt prog p < depthAt prog q := by
    by_cases hqp : q = p + 1
    · rw [hqp, hB1]; omega
    · have := hmin (q - 1) (by omega) (by omega)
      rwa [show q - 1 + 1 = q by omega] at this
  have hstep := depthAt_succ prog q hq2
  have hbnd := bracketWeight_bounds (prog.getD q NUL)
  have hq4 : depthAt prog (q + 1) = depthAt prog p := by omega
  have hclose : progAt prog q = ']' := by
    rw [progAt_nat]
    exact bracketWeight_neg _ (by omega)
  have hfwd : find_match_loop prog '[' ']' true (prog.length + (p : Int).toNat + 2) (p : Int) 1
      = some (q : Int) := by
    apply find_match_loop_forward prog hnul (depthAt prog p) q hq2 hq4 _ p 1 hq1
    · simp only [Int.toNat_ofNat]; omega
    · omega
    · intro j h1 h2
      have := hmin j h1 h2
      omega
  have hbwd : find_match_loop prog ']' '[' false (prog.length + (q : Int).toNat + 2) (q : Int) 1
      = some (p : Int) := by
    apply find_match_loop_backward prog hnul (depthAt prog p) p rfl _ q 1 hq1 (by omega)
    · simp only [Int.toNat_ofNat]; omega
    · omega
    · intro j h1 h2
      by_cases hj : j = p + 1
      · rw [hj, hB1]; omega
      · have := hmin (j - 1) (by omega) (by omega)
        rw [show j - 1 + 1 = j by omega] at this
        omega
  exact ⟨q, hfwd, hclose, hbwd, hfwd, hbwd⟩

/-- Witness of `bracket_symmetry`: the outer `[` of "+[[-]>]" at position 1. -/
theorem bracket_symmetry_witness :
    ∃ q : Nat, find_match ['+', '[', '[', '-', ']', '>', ']'] (1 : Nat) '[' ']' true
        = some (q : Int) ∧
      progAt ['+', '[', '[', '-', ']', '>', ']'] q = ']' ∧
      find_match ['+', '[', '[', '-', ']', '>', ']'] q ']' '[' false = some ((1 : Nat) : Int) ∧
      find_matching_bracket ['+', '[', '[', '-', ']', '>', ']'] (1 : Nat) '[' ']' true
        = some (q : Int) ∧
      find_matching_bracket ['+', '[', '[', '-', ']', '>', ']'] q ']' '[' false
        = some ((1 : Nat) : Int) :=
  bracket_symmetry ['+', '[', '[', '-', ']', '>', ']'] 1 (by decide) (by decide) (by decide)

/-- C8: evaluation of the suspend/resume path on the source "+,.".  F5 runs two
steps and suspends at the `,` (cell 1, pc 1).  Typing the byte 97 and Enter
calls `run_program` again, which clears `input_mode` and restarts on a zeroed
tape: the run is suspended anew at the same `,` with cell 1, not 97, nothing
but the echo of the typed keys was written, and the `.` is never reached. -/
theorem resume_restarts_program :
    (run_program (ideWith ['+', ',', '.'])).map
        (fun r => (r.1.status, r.1.steps, r.1.pc, r.1.memory 0, r.2.running, r.2.input_mode))
      = some (Status.awaitingInput, 2, 1, 1, true, true) ∧
    (run_then_supply ['+', ',', '.'] 97).map
        (fun r => (r.1.map (fun x => (x.status, x.steps, x.pc, x.memory 0)),
          r.2.running, r.2.input_mode, r.2.input_buffer 0))
      = some (some (Status.awaitingInput, 2, 1, 1), true, true, 97) ∧
    (run_then_supply ['+', ',', '.'] 97).map (fun r => r.2.term_out) = some [97, 10] := by
  refine ⟨by decide, by decide, by decide⟩

/-! ## Transpiler lemmas -/

theorem putAll_loop_depth (cs : List Char) : ∀ e : Emit, (putAll e cs).loop_depth = e.loop_depth := by
  induction cs with
  | nil => intro e; rfl
  | cons c cs ih =>
    intro e
    simp only [putAll, List.foldl_cons] at ih ⊢
    rw [ih]
    rfl

theorem indent_loop_depth (max : Nat) :
    ∀ (k : Nat) (e : Emit), (indent max k e).loop_depth = e.loop_depth := by
  intro k
  induction k with
  | zero => intro e; rfl
  | succ k ih =>
    intro e
    simp only [indent]
    rw [ih]
    by_cases h : toU32 e.out_pos < subU32 max 2
    · rw [if_pos h]
      rfl
    · rw [if_neg h]

theorem optimize_count (b : Char) (hb : isInstr b = true) :
    ∀ l : List Char, (∀ c ∈ l, c ≠ NUL) → (optimize_bf_code l).count b = l.count b := by
  intro l
  induction l with
  | nil => intro _; rfl
  | cons c cs ih =>
    intro h
    have hc : c ≠ NUL := h c (by simp)
    have hcs := ih (fun x hx => h x (by simp [hx]))
    simp only [optimize_bf_code, if_neg hc]
    by_cases hi : isInstr c = true
    · rw [if_pos hi, List.count_cons, List.count_cons, hcs]
    · rw [if_neg hi, List.count_cons, hcs]
      have hne : ¬ ((c == b) = true) := by
        intro heq
        rw [beq_iff_eq] at heq
        rw [heq] at hi
        exact hi hb
      simp [hne]

/-- As long as more `]` than `[` remain to be read beyond the current depth, the
loop cannot reach the end of the source. -/
theorem compile_loop_surplus (max : Nat) :
    ∀ (rest : List Char) (e : Emit), 0 ≤ e.loop_depth →
      e.loop_depth + (rest.count '[' : Int) < (rest.count ']' : Int) →
      (compile_loop max rest e).1 ≠ LoopExit.endOfSource := by
  intro rest
  induction rest with
  | nil =>
    intro e h0 h1
    simp at h1
    omega
  | cons instr rest ih =>
    intro e h0 h1
    simp only [compile_loop]
    split
    · by_cases hclose : instr = ']'
      · rw [if_pos hclose]
        simp only [indent_loop_depth]
        split
        · simp
        · rename_i hd
          apply ih
          · simp only [put, indent_loop_depth]
            omega
          · rw [hclose] at h1
            simp only [put, indent_loop_depth]
            rw [List.count_cons, List.count_cons] at h1
            simp at h1
            omega
      · rw [if_neg hclose]
        by_cases hopen : instr = '['
        · rw [if_pos hopen]
          apply ih
          · simp only [putAll_loop_depth, indent_loop_depth]
            omega
          · rw [hopen] at h1
            simp only [putAll_loop_depth, indent_loop_depth]
            rw [List.count_cons, List.count_cons] at h1
            simp at h1
            omega
        · rw [if_neg hopen]
          have hne1 : ¬ ((instr == '[') = true) := by simpa using hopen
          have hne2 : ¬ ((instr == ']') = true) := by simpa using hclose
          apply ih
          · simp only [putAll_loop_depth, indent_loop_depth]
            exact h0
          · simp only [putAll_loop_depth, indent_loop_depth]
            rw [List.count_cons, List.count_cons] at h1
            simp only [hne1, hne2, if_false, Nat.add_zero] at h1
            exact h1
    · simp

/-! ## Claims about the transpiler -/

set_option maxRecDepth 100000 in
/-- C9 as stated fails: the source "]" has more `]` than `[`, yet with
`max_size = 200` the loop test `out_pos < max - 100` is false at once and
`compile_to_c` returns true; the same happens with the caller's
`max_size = 2048` for 151 `+` followed by `]`. -/
theorem surplus_close_counterexample :
    [']'].count '[' < [']'].count ']' ∧
    (compile_to_c [']'] 200).1 = true ∧
    compile_exit [']'] 200 = LoopExit.budget ∧
    (compile_to_c (List.replicate 151 '+' ++ [']']) 2048).1 = true := by
  decide

/-- C9 (as amended): for every source (a C string) whose number of `]` exceeds
its number of `[` and every `max_size`, `compile_to_c` returns false unless
the output budget stops the emission loop first (the test
`(uint32_t)out_pos < max - 100` fails before the surplus `]` is read). -/
theorem surplus_close_rejected (bf_code : List Char) (max_size : Nat)
    (hnul : ∀ c ∈ bf_code, c ≠ NUL)
    (hcount : bf_code.count '[' < bf_code.count ']')
    (hbudget : compile_exit bf_code max_size ≠ LoopExit.budget) :
    (compile_to_c bf_code max_size).1 = false := by
  have hsur : (compile_loop max_size (optimize_bf_code bf_code) compile_start).1
      ≠ LoopExit.endOfSource := by
    apply compile_loop_surplus
    · decide
    · rw [optimize_count '[' (by decide) bf_code hnul, optimize_count ']' (by decide) bf_code hnul]
      have : compile_start.loop_depth = 0 := by decide
      rw [this]
      omega
  unfold compile_exit at hbudget
  unfold compile_to_c
  rcases hres : compile_loop max_size (optimize_bf_code bf_code) compile_start with ⟨ex, e⟩
  rw [hres] at hsur hbudget
  cases ex with
  | endOfSource => exact absurd rfl hsur
  | budget => exact absurd rfl hbudget
  | unmatched => rfl

set_option maxRecDepth 100000 in
/-- Witness of `surplus_close_rejected`: "+]" with the caller's `max_size = 2048`. -/
theorem surplus_close_rejected_witness :
    ['+', ']'].count '[' < ['+', ']'].count ']' ∧
    compile_exit ['+', ']'] 2048 ≠ LoopExit.budget ∧
    (compile_to_c ['+', ']'] 2048).1 = false :=
  ⟨by decide, by decide,
   surplus_close_rejected ['+', ']'] 2048 (by decide) (by decide) (by decide)⟩

set_option maxRecDepth 100000 in
/-- C10: evaluation of `compile_to_c` on budgets it does not respect.  With
`max_size = 100` the header alone (138 characters and its terminator, copied
before any test) and the closing text are stored at positions 100 and above;
with `max_size = 4096` and 56 `+`, 49 nested `[` and a `,` the statement of the
last instruction is stored past position 4095. -/
theorem compile_writes_past_budget :
    (∃ w ∈ (compile_to_c ['+'] 100).2, ¬ (w.1 < 100)) ∧
    (138, NUL) ∈ (compile_to_c ['+'] 100).2 ∧
    (∃ w ∈ (compile_to_c [] 0).2, ¬ (w.1 < 0)) ∧
    (∃ w ∈ (compile_to_c (List.replicate 56 '+' ++ List.replicate 49 '[' ++ [',']) 4096).2,
      ¬ (w.1 < 4096)) := by
  decide

/-! ## Claims about creation, deletion, invariants and accounting of the store -/


/-- C13: a failed `create_file` creates nothing.  For every store state, name,
content and flag, if `create_file` returns false then `next_free_offset`, the
data region and the persisted metadata are as before, every slot is used
exactly when it was used before, and every used entry has all its fields
unchanged. -/
theorem create_file_failure_atomic (s : FileSystem) (name : List Nat)
    (content : Option (List Nat)) (read_only : Bool)
    (hfail : (create_file s name content read_only).1 = false) :
    (create_file s name content read_only).2.next_free_offset = s.next_free_offset ∧
    (create_file s name content read_only).2.fs_data = s.fs_data ∧
    (create_file s name content read_only).2.fs_header = s.fs_header ∧
    (create_file s name content read_only).2.fs_table = s.fs_table ∧
    ∀ i, ((create_file s name content read_only).2.files i).used = (s.files i).used ∧
      ((s.files i).used = true → (create_file s name content read_only).2.files i = s.files i) := by
  rcases find_free_file_from_spec s.files MAX_FILES 0 with f1 | ⟨f, f1, _, _, f4⟩
  · have hfree : find_free_file s = -1 := f1
    simp [create_file, hfree]
  · have hfree : find_free_file s = (f : Int) := f1
    have hne : ¬ ((f : Int) = -1) := by omega
    simp only [create_file, hfree, hne, if_false, Int.toNat_ofNat] at hfail ⊢
    split at hfail
    · rename_i hcap
      rw [if_pos hcap]
      refine ⟨rfl, rfl, rfl, rfl, ?_⟩
      intro i
      by_cases hif : i = f
      · subst hif
        simp [f4]
      · simp [Function.update_noteq hif]
    · simp at hfail

/-- Witness of `create_file_failure_atomic`: ten bytes do not fit into the six
that are left. -/
theorem create_file_failure_atomic_witness :
    (create_file nearlyFullFS [66] (some [1, 2, 3, 4, 5, 6, 7, 8, 9, 10]) false).1 = false ∧
    (create_file nearlyFullFS [66] (some [1, 2, 3, 4, 5, 6, 7, 8, 9, 10]) false).2.next_free_offset
      = nearlyFullFS.next_free_offset :=
  ⟨by decide,
   (create_file_failure_atomic nearlyFullFS [66] (some [1, 2, 3, 4, 5, 6, 7, 8, 9, 10]) false
      (by decide)).1⟩



/-- Bump allocation on overwrite below the 32-bit limit.  For every store state
and every name that designates a used, writable entry `i`, a `save_file` that
returns true without 32-bit wrap-around of `next_free_offset + size` sets the entry's
`data_offset` to the old `next_free_offset` and its size to `size`, leaves
every other entry and the entry's name and flags alone, advances
`next_free_offset` by exactly `size`, puts the content into the fresh region
and changes no byte outside `[next_free_offset, next_free_offset + size)`; so
the bytes of every region allocated below the old `next_free_offset` (the
name's old bytes, the other entries) are unmodified.  After a wrap-around the
cursor can lie below a used region, to which the last part does not apply. -/
theorem save_file_bump_allocation (s : FileSystem) (i : Nat) (name content : List Nat)
    (size : Nat)
    (hi : i < MAX_FILES) (hhit : nameHit (s.files i) name = true)
    (hfirst : ∀ j, j < i → nameHit (s.files j) name = false)
    (hnowrap : s.next_free_offset + size < UINT32_MOD)
    (hsave : (save_file s name content size).1 = true) :
    (save_file s name content size).2.files i
      = { s.files i with data_offset := s.next_free_offset, size := size } ∧
    (∀ j, j ≠ i → (save_file s name content size).2.files j = s.files j) ∧
    (save_file s name content size).2.next_free_offset = s.next_free_offset + size ∧
    (∀ a, a < size →
      (save_file s name content size).2.fs_data (s.next_free_offset + a) = bytesOf content a) ∧
    (∀ a, a < s.next_free_offset ∨ s.next_free_offset + size ≤ a →
      (save_file s name content size).2.fs_data a = s.fs_data a) ∧
    (∀ j a, (s.files j).data_offset + (s.files j).size ≤ s.next_free_offset →
      a < (s.files j).size →
      (save_file s name content size).2.fs_data ((s.files j).data_offset + a)
        = s.fs_data ((s.files j).data_offset + a)) := by
  have hfind := find_file_of_first_hit s name i hi hhit hfirst
  have hne : ¬ ((i : Int) = -1) := by omega
  have hmod : (s.next_free_offset + size) % UINT32_MOD = s.next_free_offset + size :=
    Nat.mod_eq_of_lt hnowrap
  simp only [save_file, hfind, hne, if_false, Int.toNat_ofNat, save_file_finish,
    Function.update_same] at hsave ⊢
  split at hsave
  · simp at hsave
  · split at hsave
    · simp at hsave
    · rename_i hro hcap
      rw [if_neg hro, if_neg hcap]
      have hdata : ∀ a, (memcpy s.fs_data s.next_free_offset (bytesOf content) 0 size) a
          = if s.next_free_offset ≤ a ∧ a < s.next_free_offset + size
            then bytesOf content (0 + (a - s.next_free_offset)) else s.fs_data a :=
        fun a => memcpy_apply _ _ _ _ _ _
      refine ⟨?_, ?_, ?_, ?_, ?_, ?_⟩
      · simp [save_metadata]
      · intro j hj
        simp [save_metadata, Function.update_noteq hj]
      · simp [save_metadata, hmod]
      · intro a ha
        simp only [save_metadata]
        rw [hdata, if_pos ⟨by omega, by omega⟩]
        congr 1
        omega
      · intro a ha
        simp only [save_metadata]
        rw [hdata, if_neg (by omega)]
      · intro j a hj ha
        simp only [save_metadata]
        rw [hdata, if_neg (by omega)]

/-- Witness of `save_file_bump_allocation`: "X" of `twoFS` is saved again. -/
theorem save_file_bump_allocation_witness :
    (save_file twoFS [88] [1, 2, 3] 3).1 = true ∧
    (save_file twoFS [88] [1, 2, 3] 3).2.next_free_offset = twoFS.next_free_offset + 3 ∧
    (save_file twoFS [88] [1, 2, 3] 3).2.files 0
      = { twoFS.files 0 with data_offset := twoFS.next_free_offset, size := 3 } :=
  ⟨by decide,
   (save_file_bump_allocation twoFS 0 [88] [1, 2, 3] 3 (by decide) (by decide)
      (by intro j hj; omega) (by decide) (by decide)).2.2.1,
   (save_file_bump_allocation twoFS 0 [88] [1, 2, 3] 3 (by decide) (by decide)
      (by intro j hj; omega) (by decide) (by decide)).1⟩

/-- Delete in the v3 store for a name borne by one entry.  For every store state:
when `name` is borne by the used, writable entry `i` and by no other used entry
(a second one would be found by the `load_file` that follows),
`delete_file(name)`
returns true, afterwards `load_file(name)` fails, and `next_free_offset`, the
data region and every other entry are unchanged (entry `i` only loses its
`used` flag); when no used entry bears `name`, `delete_file` returns false
and changes nothing. -/
theorem delete_file_spec (s : FileSystem) (name : List Nat) (buffer : Nat → Nat) (sz0 : Nat) :
    (∀ i, i < MAX_FILES → nameHit (s.files i) name = true →
      (∀ j, j < MAX_FILES → j ≠ i → nameHit (s.files j) name = false) →
      (s.files i).read_only = false →
      (delete_file s name).1 = true ∧
      (load_file (delete_file s name).2 name buffer sz0).1 = false ∧
      (delete_file s name).2.next_free_offset = s.next_free_offset ∧
      (delete_file s name).2.fs_data = s.fs_data ∧
      (delete_file s name).2.files i = { s.files i with used := false } ∧
      ∀ j, j ≠ i → (delete_file s name).2.files j = s.files j) ∧
    ((∀ j, j < MAX_FILES → nameHit (s.files j) name = false) →
      delete_file s name = (false, s)) := by
  constructor
  · intro i hi hhit huniq hrw
    have hfind := find_file_of_first_hit s name i hi hhit (fun j hj => huniq j (by omega) (by omega))
    have hne : ¬ ((i : Int) = -1) := by omega
    have hdel : delete_file s name
        = (true, save_metadata
            { s with files := Function.update s.files i { s.files i with used := false } }) := by
      simp [delete_file, hfind, hne, hrw]
    rw [hdel]
    refine ⟨rfl, ?_, rfl, rfl, ?_, ?_⟩
    · have hnone : find_file (save_metadata
          { s with files := Function.update s.files i { s.files i with used := false } }) name
          = -1 := by
        rcases find_file_from_spec (Function.update s.files i { s.files i with used := false })
          name MAX_FILES 0 with ⟨g1, _⟩ | ⟨j, _, _, g3, g4, _⟩
        · exact g1
        · by_cases hji : j = i
          · subst hji
            simp [nameHit] at g4
          · rw [Function.update_noteq hji, huniq j (by omega) hji] at g4
            exact absurd g4 (by simp)
      simp [load_file, hnone]
    · simp [save_metadata]
    · intro j hj
      simp [save_metadata, Function.update_noteq hj]
  · intro hnone
    have hfind : find_file s name = -1 := by
      rcases find_file_from_spec s.files name MAX_FILES 0 with ⟨g1, _⟩ | ⟨j, _, _, g3, g4, _⟩
      · exact g1
      · rw [hnone j (by omega)] at g4
        exact absurd g4 (by simp)
    simp [delete_file, hfind]

/-- Witness of `delete_file_spec`: "X" of `twoFS` is deleted, "Z" is not there. -/
theorem delete_file_spec_witness :
    (delete_file twoFS [88]).1 = true ∧
    (load_file (delete_file twoFS [88]).2 [88] (fun _ => 0) 0).1 = false ∧
    delete_file twoFS [90] = (false, twoFS) :=
  ⟨((delete_file_spec twoFS [88] (fun _ => 0) 0).1 0 (by decide) (by decide) (by decide)
      (by decide)).1,
   ((delete_file_spec twoFS [88] (fun _ => 0) 0).1 0 (by decide) (by decide) (by decide)
      (by decide)).2.1,
   (delete_file_spec twoFS [90] (fun _ => 0) 0).2 (by decide)⟩



/-- C16: evaluation of the data-region invariant after a failed save.  The state
left by `save_file("B.BF", content, 126977)` on the empty store is reachable,
the call returns false, and slot 0 is a used entry with `data_offset + size`
= 126977, above the capacity 126976. -/
theorem failed_save_breaks_region_invariant :
    Reachable (save_file emptyFS [66, 46, 66, 70] (List.replicate 126977 0) 126977).2 ∧
    (save_file emptyFS [66, 46, 66, 70] (List.replicate 126977 0) 126977).1 = false ∧
    ((save_file emptyFS [66, 46, 66, 70] (List.replicate 126977 0) 126977).2.files 0).used
      = true ∧
    ((save_file emptyFS [66, 46, 66, 70] (List.replicate 126977 0) 126977).2.files 0).data_offset
      + ((save_file emptyFS [66, 46, 66, 70] (List.replicate 126977 0) 126977).2.files 0).size
      = 126977 ∧
    FS_TOTAL_SIZE - FS_METADATA_SIZE = 126976 :=
  ⟨Reachable.save emptyFS _ _ _ Reachable.empty, by decide, by decide, by decide, by decide⟩

/-- C17: evaluation of name uniqueness.  Two calls `create_file("X", ..)` on the
empty store succeed and leave two used entries named "X"; two calls
`save_file("ABCDEFGH.TXT", ..)` succeed and leave two used entries that both
bear the 11-character name "ABCDEFGH.TX".  Both states are reachable. -/
theorem duplicate_names_reachable :
    Reachable (create_file (create_file emptyFS [88] (some [97]) false).2 [88] (some [98])
      false).2 ∧
    (create_file (create_file emptyFS [88] (some [97]) false).2 [88] (some [98]) false).1
      = true ∧
    ((create_file (create_file emptyFS [88] (some [97]) false).2 [88] (some [98])
      false).2.files 0).used = true ∧
    ((create_file (create_file emptyFS [88] (some [97]) false).2 [88] (some [98])
      false).2.files 1).used = true ∧
    ((create_file (create_file emptyFS [88] (some [97]) false).2 [88] (some [98])
      false).2.files 0).name
      = ((create_file (create_file emptyFS [88] (some [97]) false).2 [88] (some [98])
      false).2.files 1).name ∧
    Reachable (save_file (save_file emptyFS name12 [97] 1).2 name12 [98] 1).2 ∧
    (save_file (save_file emptyFS name12 [97] 1).2 name12 [98] 1).1 = true ∧
    ((save_file (save_file emptyFS name12 [97] 1).2 name12 [98] 1).2.files 0).used = true ∧
    ((save_file (save_file emptyFS name12 [97] 1).2 name12 [98] 1).2.files 1).used = true ∧
    ((save_file (save_file emptyFS name12 [97] 1).2 name12 [98] 1).2.files 0).name
      = ((save_file (save_file emptyFS name12 [97] 1).2 name12 [98] 1).2.files 1).name ∧
    strcmp ((save_file (save_file emptyFS name12 [97] 1).2 name12 [98] 1).2.files 0).name
      [65, 66, 67, 68, 69, 70, 71, 72, 46, 84, 88] = 0 :=
  ⟨Reachable.create _ _ _ _ (Reachable.create _ _ _ _ Reachable.empty),
   by decide, by decide, by decide, by decide,
   Reachable.save _ _ _ _ (Reachable.save _ _ _ _ Reachable.empty),
   by decide, by decide, by decide, by decide, by decide⟩

theorem persisted_emptyFS : persisted emptyFS := by
  constructor
  · intro i hi
    simp [load_metadata, emptyFS, FS_MAGIC, hi]
  · simp [load_metadata, emptyFS, FS_MAGIC]

/-- C19: evaluation of persistence after a failed save.  The empty store agrees
with its backing region; after `save_file("B.BF", content, 126977)` has
returned false, `load_metadata` reads back an unused slot 0 and the cursor 0,
while the store in memory holds a used entry "B.BF" and the cursor 126977. -/
theorem failed_save_not_persisted :
    persisted emptyFS ∧
    (save_file emptyFS [66, 46, 66, 70] (List.replicate 126977 0) 126977).1 = false ∧
    ((load_metadata (save_file emptyFS [66, 46, 66, 70] (List.replicate 126977 0)
      126977).2).files 0).used = false ∧
    ((save_file emptyFS [66, 46, 66, 70] (List.replicate 126977 0) 126977).2.files 0).used
      = true ∧
    (load_metadata (save_file emptyFS [66, 46, 66, 70] (List.replicate 126977 0)
      126977).2).next_free_offset = 0 ∧
    (save_file emptyFS [66, 46, 66, 70] (List.replicate 126977 0) 126977).2.next_free_offset
      = 126977 ∧
    ¬ persisted (save_file emptyFS [66, 46, 66, 70] (List.replicate 126977 0) 126977).2 := by
  refine ⟨persisted_emptyFS, by decide, by decide, by decide, by decide, by decide, ?_⟩
  intro h
  have h2 := h.2
  revert h2
  decide

/-- C20: evaluation of the space accounting after a failed save.  In the
reachable state left by `save_file("B.BF", content, 126977)` on the empty
store, `get_fs_size()` is 126977, the sum of the used sizes and one more than
the capacity, and `get_free_space()` wraps around to 4294967295. -/
theorem failed_save_breaks_accounting :
    Reachable (save_file emptyFS [66, 46, 66, 70] (List.replicate 126977 0) 126977).2 ∧
    get_fs_size (save_file emptyFS [66, 46, 66, 70] (List.replicate 126977 0) 126977).2
      = 126977 ∧
    usedSizeSum (save_file emptyFS [66, 46, 66, 70] (List.replicate 126977 0) 126977).2
      = 126977 ∧
    get_free_space (save_file emptyFS [66, 46, 66, 70] (List.replicate 126977 0) 126977).2
      = 4294967295 ∧
    get_fs_size (save_file emptyFS [66, 46, 66, 70] (List.replicate 126977 0) 126977).2
      + get_free_space (save_file emptyFS [66, 46, 66, 70] (List.replicate 126977 0) 126977).2
      ≠ FS_TOTAL_SIZE - FS_METADATA_SIZE ∧
    ¬ (get_free_space (save_file emptyFS [66, 46, 66, 70] (List.replicate 126977 0) 126977).2
      ≤ FS_TOTAL_SIZE - FS_METADATA_SIZE) :=
  ⟨Reachable.save emptyFS _ _ _ Reachable.empty, by decide, by decide, by decide, by decide⟩


/-! ## Boot of the store -/

theorem find_free_file_from_congr (f g : Nat → FileEntry) :
    ∀ k i, (∀ j, i ≤ j → j < i + k → f j = g j) →
      find_free_file_from f i k = find_free_file_from g i k := by
  intro k
  induction k with
  | zero => intro i _; rfl
  | succ k ih =>
    intro i h
    simp only [find_free_file_from]
    rw [h i (le_refl i) (by omega), ih (i + 1) (fun j h1 h2 => h j (by omega) (by omega))]

theorem find_free_file_sameTable (s t : FileSystem) (h : sameTable s t) :
    find_free_file s = find_free_file t :=
  find_free_file_from_congr s.files t.files MAX_FILES 0 (fun j _ hj => h.1 j (by omega))

theorem find_file_sameTable (s t : FileSystem) (name : List Nat) (h : sameTable s t) :
    find_file s name = find_file t name :=
  find_file_congr t s name (fun j hj => by rw [h.1 j hj])

theorem create_file_sameTable (s t : FileSystem) (name : List Nat) (content : Option (List Nat))
    (read_only : Bool) (h : sameTable s t) :
    sameTable (create_file s name content read_only).2 (create_file t name content read_only).2 := by
  have hfree := find_free_file_sameTable s t h
  rcases find_free_file_from_spec t.files MAX_FILES 0 with f1 | ⟨f, f1, _, f3, _⟩
  · have ht : find_free_file t = -1 := f1
    simp only [create_file, hfree, ht, if_true]
    exact h
  · have ht : find_free_file t = (f : Int) := f1
    have hne : ¬ ((f : Int) = -1) := by omega
    have hf : s.files f = t.files f := h.1 f (by omega)
    simp only [create_file, hfree, ht, hne, if_false, Int.toNat_ofNat, hf, h.2]
    split
    · constructor
      · intro i hi
        by_cases hif : i = f
        · subst hif; simp
        · simp [Function.update_noteq hif, h.1 i hi]
      · rfl
    · constructor
      · intro i hi
        cases content with
        | none =>
          by_cases hif : i = f
          · subst hif; simp [save_metadata]
          · simp [save_metadata, Function.update_noteq hif, h.1 i hi]
        | some c =>
          by_cases hif : i = f
          · subst hif; simp [save_metadata]
          · simp [save_metadata, Function.update_noteq hif, h.1 i hi]
      · cases content with
        | none => simp [save_metadata, h.2]
        | some c => simp [save_metadata, h.2]

theorem create_if_absent_sameTable (s t : FileSystem) (name content : List Nat)
    (read_only : Bool) (h : sameTable s t) :
    sameTable (create_if_absent s name content read_only)
      (create_if_absent t name content read_only) := by
  unfold create_if_absent
  rw [find_file_sameTable s t _ h]
  split
  · exact create_file_sameTable _ _ _ _ _ h
  · exact h

theorem bootFS_sameTable (s : FileSystem) (hmagic : s.fs_header.magic ≠ FS_MAGIC) :
    sameTable (bootFS s) (bootFS emptyFS) := by
  unfold bootFS create_default_files
  apply create_if_absent_sameTable
  apply create_if_absent_sameTable
  apply create_if_absent_sameTable
  apply create_if_absent_sameTable
  have he : emptyFS.fs_header.magic ≠ FS_MAGIC := by decide
  constructor
  · intro i hi
    simp [load_metadata, hmagic, he, hi]
  · simp [load_metadata, hmagic, he]

set_option maxRecDepth 100000 in
/-- What the boot of a blank region leaves in the table: the seeds sit in slots 0
to 3 under their names, and only slot 0 is read-only. -/
theorem bootFS_seeds (s : FileSystem) (hmagic : s.fs_header.magic ≠ FS_MAGIC) :
    find_file (bootFS s) (cstr "README.TXT") = ((0 : Nat) : Int) ∧
    find_file (bootFS s) (cstr "HELLO.BF") = ((1 : Nat) : Int) ∧
    find_file (bootFS s) (cstr "ECHO.BF") = ((2 : Nat) : Int) ∧
    find_file (bootFS s) (cstr "FIB.BF") = ((3 : Nat) : Int) ∧
    ((bootFS s).files 0).read_only = true ∧
    ((bootFS s).files 1).read_only = false ∧
    ((bootFS s).files 2).read_only = false ∧
    ((bootFS s).files 3).read_only = false := by
  have h := bootFS_sameTable s hmagic
  rw [find_file_sameTable _ _ _ h, find_file_sameTable _ _ _ h, find_file_sameTable _ _ _ h,
    find_file_sameTable _ _ _ h, h.1 0 (by decide), h.1 1 (by decide), h.1 2 (by decide),
    h.1 3 (by decide)]
  refine ⟨by decide, by decide, by decide, by decide, by decide, by decide, by decide, by decide⟩

set_option maxRecDepth 100000 in
/-- C18 as stated fails: after the first boot of a zeroed backing region the
seed HELLO.BF is a used entry without the `read_only` flag, and
`delete_file("HELLO.BF")` returns true. -/
theorem seed_not_protected_counterexample :
    emptyFS.fs_header.magic ≠ FS_MAGIC ∧
    find_file (bootFS emptyFS) (cstr "HELLO.BF") = 1 ∧
    ((bootFS emptyFS).files 1).used = true ∧
    ((bootFS emptyFS).files 1).read_only = false ∧
    (delete_file (bootFS emptyFS) (cstr "HELLO.BF")).1 = true := by
  refine ⟨by decide, by decide, by decide, by decide, by decide⟩

/-- C18 (as amended): after the first boot of a backing region without a valid
magic, of the four seeds only README.TXT has `read_only` set: `save_file`,
`delete_file` and `rename_file` on "README.TXT" return false and change
nothing, whereas HELLO.BF, ECHO.BF and FIB.BF are created writable and
`delete_file` on each of them returns true. -/
theorem seed_protection (s : FileSystem) (hmagic : s.fs_header.magic ≠ FS_MAGIC)
    (content new_name : List Nat) (size : Nat) :
    ((bootFS s).files 0).read_only = true ∧
    save_file (bootFS s) (cstr "README.TXT") content size = (false, bootFS s) ∧
    delete_file (bootFS s) (cstr "README.TXT") = (false, bootFS s) ∧
    rename_file (bootFS s) (cstr "README.TXT") new_name = (false, bootFS s) ∧
    ((bootFS s).files 1).read_only = false ∧
    ((bootFS s).files 2).read_only = false ∧
    ((bootFS s).files 3).read_only = false ∧
    (delete_file (bootFS s) (cstr "HELLO.BF")).1 = true ∧
    (delete_file (bootFS s) (cstr "ECHO.BF")).1 = true ∧
    (delete_file (bootFS s) (cstr "FIB.BF")).1 = true := by
  obtain ⟨f0, f1, f2, f3, r0, r1, r2, r3⟩ := bootFS_seeds s hmagic
  have n0 : ¬ (((0 : Nat) : Int) = -1) := by omega
  have n1 : ¬ (((1 : Nat) : Int) = -1) := by omega
  have n2 : ¬ (((2 : Nat) : Int) = -1) := by omega
  have n3 : ¬ (((3 : Nat) : Int) = -1) := by omega
  refine ⟨r0, ?_, ?_, ?_, r1, r2, r3, ?_, ?_, ?_⟩
  · simp only [save_file, f0, n0, if_false, Int.toNat_ofNat, r0, if_true]
  · simp only [delete_file, f0, n0, if_false, Int.toNat_ofNat, r0, if_true]
  · simp only [rename_file, f0, n0, if_false, Int.toNat_ofNat, r0, if_true]
  · simp only [delete_file, f1, n1, if_false, Int.toNat_ofNat, r1, Bool.false_eq_true]
  · simp only [delete_file, f2, n2, if_false, Int.toNat_ofNat, r2, Bool.false_eq_true]
  · simp only [delete_file, f3, n3, if_false, Int.toNat_ofNat, r3, Bool.false_eq_true]

/-- Witness of `seed_protection`: the zeroed region. -/
theorem seed_protection_witness :
    ((bootFS emptyFS).files 0).read_only = true ∧
    delete_file (bootFS emptyFS) (cstr "README.TXT") = (false, bootFS emptyFS) ∧
    (delete_file (bootFS emptyFS) (cstr "FIB.BF")).1 = true :=
  ⟨(seed_protection emptyFS (by decide) [43] [88] 1).1,
   (seed_protection emptyFS (by decide) [43] [88] 1).2.2.1,
   (seed_protection emptyFS (by decide) [43] [88] 1).2.2.2.2.2.2.2.2.2⟩


/-! ## Straight-line execution lemmas -/


theorem straightStep_pointer_lt (t : Tape) (c : Char) (h : t.pointer < 30000) :
    (straightStep t c).pointer < 30000 := by
  unfold straightStep
  split_ifs <;> (try dsimp only) <;> omega

theorem isStraight_ne (c : Char) (h : isStraight c = true) : c ≠ '[' ∧ c ≠ ']' ∧ c ≠ ',' := by
  simpa [isStraight, and_assoc] using h

/-- One pass through the v3 `switch` on a straight-line character is the step of
the specification. -/
theorem exec_switch_straight (code : List Char) (ib : Nat → Nat) (c : Char) (st : Exec)
    (t : Tape) (hc : isStraight c = true) (hptr : st.ptr = (t.pointer : Int))
    (hlt : t.pointer < 30000) (hmem : st.memory = t.cells) (hout : st.out = t.output) :
    exec_switch code ib c st = some (.brk
      { st with
        memory := (straightStep t c).cells, ptr := ((straightStep t c).pointer : Int),
        out := (straightStep t c).output }) := by
  obtain ⟨h1, h2, h3⟩ := isStraight_ne c hc
  have htn : st.ptr.toNat = t.pointer := by rw [hptr]; simp
  unfold exec_switch straightStep
  by_cases c1 : c = '>'
  · rw [if_pos c1, if_pos c1]
    simp only [Option.some.injEq, Switched.brk.injEq]
    rcases st with ⟨m, p, pc, steps, r, im, ip, o⟩
    simp only [] at hptr hmem hout ⊢
    subst hptr hmem hout
    simp only [Exec.mk.injEq, true_and, and_true]
    push_cast
    omega
  rw [if_neg c1, if_neg c1]
  by_cases c2 : c = '<'
  · rw [if_pos c2, if_pos c2]
    simp only [Option.some.injEq, Switched.brk.injEq]
    rcases st with ⟨m, p, pc, steps, r, im, ip, o⟩
    simp only [] at hptr hmem hout ⊢
    subst hptr hmem hout
    simp only [Exec.mk.injEq, true_and, and_true]
    split
    · rename_i h0
      have : t.pointer = 0 := by omega
      rw [this]
      rfl
    · rename_i h0
      have : t.pointer ≠ 0 := by omega
      push_cast
      omega
  rw [if_neg c2, if_neg c2]
  by_cases c3 : c = '+'
  · rw [if_pos c3, if_pos c3]
    simp only [htn, hmem, hout, hptr, Int.toNat_ofNat]
  rw [if_neg c3, if_neg c3]
  by_cases c4 : c = '-'
  · rw [if_pos c4, if_pos c4]
    simp only [htn, hmem, hout, hptr, Int.toNat_ofNat]
  rw [if_neg c4, if_neg c4]
  by_cases c5 : c = '.'
  · rw [if_pos c5, if_pos c5]
    simp only [htn, hmem, hout, hptr, Int.toNat_ofNat]
  rw [if_neg c5, if_neg c5, if_neg h3, if_neg h1, if_neg h2]
  rcases st with ⟨m, p, pc, steps, r, im, ip, o⟩
  simp only [] at hptr hmem hout ⊢
  subst hptr hmem hout
  rfl


theorem progAt_append (pre rest : List Char) (c : Char) :
    progAt (pre ++ c :: rest) (pre.length : Int) = c := by
  unfold progAt
  rw [Int.toNat_ofNat, List.getD_eq_getElem?_getD, List.getElem?_append_right (le_refl _)]
  simp

theorem progAt_length (code : List Char) : progAt code (code.length : Int) = NUL := by
  simp [progAt]

/-- The v3 loop on the straight-line rest of a program computes the fold of
`straightStep` and ends as finished. -/
theorem run_loop_straight (code : List Char) (ib : Nat → Nat) (N : Int)
    (hnul : ∀ c ∈ code, c ≠ NUL) :
    ∀ (rest pre : List Char) (st : Exec) (t : Tape) (fuel : Nat),
      code = pre ++ rest → (∀ c ∈ rest, isStraight c = true) →
      st.pc = (pre.length : Int) → st.ptr = (t.pointer : Int) → t.pointer < 30000 →
      st.memory = t.cells → st.out = t.output → st.running = true →
      st.steps + rest.length < N → rest.length < fuel →
      ∃ st', run_loop code ib N fuel st = some (Status.finished, st') ∧
        st'.memory = (rest.foldl straightStep t).cells ∧
        st'.ptr = ((rest.foldl straightStep t).pointer : Int) ∧
        st'.out = (rest.foldl straightStep t).output ∧
        st'.steps = st.steps + rest.length ∧ st'.pc = (code.length : Int) := by
  intro rest
  induction rest with
  | nil =>
    intro pre st t fuel hcode _ hpc hptr _ hmem hout hrun hsteps hfuel
    obtain ⟨f, rfl⟩ : ∃ f, fuel = f + 1 := ⟨fuel - 1, by simp at hfuel; omega⟩
    have hcode' : code = pre := by simpa using hcode
    have hat : progAt code st.pc = NUL := by rw [hpc, ← hcode']; exact progAt_length code
    have hs : ¬ (st.steps ≥ N) := by simp at hsteps; omega
    refine ⟨{ st with running := false, input_mode := false }, ?_, hmem, hptr, hout, by simp, ?_⟩
    · simp [run_loop, hat, hs, hrun]
    · rw [hcode']; exact hpc
  | cons c rest ih =>
    intro pre st t fuel hcode hstr hpc hptr hlt hmem hout hrun hsteps hfuel
    obtain ⟨f, rfl⟩ : ∃ f, fuel = f + 1 := ⟨fuel - 1, by simp at hfuel; omega⟩
    have hat : progAt code st.pc = c := by rw [hpc, hcode]; exact progAt_append pre rest c
    have hcne : c ≠ NUL := hnul c (by rw [hcode]; simp)
    have hsw := exec_switch_straight code ib c { st with steps := st.steps + 1 } t
      (hstr c (by simp)) hptr hlt hmem hout
    simp only [List.length_cons] at hsteps hfuel
    rw [run_loop_brk code ib N f st _ (by rw [hat]; exact hcne) (by push_cast at hsteps; omega)
      hrun (by rw [hat]; exact hsw)]
    obtain ⟨st', h1, h2, h3, h4, h5, h6⟩ := ih (pre ++ [c])
      { memory := (straightStep t c).cells, ptr := ((straightStep t c).pointer : Int),
        pc := st.pc + 1, steps := st.steps + 1, running := st.running,
        input_mode := st.input_mode, input_pos := st.input_pos,
        out := (straightStep t c).output }
      (straightStep t c) f (by simp [hcode])
      (fun x hx => hstr x (by simp [hx])) (by simp [hpc]) rfl
      (straightStep_pointer_lt t c hlt) rfl rfl hrun
      (by push_cast at hsteps ⊢; omega) (by omega)
    refine ⟨st', h1, ?_, ?_, ?_, ?_, h6⟩
    · simpa using h2
    · simpa using h3
    · simpa using h4
    · rw [h5]; simp only [List.length_cons]; push_cast; omega

theorem take_append_singleton (l : List Nat) (x : Nat) :
    (l ++ [x]).take 255
      = if (l.take 255).length < 255 then l.take 255 ++ [x] else l.take 255 := by
  by_cases h : l.length < 255
  · have h1 : l.take 255 = l := List.take_of_length_le (by omega)
    rw [h1, if_pos h]
    exact List.take_of_length_le (by simp; omega)
  · have h1 : (l.take 255).length = 255 := by simp; omega
    rw [if_neg (by omega)]
    exact List.take_append_of_le_length (by omega)

/-- One pass through the v2 `switch` on a straight-line character is the step of
the specification, the output being kept up to 255 bytes. -/
theorem interp_switch_straight (program : List Char) (c : Char) (st : Interp)
    (t : Tape) (hc : isStraight c = true) (hptr : st.mem_ptr = t.pointer)
    (hlt : t.pointer < 30000) (hmem : st.memory = t.cells)
    (hout : st.output_buffer = t.output.take 255) :
    interp_switch program c st = some
      { st with
        memory := (straightStep t c).cells, mem_ptr := (straightStep t c).pointer,
        output_buffer := (straightStep t c).output.take 255 } := by
  obtain ⟨h1, h2, h3⟩ := isStraight_ne c hc
  rcases st with ⟨m, p, pc, r, ob, steps, msgs, kbd⟩
  simp only [] at hptr hmem hout
  subst hptr hmem hout
  unfold interp_switch straightStep
  by_cases c1 : c = '>'
  · rw [if_pos c1, if_pos c1]
    simp only [Option.some.injEq, Interp.mk.injEq, true_and, and_true]
    split <;> omega
  rw [if_neg c1, if_neg c1]
  by_cases c2 : c = '<'
  · rw [if_pos c2, if_pos c2]
    simp only [Option.some.injEq, Interp.mk.injEq, true_and, and_true]
    split <;> omega
  rw [if_neg c2, if_neg c2]
  by_cases c3 : c = '+'
  · rw [if_pos c3, if_pos c3]
  rw [if_neg c3, if_neg c3]
  by_cases c4 : c = '-'
  · rw [if_pos c4, if_pos c4]
  rw [if_neg c4, if_neg c4]
  by_cases c5 : c = '.'
  · rw [if_pos c5, if_pos c5]
    simp only []
    rw [take_append_singleton]
    split <;> rfl
  rw [if_neg c5, if_neg c5, if_neg h3, if_neg h1, if_neg h2]

/-- The v2 loop on the straight-line rest of a program computes the fold of
`straightStep`, keeps the first 255 output bytes and leaves `running` set. -/
theorem interp_loop_straight (code : List Char) (N : Int)
    (hnul : ∀ c ∈ code, c ≠ NUL) (hlen : code.length < 65536) :
    ∀ (rest pre : List Char) (st : Interp) (t : Tape) (fuel : Nat),
      code = pre ++ rest → (∀ c ∈ rest, isStraight c = true) →
      st.program_counter = pre.length → st.mem_ptr = t.pointer → t.pointer < 30000 →
      st.memory = t.cells → st.output_buffer = t.output.take 255 → st.running = true →
      (∀ x ∈ st.kbd, x ≠ some 0xFA) →
      st.steps + rest.length < N → rest.length < fuel →
      ∃ st', interp_loop code N fuel st = some st' ∧
        st'.memory = (rest.foldl straightStep t).cells ∧
        st'.mem_ptr = (rest.foldl straightStep t).pointer ∧
        st'.output_buffer = (rest.foldl straightStep t).output.take 255 ∧
        st'.steps = st.steps + rest.length ∧ st'.program_counter = code.length ∧
        st'.running = true ∧ st'.messages = st.messages := by
  intro rest
  induction rest with
  | nil =>
    intro pre st t fuel hcode _ hpc hptr _ hmem hout hrun _ hsteps hfuel
    obtain ⟨f, rfl⟩ : ∃ f, fuel = f + 1 := ⟨fuel - 1, by simp at hfuel; omega⟩
    have hcode' : code = pre := by simpa using hcode
    have hat : progAt code (st.program_counter : Int) = NUL := by
      rw [hpc, ← hcode']; exact progAt_length code
    refine ⟨st, ?_, hmem, hptr, hout, by simp, ?_, hrun, rfl⟩
    · simp [interp_loop, hat]
    · rw [hcode']; exact hpc
  | cons c rest ih =>
    intro pre st t fuel hcode hstr hpc hptr hlt hmem hout hrun hq hsteps hfuel
    obtain ⟨f, rfl⟩ : ∃ f, fuel = f + 1 := ⟨fuel - 1, by simp at hfuel; omega⟩
    have hat : progAt code (st.program_counter : Int) = c := by
      rw [hpc, hcode]; exact progAt_append pre rest c
    have hcne : c ≠ NUL := hnul c (by rw [hcode]; simp)
    have hsw := interp_switch_straight code c { st with steps := st.steps + 1 } t
      (hstr c (by simp)) hptr hlt hmem hout
    simp only [List.length_cons] at hsteps hfuel
    have hpl : pre.length + 1 < 65536 := by
      have : code.length = pre.length + (rest.length + 1) := by rw [hcode]; simp
      omega
    have hmod : (st.program_counter + 1) % 65536 = pre.length + 1 := by
      rw [hpc]; exact Nat.mod_eq_of_lt hpl
    rw [interp_loop_step_quiet code N f st
      { memory := (straightStep t c).cells, mem_ptr := (straightStep t c).pointer,
        program_counter := st.program_counter, running := st.running,
        output_buffer := (straightStep t c).output.take 255, steps := st.steps + 1,
        messages := st.messages, kbd := st.kbd }
      { memory := (straightStep t c).cells, mem_ptr := (straightStep t c).pointer,
        program_counter := pre.length + 1, running := st.running,
        output_buffer := (straightStep t c).output.take 255, steps := st.steps + 1,
        messages := st.messages, kbd := st.kbd.tail }
      hrun (by rw [hat]; exact hcne) (by push_cast at hsteps; omega)
      (by rw [hat]; exact hsw) hq
      (by simp only [hmod])]
    obtain ⟨st', h1, h2, h3, h4, h5, h6, h7, h8⟩ := ih (pre ++ [c])
      { memory := (straightStep t c).cells, mem_ptr := (straightStep t c).pointer,
        program_counter := pre.length + 1, running := st.running,
        output_buffer := (straightStep t c).output.take 255, steps := st.steps + 1,
        messages := st.messages, kbd := st.kbd.tail }
      (straightStep t c) f (by simp [hcode])
      (fun x hx => hstr x (by simp [hx])) (by simp) rfl
      (straightStep_pointer_lt t c hlt) rfl rfl hrun
      (fun x hx => hq x (List.mem_of_mem_tail hx))
      (by push_cast at hsteps ⊢; omega) (by omega)
    refine ⟨st', h1, ?_, ?_, ?_, ?_, h6, h7, h8⟩
    · simpa using h2
    · simpa using h3
    · simpa using h4
    · rw [h5]; simp only [List.length_cons]; push_cast; omega

/-! ## Claims about straight-line programs -/

set_option maxRecDepth 100000 in
/-- C12 as stated fails for v2: the source of 256 `.` has no bracket and no `,`
and is shorter than the budget; the run finishes after 256 steps, but of the
256 cell values only 255 are in the output buffer. -/
theorem straight_line_output_counterexample :
    (straightRun (List.replicate 256 '.')).output.length = 256 ∧
    (run (List.replicate 256 '.') []).map (fun st => (st.messages, st.steps))
      = some ([Message.finishedSuccessfully], 256) ∧
    (run (List.replicate 256 '.') []).map (fun st => st.output_buffer.length) = some 255 := by
  refine ⟨by decide, by decide, by decide⟩

/-- C12 (as amended): straight-line execution.  For every source (a C string)
without `[`, `]` and `,`, run on a fresh tape: if it is shorter than the step
budget, the run ends as finished with as many steps as the source has
characters, and tape and pointer are those of `straightRun` (`>` and `<` move
the pointer modulo 30000, `+` and `-` change the cell modulo 256, other bytes
change nothing); in v3 the bytes given to the terminal are exactly the cell
values at each `.`, in v2 (no F10 pressed) the output buffer holds the first
255 of them.  For "++." that is the single byte 2 after 3 steps. -/
theorem straight_line_execution (code : List Char) (kbd : List (Option Nat))
    (hnul : ∀ c ∈ code, c ≠ NUL) (hstr : ∀ c ∈ code, isStraight c = true)
    (hq : ∀ x ∈ kbd, x ≠ some 0xFA) :
    (code.length < MAX_STEPS →
      ∃ r ide, run_program (ideWith code) = some (r, ide) ∧ r.status = Status.finished ∧
        r.steps = (code.length : Int) ∧ r.memory = (straightRun code).cells ∧
        r.ptr = ((straightRun code).pointer : Int) ∧
        ide.term_out = (straightRun code).output) ∧
    (code.length < 10000 →
      ∃ st, run code kbd = some st ∧ st.messages = [Message.finishedSuccessfully] ∧
        st.steps = (code.length : Int) ∧ st.memory = (straightRun code).cells ∧
        st.mem_ptr = (straightRun code).pointer ∧
        st.output_buffer = (straightRun code).output.take 255) ∧
    (straightRun ['+', '+', '.']).output = [2] ∧ ['+', '+', '.'].length = 3 := by
  refine ⟨?_, ?_, by decide, by decide⟩
  · intro hlen
    obtain ⟨st', h1, h2, h3, h4, h5, _⟩ := run_loop_straight code (fun _ => 0) (MAX_STEPS : Int)
      hnul code []
      { memory := fun _ => 0, ptr := 0, pc := 0, steps := 0, running := true,
        input_mode := false, input_pos := 0, out := [] }
      freshTape (MAX_STEPS + 1) rfl hstr rfl rfl (by decide) rfl rfl rfl
      (by simp only []; omega) (by omega)
    refine ⟨⟨Status.finished, st'.memory, st'.ptr, st'.pc, st'.steps⟩,
      ⟨code, true, st'.running, st'.input_mode, fun _ => 0, st'.input_pos, [] ++ st'.out⟩,
      ?_, rfl, ?_, h2, h3, ?_⟩
    · simp only [run_program, run_program_with, ideWith]
      rw [h1]
    · simp only [h5]; simp
    · simp only [h4, ideWith, List.nil_append]; rfl
  · intro hlen
    obtain ⟨st', h1, h2, h3, h4, h5, _, h7, h8⟩ := interp_loop_straight code ((10000 : Nat) : Int)
      hnul (by omega) code []
      { memory := fun _ => 0, mem_ptr := 0, program_counter := 0,
        running := true, output_buffer := [], steps := 0, messages := [], kbd := kbd }
      freshTape (10000 + 1) rfl hstr rfl rfl (by decide) rfl rfl rfl hq
      (by simp only []; push_cast; omega) (by omega)
    have hs : ¬ (st'.steps ≥ ((10000 : Nat) : Int)) := by
      rw [h5]; simp only []; push_cast; omega
    refine ⟨⟨st'.memory, st'.mem_ptr, st'.program_counter, st'.running, st'.output_buffer,
      st'.steps, st'.messages ++ [Message.finishedSuccessfully], st'.kbd⟩, ?_, ?_, ?_, h2, h3, h4⟩
    · simp only [run, run_with]
      rw [h1]
      simp only []
      rw [if_neg hs, if_pos h7]
    · simp only [h8]; rfl
    · simp only [h5]; simp

/-- Witness of `straight_line_execution`: the source "++." with an idle keyboard. -/
theorem straight_line_execution_witness :
    (∃ r ide, run_program (ideWith ['+', '+', '.']) = some (r, ide) ∧
        r.status = Status.finished ∧ r.steps = ((['+', '+', '.'].length : Nat) : Int) ∧
        r.memory = (straightRun ['+', '+', '.']).cells ∧
        r.ptr = ((straightRun ['+', '+', '.']).pointer : Int) ∧
        ide.term_out = (straightRun ['+', '+', '.']).output) ∧
    (straightRun ['+', '+', '.']).output = [2] :=
  ⟨(straight_line_execution ['+', '+', '.'] [none] (by decide) (by decide) (by decide)).1
      (by decide),
   (straight_line_execution ['+', '+', '.'] [none] (by decide) (by decide) (by decide)).2.2.1⟩


/-! ## Claims about the output budget of the transpiler -/


/-- When the loop is left through the budget test, it has processed a prefix of
the instructions exactly as if that prefix were the whole source, and at least
one instruction is left unread. -/
theorem compile_loop_budget_prefix (max : Nat) :
    ∀ (l : List Char) (e e' : Emit), compile_loop max l e = (LoopExit.budget, e') →
      ∃ pre post, l = pre ++ post ∧ post ≠ [] ∧
        compile_loop max pre e = (LoopExit.endOfSource, e') ∧
        ¬ (toU32 e'.out_pos < subU32 max 100) := by
  intro l
  induction l with
  | nil =>
    intro e e' h
    simp [compile_loop] at h
  | cons instr rest ih =>
    intro e e' h
    by_cases hb : toU32 e.out_pos < subU32 max 100
    · simp only [compile_loop, if_pos hb] at h
      by_cases hc : instr = ']'
      · simp only [if_pos hc] at h
        split at h
        · simp at h
        · rename_i hd
          obtain ⟨pre, post, h1, h2, h3, h4⟩ := ih _ e' h
          refine ⟨instr :: pre, post, by rw [h1]; rfl, h2, ?_, h4⟩
          simp only [compile_loop, if_pos hb, if_pos hc, if_neg hd]
          exact h3
      · simp only [if_neg hc] at h
        obtain ⟨pre, post, h1, h2, h3, h4⟩ := ih _ e' h
        refine ⟨instr :: pre, post, by rw [h1]; rfl, h2, ?_, h4⟩
        simp only [compile_loop, if_pos hb, if_neg hc]
        exact h3
    · simp only [compile_loop, if_neg hb, Prod.mk.injEq, true_and] at h
      subst h
      exact ⟨[], instr :: rest, rfl, by simp, rfl, hb⟩

set_option maxRecDepth 100000 in
/-- C11 as stated fails: for 200 `+` the complete text needs more than 2048
bytes (with a budget of 100000 the loop reaches the end of the source and
stores at position 2048 and above), yet with `max_size = 2048` the loop is left
through the budget test and `compile_to_c` returns true. -/
theorem budget_overflow_counterexample :
    compile_exit (List.replicate 200 '+') 100000 = LoopExit.endOfSource ∧
    (∃ w ∈ (compile_to_c (List.replicate 200 '+') 100000).2, 2048 ≤ w.1) ∧
    compile_exit (List.replicate 200 '+') 2048 = LoopExit.budget ∧
    (compile_to_c (List.replicate 200 '+') 2048).1 = true := by
  refine ⟨by decide, by decide, by decide, by decide⟩

/-- C11 (as amended): `compile_to_c` has no budget error.  For every source and
every `max_size`, when the output budget stops the emission loop (the test
`(uint32_t)out_pos < max_size - 100` fails with instructions left), the
statements emitted are those of a proper prefix `pre` of the filtered source,
exactly as if `pre` were the whole source, and the call returns true with the
closing text appended if the nesting depth after `pre` is zero, false
otherwise. -/
theorem budget_stop_is_silent (bf_code : List Char) (max_size : Nat)
    (hb : compile_exit bf_code max_size = LoopExit.budget) :
    ∃ pre post e, optimize_bf_code bf_code = pre ++ post ∧ post ≠ [] ∧
      compile_loop max_size pre compile_start = (LoopExit.endOfSource, e) ∧
      ¬ (toU32 e.out_pos < subU32 max_size 100) ∧
      compile_to_c bf_code max_size
        = if e.loop_depth ≠ 0 then (false, e.writes) else (true, (strcpyAt e footer).writes) := by
  unfold compile_exit at hb
  rcases hres : compile_loop max_size (optimize_bf_code bf_code) compile_start with ⟨ex, e⟩
  rw [hres] at hb
  simp only [] at hb
  subst hb
  obtain ⟨pre, post, h1, h2, h3, h4⟩ := compile_loop_budget_prefix max_size _ _ e hres
  refine ⟨pre, post, e, h1, h2, h3, h4, ?_⟩
  unfold compile_to_c
  rw [hres]

set_option maxRecDepth 100000 in
/-- Witness of `budget_stop_is_silent`: 200 `+` with the caller's budget 2048. -/
theorem budget_stop_is_silent_witness :
    compile_exit (List.replicate 200 '+') 2048 = LoopExit.budget ∧
    ∃ pre post e, optimize_bf_code (List.replicate 200 '+') = pre ++ post ∧ post ≠ [] ∧
      compile_loop 2048 pre compile_start = (LoopExit.endOfSource, e) ∧
      ¬ (toU32 e.out_pos < subU32 2048 100) ∧
      compile_to_c (List.replicate 200 '+') 2048
        = if e.loop_depth ≠ 0 then (false, e.writes) else (true, (strcpyAt e footer).writes) :=
  ⟨by decide, budget_stop_is_silent (List.replicate 200 '+') 2048 (by decide)⟩

/-! ## Listing lemmas -/

theorem get_file_count_from_eq (files : Nat → FileEntry) :
    ∀ (k i : Nat) (count : Int),
      get_file_count_from files i k count
        = count + (((List.range' i k).filter (fun j => (files j).used)).length : Int) := by
  intro k
  induction k with
  | zero => intro i count; simp [get_file_count_from]
  | succ k ih =>
    intro i count
    rw [get_file_count_from, ih, List.range'_succ, List.filter_cons]
    by_cases h : (files i).used = true
    · simp only [h, if_true, List.length_cons]
      push_cast
      omega
    · simp only [h, if_false]
      simp

theorem get_file_from_eq (files : Nat → FileEntry) (index : Int) :
    ∀ (k i : Nat) (count : Int), count ≤ index →
      get_file_from files index i k count
        = ((List.range' i k).filter (fun j => (files j).used))[(index - count).toNat]? := by
  intro k
  induction k with
  | zero => intro i count _; simp [get_file_from]
  | succ k ih =>
    intro i count hc
    rw [get_file_from, List.range'_succ, List.filter_cons]
    by_cases h : (files i).used = true
    · simp only [h, if_true]
      by_cases he : count = index
      · rw [if_pos he, he]
        simp
      · rw [if_neg he, ih (i + 1) (count + 1) (by omega)]
        have : (index - count).toNat = (index - (count + 1)).toNat + 1 := by omega
        rw [this, List.getElem?_cons_succ]
    · simp only [h, if_false]
      exact ih (i + 1) count hc

theorem usedSlots_length_le (s : FileSystem) : (usedSlots s).length ≤ MAX_FILES := by
  unfold usedSlots
  calc _ ≤ (List.range MAX_FILES).length := List.length_filter_le _ _
    _ = MAX_FILES := List.length_range _

theorem get_file_eq (s : FileSystem) (index : Int) :
    get_file s index = if index < 0 then none else (usedSlots s)[index.toNat]? := by
  unfold get_file
  by_cases h0 : index < 0
  · simp [h0]
  · by_cases h1 : index ≥ (MAX_FILES : Int)
    · rw [if_pos (Or.inr h1), if_neg h0]
      symm
      apply List.getElem?_eq_none
      have := usedSlots_length_le s
      omega
    · rw [if_neg (by tauto), if_neg h0, get_file_from_eq _ _ _ _ _ (by omega)]
      simp [usedSlots, List.range_eq_range']

theorem get_file_count_eq (s : FileSystem) : get_file_count s = ((usedSlots s).length : Int) := by
  unfold get_file_count
  rw [get_file_count_from_eq]
  simp [usedSlots, List.range_eq_range']

/-! ## Claims about listing and names of the store -/

/-- C21 as stated fails: after `create_file("A")`, `create_file("B")`,
`delete_file("A")` and `create_file("C")` the store holds two entries, and
`get_file(0)` is "C", created last, while `get_file(1)` is "B", created before
it: `find_free_file` gave "C" the freed slot 0. -/
theorem listing_order_counterexample :
    Reachable listFS ∧ get_file_count listFS = 2 ∧
    (get_file listFS 0).map (fun i => (listFS.files i).name.take 2) = some [67, 0] ∧
    (get_file listFS 1).map (fun i => (listFS.files i).name.take 2) = some [66, 0] := by
  refine ⟨?_, by decide, by decide, by decide⟩
  exact Reachable.create _ _ _ _ (Reachable.delete _ _
    (Reachable.create _ _ _ _ (Reachable.create _ _ _ _ Reachable.empty)))

/-- C21 (as amended): listing order is slot order.  For every store state,
`get_file_count()` is the number of used slots, `get_file(0)`, ...,
`get_file(get_file_count() - 1)` are exactly the used slots of the table, each
once, in ascending slot order, and `get_file(i)` is null for every `i` below 0
or at or above the count. -/
theorem get_file_lists_used_slots (s : FileSystem) :
    get_file_count s = ((usedSlots s).length : Int) ∧
    (List.range (usedSlots s).length).map (fun k : Nat => get_file s (k : Int))
      = (usedSlots s).map some ∧
    (∀ index : Int, index < 0 ∨ get_file_count s ≤ index → get_file s index = none) ∧
    (∀ i, i ∈ usedSlots s ↔ i < MAX_FILES ∧ (s.files i).used = true) ∧
    (usedSlots s).Pairwise (· < ·) := by
  refine ⟨get_file_count_eq s, ?_, ?_, ?_, ?_⟩
  · apply List.ext_getElem
    · simp
    · intro n h1 h2
      simp only [List.getElem_map, List.getElem_range, get_file_eq]
      rw [if_neg (by omega)]
      simp only [List.length_map] at h2
      simp [h2]
  · intro index h
    rw [get_file_eq]
    rw [get_file_count_eq] at h
    by_cases h0 : index < 0
    · rw [if_pos h0]
    · rw [if_neg h0]
      apply List.getElem?_eq_none
      omega
  · intro i
    simp [usedSlots]
  · unfold usedSlots
    exact List.Pairwise.filter _ (List.pairwise_lt_range _)

/-- C23: evaluation of the three calls that store a name, on the 12-character
name "ABCDEFGH.TXT".  `create_file` and `save_file` on the empty store and
`rename_file` of "X" all return true and store the 11 characters
"ABCDEFGH.TX": `strncpy(.., 12)` copies while `i < n - 1`.  Afterwards
`find_file("ABCDEFGH.TXT")` is -1 and `load_file` returns false; the entry
answers to the 11-character name. -/
theorem twelve_char_name_truncated :
    name12.length = 12 ∧
    (create_file emptyFS name12 (some [97]) false).1 = true ∧
    ((create_file emptyFS name12 (some [97]) false).2.files 0).name
      = [65, 66, 67, 68, 69, 70, 71, 72, 46, 84, 88, 0, 0] ∧
    find_file (create_file emptyFS name12 (some [97]) false).2 name12 = -1 ∧
    (load_file (create_file emptyFS name12 (some [97]) false).2 name12 (fun _ => 0) 0).1
      = false ∧
    (save_file emptyFS name12 [97] 1).1 = true ∧
    ((save_file emptyFS name12 [97] 1).2.files 0).name
      = [65, 66, 67, 68, 69, 70, 71, 72, 46, 84, 88, 0, 0] ∧
    find_file (save_file emptyFS name12 [97] 1).2 name12 = -1 ∧
    (load_file (save_file emptyFS name12 [97] 1).2 name12 (fun _ => 0) 0).1 = false ∧
    (rename_file twoFS [88] name12).1 = true ∧
    ((rename_file twoFS [88] name12).2.files 0).name
      = [65, 66, 67, 68, 69, 70, 71, 72, 46, 84, 88, 0, 0] ∧
    find_file (rename_file twoFS [88] name12).2 name12 = -1 ∧
    find_file (rename_file twoFS [88] name12).2
      [65, 66, 67, 68, 69, 70, 71, 72, 46, 84, 88] = 0 := by
  refine ⟨by decide, by decide, by decide, by decide, by decide, by decide, by decide,
    by decide, by decide, by decide, by decide, by decide, by decide⟩

/-! ## Claims about the v2 store and the capacity test -/

theorem V2_bootFS_reachable : V2.Reachable V2.bootFS :=
  V2.Reachable.create _ _ _ (V2.Reachable.create _ _ _ (V2.Reachable.create _ _ _
    (V2.Reachable.create _ _ _ (V2.Reachable.create _ _ _
      (V2.Reachable.create _ _ _ V2.Reachable.empty)))))

set_option maxRecDepth 100000 in
/-- C27: evaluation of the v2 store after its constructor, then
`save_file("README.TXT", "x", 1)`.  The call returns true and gives "README.TXT"
the offset 532, the sum of the sizes of the other five files, which lies inside
the region [515, 586) of "SYSTEM.CFG": two used entries overlap, and byte 17 of
what `load_file("SYSTEM.CFG")` hands out, the 'b' of "Version=beta_1" before the
call, is 'x' after it. -/
theorem stored_contents_interfere :
    V2.Reachable (V2.save_file V2.bootFS (cstr "README.TXT") [120] 1).2 ∧
    (V2.save_file V2.bootFS (cstr "README.TXT") [120] 1).1 = true ∧
    V2.find_file (V2.save_file V2.bootFS (cstr "README.TXT") [120] 1).2 (cstr "README.TXT") = 0 ∧
    V2.find_file (V2.save_file V2.bootFS (cstr "README.TXT") [120] 1).2 (cstr "SYSTEM.CFG") = 2 ∧
    (((V2.save_file V2.bootFS (cstr "README.TXT") [120] 1).2.files 0).data_offset,
      ((V2.save_file V2.bootFS (cstr "README.TXT") [120] 1).2.files 0).size) = (532, 1) ∧
    (((V2.save_file V2.bootFS (cstr "README.TXT") [120] 1).2.files 2).data_offset,
      ((V2.save_file V2.bootFS (cstr "README.TXT") [120] 1).2.files 2).size) = (515, 71) ∧
    (V2.load_file V2.bootFS (cstr "SYSTEM.CFG") (fun _ => 0) 0).1 = true ∧
    (V2.load_file V2.bootFS (cstr "SYSTEM.CFG") (fun _ => 0) 0).2.1 17 = V2.SYSTEM_CFG.getD 17 0 ∧
    V2.SYSTEM_CFG.getD 17 0 = 98 ∧
    (V2.load_file (V2.save_file V2.bootFS (cstr "README.TXT") [120] 1).2 (cstr "SYSTEM.CFG")
      (fun _ => 0) 0).1 = true ∧
    (V2.load_file (V2.save_file V2.bootFS (cstr "README.TXT") [120] 1).2 (cstr "SYSTEM.CFG")
      (fun _ => 0) 0).2.1 17 = 120 := by
  refine ⟨V2.Reachable.save _ _ _ _ V2_bootFS_reachable, by decide, by decide, by decide,
    by decide, by decide, by decide, by decide, by decide, by decide, by decide⟩

/-- C28: evaluation of the capacity test of `save_file` on a wrapped sum.  On the
empty store `save_file("A", .., 0xFFFFFFFF)` returns false but has already moved
the cursor to 0xFFFFFFFF; the next `save_file("B", "xy", 2)` gets
`data_offset = 0xFFFFFFFF`, the sum `data_offset + size` is 1 modulo 2^32, the
test passes, the call returns true and the two bytes are copied to offsets
0xFFFFFFFF and 0x100000000 from the start of the data region, whose size is
126976.  The same happens on a store whose header, read by `load_metadata`,
holds the cursor 0xFFFFFFFF. -/
theorem capacity_check_wraps :
    Reachable (save_file (save_file emptyFS [65] [] 4294967295).2 [66] [120, 121] 2).2 ∧
    (save_file emptyFS [65] [] 4294967295).1 = false ∧
    (save_file emptyFS [65] [] 4294967295).2.next_free_offset = 4294967295 ∧
    (save_file (save_file emptyFS [65] [] 4294967295).2 [66] [120, 121] 2).1 = true ∧
    ((save_file (save_file emptyFS [65] [] 4294967295).2 [66] [120, 121] 2).2.files 1).data_offset
      = 4294967295 ∧
    ((save_file (save_file emptyFS [65] [] 4294967295).2 [66] [120, 121] 2).2.files 1).size = 2 ∧
    ¬ (4294967295 + 2 ≤ FS_TOTAL_SIZE - FS_METADATA_SIZE) ∧
    (save_file (save_file emptyFS [65] [] 4294967295).2 [66] [120, 121] 2).2.fs_data 4294967295
      = 120 ∧
    (save_file (save_file emptyFS [65] [] 4294967295).2 [66] [120, 121] 2).2.fs_data 4294967296
      = 121 ∧
    (load_metadata wrapFS).next_free_offset = 4294967295 ∧
    (save_file (load_metadata wrapFS) [66] [120, 121] 2).1 = true ∧
    ((save_file (load_metadata wrapFS) [66] [120, 121] 2).2.files 0).data_offset = 4294967295 := by
  refine ⟨Reachable.save _ _ _ _ (Reachable.save _ _ _ _ Reachable.empty), by decide, by decide,
    by decide, by decide, by decide, by decide, by decide, by decide, by decide, by decide,
    by decide⟩

/-! ## Claims about unmatched brackets and the bracket check of the transpiler -/

/-- C24 as stated fails for v2: on the source "[" the run of v2 ends with the
unmatched-bracket message after 1 step with `program_counter = 1`, and on "+]"
with `program_counter = 2`: the `program_counter++` behind the `switch` is still
executed.  In v3 the same source "[" leaves `pc = 0`. -/
theorem unmatched_bracket_counterexample :
    (run ['['] []).map (fun r => (r.messages, r.program_counter, r.steps, r.running))
      = some ([Message.unmatchedOpen], 1, 1, false) ∧
    (run ['+', ']'] []).map (fun r => (r.messages, r.program_counter, r.steps, r.running))
      = some ([Message.unmatchedClose], 2, 2, false) ∧
    (run_program (ideWith ['['])).map (fun r => (r.1.status, r.1.pc, r.1.steps))
      = some (Status.unmatchedOpen, 0, 1) := by
  refine ⟨by decide, by decide, by decide⟩

/-- C24 (as amended): an unmatched bracket halts the run without a jump.  For
every source and machine state in which the loop is entered at a `[` with
`cell[pointer] = 0` whose forward scan returns -1 (or at a `]` with a non-zero
cell whose backward scan returns -1): in v3 `run_program` returns at once with
the unmatched-bracket status, the step counted, and tape, pointer and `pc`
unchanged; in v2 (F10 not pressed) the iteration is completed and the loop
ends: the message is written, `running` is cleared, the step is counted, tape
and pointer are unchanged and `program_counter` is one past the bracket. -/
theorem unmatched_bracket_halts :
    (∀ (code : List Char) (ib : Nat → Nat) (N : Int) (fuel : Nat) (st : Exec),
      st.steps < N → st.running = true → progAt code st.pc = '[' →
      st.memory st.ptr.toNat = 0 → find_match code st.pc '[' ']' true = some (-1) →
      run_loop code ib N (fuel + 1) st
        = some (Status.unmatchedOpen, { st with steps := st.steps + 1, running := false })) ∧
    (∀ (code : List Char) (ib : Nat → Nat) (N : Int) (fuel : Nat) (st : Exec),
      st.steps < N → st.running = true → progAt code st.pc = ']' →
      st.memory st.ptr.toNat ≠ 0 → find_match code st.pc ']' '[' false = some (-1) →
      run_loop code ib N (fuel + 1) st
        = some (Status.unmatchedClose, { st with steps := st.steps + 1, running := false })) ∧
    (∀ (program : List Char) (N : Int) (fuel : Nat) (st : Interp),
      st.steps < N → st.running = true → progAt program st.program_counter = '[' →
      st.memory st.mem_ptr = 0 →
      find_matching_bracket program st.program_counter '[' ']' true = some (-1) →
      (∀ x ∈ st.kbd, x ≠ some 0xFA) →
      interp_loop program N (fuel + 2) st
        = some { st with
            steps := st.steps + 1, running := false,
            messages := st.messages ++ [Message.unmatchedOpen],
            program_counter := (st.program_counter + 1) % 65536, kbd := st.kbd.tail }) ∧
    (∀ (program : List Char) (N : Int) (fuel : Nat) (st : Interp),
      st.steps < N → st.running = true → progAt program st.program_counter = ']' →
      st.memory st.mem_ptr ≠ 0 →
      find_matching_bracket program st.program_counter ']' '[' false = some (-1) →
      (∀ x ∈ st.kbd, x ≠ some 0xFA) →
      interp_loop program N (fuel + 2) st
        = some { st with
            steps := st.steps + 1, running := false,
            messages := st.messages ++ [Message.unmatchedClose],
            program_counter := (st.program_counter + 1) % 65536, kbd := st.kbd.tail }) := by
  have hO : ('[' : Char) ≠ NUL := by decide
  have hC : (']' : Char) ≠ NUL := by decide
  refine ⟨?_, ?_, ?_, ?_⟩
  · intro code ib N fuel st hs hr hc hm hf
    simp only [run_loop]
    rw [if_pos ⟨by rw [hc]; exact hO, hs, hr⟩, hc]
    simp [exec_switch, hm, hf]
  · intro code ib N fuel st hs hr hc hm hf
    simp only [run_loop]
    rw [if_pos ⟨by rw [hc]; exact hC, hs, hr⟩, hc]
    simp [exec_switch, hm, hf]
  · intro program N fuel st hs hr hc hm hf hq
    rw [interp_loop_step_quiet program N (fuel + 1) st
      { st with steps := st.steps + 1, running := false,
                messages := st.messages ++ [Message.unmatchedOpen] }
      { st with steps := st.steps + 1, running := false,
                messages := st.messages ++ [Message.unmatchedOpen],
                program_counter := (st.program_counter + 1) % 65536, kbd := st.kbd.tail }
      hr (by rw [hc]; exact hO) hs (by rw [hc]; simp [interp_switch, hm, hf]) hq rfl]
    simp [interp_loop]
  · intro program N fuel st hs hr hc hm hf hq
    rw [interp_loop_step_quiet program N (fuel + 1) st
      { st with steps := st.steps + 1, running := false,
                messages := st.messages ++ [Message.unmatchedClose] }
      { st with steps := st.steps + 1, running := false,
                messages := st.messages ++ [Message.unmatchedClose],
                program_counter := (st.program_counter + 1) % 65536, kbd := st.kbd.tail }
      hr (by rw [hc]; exact hC) hs (by rw [hc]; simp [interp_switch, hm, hf]) hq rfl]
    simp [interp_loop]

/-- Witness of `unmatched_bracket_halts`: the source "[" on the fresh machine,
in v3 and in v2. -/
theorem unmatched_bracket_halts_witness :
    run_loop ['['] (fun _ => 0) 100000 (0 + 1)
        { memory := fun _ => 0, ptr := 0, pc := 0, steps := 0, running := true,
          input_mode := false, input_pos := 0, out := [] }
      = some (Status.unmatchedOpen,
        { memory := fun _ => 0, ptr := 0, pc := 0, steps := 0 + 1, running := false,
          input_mode := false, input_pos := 0, out := [] }) ∧
    interp_loop ['['] 10000 (0 + 2)
        { memory := fun _ => 0, mem_ptr := 0, program_counter := 0, running := true,
          output_buffer := [], steps := 0, messages := [], kbd := [] }
      = some
        { memory := fun _ => 0, mem_ptr := 0, program_counter := (0 + 1) % 65536,
          running := false, output_buffer := [], steps := 0 + 1,
          messages := [] ++ [Message.unmatchedOpen], kbd := [] } :=
  ⟨unmatched_bracket_halts.1 ['['] (fun _ => 0) 100000 0
      { memory := fun _ => 0, ptr := 0, pc := 0, steps := 0, running := true,
        input_mode := false, input_pos := 0, out := [] }
      (by decide) rfl (by decide) rfl (by decide),
    unmatched_bracket_halts.2.2.1 ['['] 10000 0
      { memory := fun _ => 0, mem_ptr := 0, program_counter := 0, running := true,
        output_buffer := [], steps := 0, messages := [], kbd := [] }
      (by decide) rfl (by decide) rfl (by decide) (by simp)⟩

/-! ## Balance lemmas of the transpiler and the matcher -/

theorem bracketWeight_not_instr (c : Char) (h : isInstr c = false) : bracketWeight c = 0 := by
  unfold bracketWeight
  have h1 : c ≠ '[' := by
    intro hc; rw [hc] at h; exact absurd h (by decide)
  have h2 : c ≠ ']' := by
    intro hc; rw [hc] at h; exact absurd h (by decide)
  rw [if_neg h1, if_neg h2]

theorem balancedFrom_optimize : ∀ (l : List Char), (∀ c ∈ l, c ≠ NUL) → ∀ d : Int, 0 ≤ d →
    balancedFrom (optimize_bf_code l) d = balancedFrom l d := by
  intro l
  induction l with
  | nil => intro _ d _; rfl
  | cons c cs ih =>
    intro h d hd
    have hc : c ≠ NUL := h c (by simp)
    have hcs : ∀ x ∈ cs, x ≠ NUL := fun x hx => h x (by simp [hx])
    simp only [optimize_bf_code, if_neg hc]
    by_cases hi : isInstr c = true
    · rw [if_pos hi]
      simp only [balancedFrom]
      by_cases hneg : d + bracketWeight c < 0
      · rw [if_pos hneg, if_pos hneg]
      · rw [if_neg hneg, if_neg hneg]
        exact ih hcs _ (by omega)
    · rw [if_neg hi]
      have hw : bracketWeight c = 0 := bracketWeight_not_instr c (by simpa using hi)
      simp only [balancedFrom, hw, add_zero]
      rw [if_neg (by omega)]
      exact ih hcs d hd

theorem optimize_idem : ∀ l : List Char, optimize_bf_code (optimize_bf_code l) = optimize_bf_code l := by
  intro l
  induction l with
  | nil => rfl
  | cons c cs ih =>
    simp only [optimize_bf_code]
    by_cases hc : c = NUL
    · rw [if_pos hc]; rfl
    · rw [if_neg hc]
      by_cases hi : isInstr c = true
      · rw [if_pos hi]
        simp only [optimize_bf_code, if_neg hc, if_pos hi, ih]
      · rw [if_neg hi]
        exact ih

/-- When the loop is not left through the budget test, it reaches the end of the
source with depth zero exactly when the source is balanced from the current
depth. -/
theorem compile_loop_balanced (max : Nat) :
    ∀ (l : List Char) (e : Emit), 0 ≤ e.loop_depth →
      (compile_loop max l e).1 ≠ LoopExit.budget →
      (((compile_loop max l e).1 = LoopExit.endOfSource ∧ (compile_loop max l e).2.loop_depth = 0)
        ↔ balancedFrom l e.loop_depth = true) := by
  intro l
  induction l with
  | nil =>
    intro e _ _
    simp [compile_loop, balancedFrom]
  | cons instr rest ih =>
    intro e h0 hb
    by_cases hbud : toU32 e.out_pos < subU32 max 100
    · simp only [compile_loop, if_pos hbud] at hb ⊢
      by_cases hclose : instr = ']'
      · simp only [if_pos hclose, indent_loop_depth] at hb ⊢
        have hw : bracketWeight instr = -1 := by rw [hclose]; rfl
        simp only [balancedFrom, hw]
        by_cases hneg : e.loop_depth - 1 < 0
        · rw [if_pos hneg]
          rw [if_pos (by omega)]
          simp
        · rw [if_neg hneg] at hb ⊢
          rw [if_neg (by omega)]
          have := ih _ (by simp only [put, indent_loop_depth]; omega) hb
          simp only [put, indent_loop_depth] at this
          rw [show e.loop_depth + -1 = e.loop_depth - 1 by omega]
          exact this
      · simp only [if_neg hclose] at hb ⊢
        by_cases hopen : instr = '['
        · simp only [if_pos hopen] at hb ⊢
          have hw : bracketWeight instr = 1 := by rw [hopen]; rfl
          simp only [balancedFrom, hw]
          rw [if_neg (by omega)]
          have := ih _ (by simp only [putAll_loop_depth, indent_loop_depth]; omega) hb
          simp only [putAll_loop_depth, indent_loop_depth] at this ⊢
          exact this
        · simp only [if_neg hopen] at hb ⊢
          have hw : bracketWeight instr = 0 := by
            unfold bracketWeight; rw [if_neg hopen, if_neg hclose]
          simp only [balancedFrom, hw, add_zero]
          rw [if_neg (by omega)]
          have := ih _ (by simp only [putAll_loop_depth, indent_loop_depth]; exact h0) hb
          simp only [putAll_loop_depth, indent_loop_depth] at this ⊢
          exact this
    · simp only [compile_loop, if_neg hbud] at hb
      exact absurd rfl hb

/-- Return value of `compile_to_c` when the budget test does not end the loop. -/
theorem compile_to_c_balanced (bf_code : List Char) (max_size : Nat)
    (hbudget : compile_exit bf_code max_size ≠ LoopExit.budget) :
    (compile_to_c bf_code max_size).1 = true ↔ balanced (optimize_bf_code bf_code) = true := by
  unfold compile_exit at hbudget
  have hb := compile_loop_balanced max_size (optimize_bf_code bf_code) compile_start
    (by decide) hbudget
  have h0 : compile_start.loop_depth = 0 := by decide
  rw [h0] at hb
  unfold balanced
  rw [← hb]
  unfold compile_to_c
  rcases hres : compile_loop max_size (optimize_bf_code bf_code) compile_start with ⟨ex, e⟩
  rw [hres] at hbudget
  cases ex with
  | endOfSource =>
    by_cases hd : e.loop_depth = 0
    · simp [hd]
    · simp [hd]
  | budget => exact absurd rfl hbudget
  | unmatched => simp

theorem depthAt_step (prog : List Char) (k : Nat) (hk : k < prog.length) :
    depthAt prog k - 1 ≤ depthAt prog (k + 1) ∧ depthAt prog (k + 1) ≤ depthAt prog k + 1 := by
  have h1 := depthAt_succ prog k hk
  have h2 := bracketWeight_bounds (prog.getD k NUL)
  omega

/-- What the forward scan returns, when it is a position. -/
theorem find_match_loop_forward_sound (prog : List Char) :
    ∀ (fuel p : Nat) (depth r : Int),
      find_match_loop prog '[' ']' true fuel (p : Int) depth = some r → r ≠ -1 →
      ∃ q : Nat, r = (q : Int) ∧ p < q ∧ q < prog.length ∧
        depth + depthAt prog (q + 1) - depthAt prog (p + 1) = 0 := by
  intro fuel
  induction fuel with
  | zero =>
    intro p depth r h
    simp [find_match_loop] at h
  | succ fuel ih =>
    intro p depth r h hr
    have hcast : ((p : Int) + 1) = ((p + 1 : Nat) : Int) := by push_cast; rfl
    simp only [find_match_loop, if_true, hcast] at h
    by_cases hstop : ((p + 1 : Nat) : Int) < 0 ∨ progAt prog ((p + 1 : Nat) : Int) = NUL
    · rw [if_pos hstop] at h
      exact absurd (Option.some.inj h).symm hr
    · rw [if_neg hstop, forward_depth, progAt_nat] at h
      have hlen : p + 1 < prog.length := by
        by_contra hge
        apply hstop
        right
        rw [progAt_nat]
        exact List.getD_eq_default _ _ (by omega)
      have hd := depthAt_succ prog (p + 1) hlen
      by_cases h0 : depth + bracketWeight (prog.getD (p + 1) NUL) = 0
      · rw [if_pos h0] at h
        refine ⟨p + 1, (Option.some.inj h).symm, by omega, hlen, ?_⟩
        omega
      · rw [if_neg h0] at h
        obtain ⟨q, h1, h2, h3, h4⟩ := ih (p + 1) _ r h hr
        exact ⟨q, h1, by omega, h3, by omega⟩

/-- What the backward scan returns, when it is a position. -/
theorem find_match_loop_backward_sound (prog : List Char) :
    ∀ (fuel pos : Nat) (depth r : Int), pos ≤ prog.length →
      find_match_loop prog ']' '[' false fuel (pos : Int) depth = some r → r ≠ -1 →
      ∃ q : Nat, r = (q : Int) ∧ q < pos ∧ depth - depthAt prog pos + depthAt prog q = 0 := by
  intro fuel
  induction fuel with
  | zero =>
    intro pos depth r _ h
    simp [find_match_loop] at h
  | succ fuel ih =>
    intro pos depth r hpos h hr
    simp only [find_match_loop, Bool.false_eq_true, if_false] at h
    by_cases hstop : (pos : Int) - 1 < 0 ∨ progAt prog ((pos : Int) - 1) = NUL
    · rw [if_pos hstop] at h
      exact absurd (Option.some.inj h).symm hr
    · rw [if_neg hstop] at h
      have hp0 : 0 < pos := by
        by_contra hz
        apply hstop
        left
        omega
      obtain ⟨k, rfl⟩ : ∃ k, pos = k + 1 := ⟨pos - 1, by omega⟩
      have hcast : (((k + 1 : Nat) : Int) - 1) = (k : Int) := by push_cast; omega
      rw [hcast, backward_depth, progAt_nat] at h
      have hk : k < prog.length := by omega
      have hd := depthAt_succ prog k hk
      by_cases h0 : depth - bracketWeight (prog.getD k NUL) = 0
      · rw [if_pos h0] at h
        refine ⟨k, (Option.some.inj h).symm, by omega, ?_⟩
        omega
      · rw [if_neg h0] at h
        obtain ⟨q, h1, h2, h3⟩ := ih k _ r (by omega) h hr
        exact ⟨q, h1, by omega, by omega⟩

/-- Converse of `balancedFrom_depth`. -/
theorem balancedFrom_of_depth : ∀ (l : List Char) (d : Int),
    (∀ i, i ≤ l.length → 0 ≤ d + depthAt l i) → d + depthAt l l.length = 0 →
    balancedFrom l d = true := by
  intro l
  induction l with
  | nil =>
    intro d _ h2
    simp [depthAt] at h2
    simp [balancedFrom, h2]
  | cons c cs ih =>
    intro d h1 h2
    have hstep := h1 1 (by simp)
    simp only [depthAt, List.take_succ_cons, List.take_zero, List.map_cons, List.map_nil,
      List.sum_cons, List.sum_nil, add_zero] at hstep
    simp only [balancedFrom]
    rw [if_neg (by omega)]
    apply ih
    · intro i hi
      have := h1 (i + 1) (by simpa using hi)
      simp only [depthAt, List.take_succ_cons, List.map_cons, List.sum_cons] at this ⊢
      omega
    · simp only [depthAt, List.length_cons, List.take_succ_cons, List.map_cons,
        List.sum_cons] at h2 ⊢
      omega

theorem balanced_iff_depth (prog : List Char) :
    balanced prog = true ↔
      (∀ i, i ≤ prog.length → 0 ≤ depthAt prog i) ∧ depthAt prog prog.length = 0 := by
  constructor
  · exact balanced_depth prog
  · intro ⟨h1, h2⟩
    apply balancedFrom_of_depth
    · intro i hi
      have := h1 i hi
      omega
    · omega

/-- In a balanced program the forward scan from a `[` returns a position. -/
theorem balanced_open_partner (prog : List Char) (hnul : ∀ c ∈ prog, c ≠ NUL)
    (hbal : balanced prog = true) (p : Nat) (hp : p < prog.length)
    (hopen : prog.getD p NUL = '[') :
    ∃ q : Nat, find_match_loop prog '[' ']' true (prog.length + p + 2) (p : Int) 1
      = some (q : Int) := by
  obtain ⟨hge, hend⟩ := balanced_depth prog hbal
  have hB1 : depthAt prog (p + 1) = depthAt prog p + 1 := by
    rw [depthAt_succ prog p hp, hopen]
    rfl
  have hB0 : 0 ≤ depthAt prog p := hge p (le_of_lt hp)
  have hp1 : p + 1 < prog.length := by
    by_contra h
    have h1 : p + 1 = prog.length := by omega
    rw [h1, hend] at hB1
    omega
  have hex : ∃ j, p < j ∧ j < prog.length ∧ depthAt prog (j + 1) ≤ depthAt prog p := by
    refine ⟨prog.length - 1, by omega, by omega, ?_⟩
    rw [show prog.length - 1 + 1 = prog.length by omega, hend]
    exact hB0
  obtain ⟨hq1, hq2, hq3⟩ := Nat.find_spec hex
  have hmin : ∀ j, p < j → j < Nat.find hex → depthAt prog p < depthAt prog (j + 1) := by
    intro j h1 h2
    have hnot := Nat.find_min hex h2
    by_contra hc
    exact hnot ⟨h1, by omega, by omega⟩
  generalize Nat.find hex = q at hq1 hq2 hq3 hmin
  have hDq : depthAt prog p < depthAt prog q := by
    by_cases hqp : q = p + 1
    · rw [hqp, hB1]; omega
    · have := hmin (q - 1) (by omega) (by omega)
      rwa [show q - 1 + 1 = q by omega] at this
  have hstep := depthAt_step prog q hq2
  have hq4 : depthAt prog (q + 1) = depthAt prog p := by omega
  refine ⟨q, ?_⟩
  apply find_match_loop_forward prog hnul (depthAt prog p) q hq2 hq4 _ p 1 hq1
  · omega
  · omega
  · intro j h1 h2
    have := hmin j h1 h2
    omega

/-- In a balanced program the backward scan from a `]` returns a position. -/
theorem balanced_close_partner (prog : List Char) (hnul : ∀ c ∈ prog, c ≠ NUL)
    (hbal : balanced prog = true) (q : Nat) (hq : q < prog.length)
    (hclose : prog.getD q NUL = ']') :
    ∃ p : Nat, find_match_loop prog ']' '[' false (prog.length + q + 2) (q : Int) 1
      = some (p : Int) := by
  obtain ⟨hge, hend⟩ := balanced_depth prog hbal
  have hB1 : depthAt prog (q + 1) = depthAt prog q - 1 := by
    rw [depthAt_succ prog q hq, hclose]
    rfl
  have hB0 : 0 ≤ depthAt prog (q + 1) := hge (q + 1) (by omega)
  have hq0 : 0 < q := by
    by_contra h
    have h0 : q = 0 := by omega
    rw [h0, depthAt_zero] at hB1
    rw [h0] at hB0
    omega
  have hex : ∃ m, m < q ∧ depthAt prog (q - 1 - m) ≤ depthAt prog q - 1 := by
    refine ⟨q - 1, by omega, ?_⟩
    rw [show q - 1 - (q - 1) = 0 by omega, depthAt_zero]
    omega
  obtain ⟨hm1, hm2⟩ := Nat.find_spec hex
  have hmin : ∀ m, m < Nat.find hex → depthAt prog q - 1 < depthAt prog (q - 1 - m) := by
    intro m h2
    have hnot := Nat.find_min hex h2
    by_contra hc
    exact hnot ⟨by omega, by omega⟩
  generalize Nat.find hex = m0 at hm1 hm2 hmin
  have hstep := depthAt_step prog (q - 1 - m0) (by omega)
  have hnext : depthAt prog q - 1 < depthAt prog (q - 1 - m0 + 1) := by
    by_cases hz : m0 = 0
    · rw [hz, show q - 1 - 0 + 1 = q by omega]
      omega
    · have := hmin (m0 - 1) (by omega)
      rwa [show q - 1 - (m0 - 1) = q - 1 - m0 + 1 by omega] at this
  have hp4 : depthAt prog (q - 1 - m0) = depthAt prog q - 1 := by omega
  refine ⟨q - 1 - m0, ?_⟩
  apply find_match_loop_backward prog hnul (depthAt prog q - 1) (q - 1 - m0) hp4 _ q 1
    (by omega) (by omega)
  · omega
  · omega
  · intro j h1 h2
    have := hmin (q - 1 - j) (by omega)
    rw [show q - 1 - (q - 1 - j) = j by omega] at this
    omega

/-- When every `]` has a partner, the depth never goes below zero. -/
theorem depth_nonneg_of_partners (prog : List Char)
    (hclose : ∀ q : Nat, q < prog.length → prog.getD q NUL = ']' →
      ∃ r : Int, find_matching_bracket prog (q : Int) ']' '[' false = some r ∧ r ≠ -1) :
    ∀ i, i ≤ prog.length → 0 ≤ depthAt prog i := by
  intro i
  induction i using Nat.strong_induction_on with
  | _ i ih =>
    intro hi
    by_contra hneg
    have hi0 : 0 < i := by
      by_contra h
      have h0 : i = 0 := by omega
      rw [h0, depthAt_zero] at hneg
      omega
    have hprev := ih (i - 1) (by omega) (by omega)
    have hk : i - 1 < prog.length := by omega
    have hsucc := depthAt_succ prog (i - 1) hk
    rw [show i - 1 + 1 = i by omega] at hsucc
    have hb := bracketWeight_bounds (prog.getD (i - 1) NUL)
    have hc : prog.getD (i - 1) NUL = ']' := bracketWeight_neg _ (by omega)
    obtain ⟨r, hr1, hr2⟩ := hclose (i - 1) hk hc
    unfold find_matching_bracket at hr1
    obtain ⟨q, _, hq2, hq3⟩ :=
      find_match_loop_backward_sound prog _ (i - 1) 1 r (by omega) hr1 hr2
    have := ih q (by omega) (by omega)
    omega

/-- When every `[` has a partner, no position lies below the final depth. -/
theorem depth_final_of_partners (prog : List Char)
    (hopen : ∀ p : Nat, p < prog.length → prog.getD p NUL = '[' →
      ∃ r : Int, find_matching_bracket prog (p : Int) '[' ']' true = some r ∧ r ≠ -1) :
    ∀ k i, i + k = prog.length → depthAt prog prog.length ≤ depthAt prog i := by
  intro k
  induction k using Nat.strong_induction_on with
  | _ k ih =>
    intro i hik
    by_contra hlt
    have hk0 : 0 < k := by
      by_contra h
      have h0 : i = prog.length := by omega
      rw [h0] at hlt
      omega
    have hi : i < prog.length := by omega
    have hnext := ih (k - 1) (by omega) (i + 1) (by omega)
    have hsucc := depthAt_succ prog i hi
    have hb := bracketWeight_bounds (prog.getD i NUL)
    have hw : bracketWeight (prog.getD i NUL) = 1 := by omega
    have hc : prog.getD i NUL = '[' := by
      unfold bracketWeight at hw
      split at hw
      · assumption
      · split at hw <;> omega
    obtain ⟨r, hr1, hr2⟩ := hopen i hi hc
    unfold find_matching_bracket at hr1
    obtain ⟨q, _, hq2, hq3, hq4⟩ := find_match_loop_forward_sound prog _ i 1 r hr1 hr2
    have := ih (prog.length - (q + 1)) (by omega) (q + 1) (by omega)
    omega

/-- A program is balanced exactly when the matcher finds a partner for each of
its brackets. -/
theorem balanced_iff_partners (prog : List Char) (hnul : ∀ c ∈ prog, c ≠ NUL) :
    balanced prog = true ↔
      ∀ p : Nat, p < prog.length →
        (prog.getD p NUL = '[' →
          ∃ r : Int, find_matching_bracket prog (p : Int) '[' ']' true = some r ∧ r ≠ -1) ∧
        (prog.getD p NUL = ']' →
          ∃ r : Int, find_matching_bracket prog (p : Int) ']' '[' false = some r ∧ r ≠ -1) := by
  constructor
  · intro hbal p hp
    constructor
    · intro hc
      obtain ⟨q, hq⟩ := balanced_open_partner prog hnul hbal p hp hc
      refine ⟨(q : Int), ?_, by omega⟩
      unfold find_matching_bracket
      simpa using hq
    · intro hc
      obtain ⟨q, hq⟩ := balanced_close_partner prog hnul hbal p hp hc
      refine ⟨(q : Int), ?_, by omega⟩
      unfold find_matching_bracket
      simpa using hq
  · intro h
    rw [balanced_iff_depth]
    have h1 := depth_nonneg_of_partners prog (fun q hq hc => (h q hq).2 hc)
    have h2 := depth_final_of_partners prog (fun p hp hc => (h p hp).1 hc)
      prog.length 0 (by omega)
    rw [depthAt_zero] at h2
    have h3 := h1 prog.length (le_refl _)
    exact ⟨h1, by omega⟩

/-! ## Claims about the bracket check -/

set_option maxRecDepth 100000 in
/-- C22 as stated fails: the complete text for "+++++[]" takes 234 bytes and its
terminator (with a budget of 100000 every store is below position 235 and the
call returns true), so it fits within `max_size = 300`, and the source is
balanced; yet `compile_to_c(.., 300)` returns false, because the loop test
`out_pos < max - 100` fails behind the `[` and the `]` is never read.  With the
caller's budget 2048 the same happens for 150 `+` followed by "[]". -/
theorem bracket_check_counterexample :
    balanced (optimize_bf_code ['+', '+', '+', '+', '+', '[', ']']) = true ∧
    (compile_to_c ['+', '+', '+', '+', '+', '[', ']'] 100000).1 = true ∧
    ((compile_to_c ['+', '+', '+', '+', '+', '[', ']'] 100000).2.all
      (fun w => decide (w.1 < 235))) = true ∧
    (compile_to_c ['+', '+', '+', '+', '+', '[', ']'] 300).1 = false ∧
    compile_exit ['+', '+', '+', '+', '+', '[', ']'] 300 = LoopExit.budget ∧
    balanced (optimize_bf_code (List.replicate 150 '+' ++ ['[', ']'])) = true ∧
    (compile_to_c (List.replicate 150 '+' ++ ['[', ']']) 2048).1 = false := by
  refine ⟨by decide, by decide, by decide, by decide, by decide, by decide, by decide⟩

/-- C22 (as amended): bracket checking of the transpiler.  For every source and
`max_size` for which the emission loop is not ended by the budget test
(`out_pos` is below `max_size - 100` in front of every instruction),
`compile_to_c` returns true if and only if the subsequence of the source made
of the 8 instruction characters is bracket-balanced; bytes outside the 8
instruction characters do not affect the result: compiling the filtered
source gives the same return value and the same stores. -/
theorem bracket_check (bf_code : List Char) (max_size : Nat)
    (hbudget : compile_exit bf_code max_size ≠ LoopExit.budget) :
    ((compile_to_c bf_code max_size).1 = true ↔ balanced (optimize_bf_code bf_code) = true) ∧
    compile_to_c (optimize_bf_code bf_code) max_size = compile_to_c bf_code max_size := by
  refine ⟨compile_to_c_balanced bf_code max_size hbudget, ?_⟩
  unfold compile_to_c
  rw [optimize_idem]

set_option maxRecDepth 100000 in
/-- Witness of `bracket_check`: the source "+ [-] x" with the caller's budget. -/
theorem bracket_check_witness :
    compile_exit ['+', ' ', '[', '-', ']', ' ', 'x'] 2048 ≠ LoopExit.budget ∧
    (((compile_to_c ['+', ' ', '[', '-', ']', ' ', 'x'] 2048).1 = true ↔
        balanced (optimize_bf_code ['+', ' ', '[', '-', ']', ' ', 'x']) = true) ∧
      compile_to_c (optimize_bf_code ['+', ' ', '[', '-', ']', ' ', 'x']) 2048
        = compile_to_c ['+', ' ', '[', '-', ']', ' ', 'x'] 2048) :=
  ⟨by decide, bracket_check ['+', ' ', '[', '-', ']', ' ', 'x'] 2048 (by decide)⟩

set_option maxRecDepth 100000 in
/-- C26 as stated fails: in "+++++[-]" the matcher pairs the `[` at position 5
with the `]` at position 7 and back, and the complete text takes 248 bytes, so
it fits within `max_size = 300` (with a budget of 100000 every store is below
position 249 and the call returns true); yet `compile_to_c(.., 300)` returns
false, the loop being left by the budget test behind the `[`. -/
theorem transpiler_engine_counterexample :
    find_matching_bracket ['+', '+', '+', '+', '+', '[', '-', ']'] 5 '[' ']' true = some 7 ∧
    find_matching_bracket ['+', '+', '+', '+', '+', '[', '-', ']'] 7 ']' '[' false = some 5 ∧
    (compile_to_c ['+', '+', '+', '+', '+', '[', '-', ']'] 100000).1 = true ∧
    ((compile_to_c ['+', '+', '+', '+', '+', '[', '-', ']'] 100000).2.all
      (fun w => decide (w.1 < 249))) = true ∧
    (compile_to_c ['+', '+', '+', '+', '+', '[', '-', ']'] 300).1 = false := by
  refine ⟨by decide, by decide, by decide, by decide, by decide⟩

/-- C26 (as amended): transpiler and engine agree on bracket matching.  For every
source (a C string) and `max_size` for which the emission loop is not ended by
the budget test, `compile_to_c` returns true if and only if
`find_matching_bracket` returns a position (not -1) when scanning forward from
every `[` of the source and when scanning backward from every `]`. -/
theorem transpiler_engine_agree (bf_code : List Char) (max_size : Nat)
    (hnul : ∀ c ∈ bf_code, c ≠ NUL)
    (hbudget : compile_exit bf_code max_size ≠ LoopExit.budget) :
    (compile_to_c bf_code max_size).1 = true ↔
      ∀ p : Nat, p < bf_code.length →
        (bf_code.getD p NUL = '[' →
          ∃ r : Int, find_matching_bracket bf_code (p : Int) '[' ']' true = some r ∧ r ≠ -1) ∧
        (bf_code.getD p NUL = ']' →
          ∃ r : Int, find_matching_bracket bf_code (p : Int) ']' '[' false = some r ∧ r ≠ -1) := by
  rw [compile_to_c_balanced bf_code max_size hbudget, ← balanced_iff_partners bf_code hnul]
  unfold balanced
  rw [balancedFrom_optimize bf_code hnul 0 (le_refl _)]

set_option maxRecDepth 100000 in
/-- Witness of `transpiler_engine_agree`: the source "+[-]" with the caller's
budget. -/
theorem transpiler_engine_agree_witness :
    compile_exit ['+', '[', '-', ']'] 2048 ≠ LoopExit.budget ∧
    ((compile_to_c ['+', '[', '-', ']'] 2048).1 = true ↔
      ∀ p : Nat, p < ['+', '[', '-', ']'].length →
        (['+', '[', '-', ']'].getD p NUL = '[' →
          ∃ r : Int, find_matching_bracket ['+', '[', '-', ']'] (p : Int) '[' ']' true = some r ∧
            r ≠ -1) ∧
        (['+', '[', '-', ']'].getD p NUL = ']' →
          ∃ r : Int, find_matching_bracket ['+', '[', '-', ']'] (p : Int) ']' '[' false = some r ∧
            r ≠ -1)) :=
  ⟨by decide, transpiler_engine_agree ['+', '[', '-', ']'] 2048 (by decide) (by decide)⟩

/-! ## Lemmas about the final report of a run -/

/-- A `break` of the `switch` leaves `running` and `steps` as they are and never
shortens the output. -/
theorem exec_switch_brk_keeps (code : List Char) (ib : Nat → Nat) (c : Char) (st st1 : Exec)
    (hsw : exec_switch code ib c st = some (.brk st1)) :
    st1.running = st.running ∧ st1.steps = st.steps ∧ st.out.length ≤ st1.out.length := by
  unfold exec_switch at hsw
  by_cases h1 : c = '>'
  · rw [if_pos h1] at hsw; cases hsw; simp
  rw [if_neg h1] at hsw
  by_cases h2 : c = '<'
  · rw [if_pos h2] at hsw; cases hsw; simp
  rw [if_neg h2] at hsw
  by_cases h3 : c = '+'
  · rw [if_pos h3] at hsw; cases hsw; simp
  rw [if_neg h3] at hsw
  by_cases h4 : c = '-'
  · rw [if_pos h4] at hsw; cases hsw; simp
  rw [if_neg h4] at hsw
  by_cases h5 : c = '.'
  · rw [if_pos h5] at hsw; cases hsw; simp
  rw [if_neg h5] at hsw
  by_cases h6 : c = ','
  · rw [if_pos h6] at hsw
    by_cases hm : (!st.input_mode) = true
    · rw [if_pos hm] at hsw; simp at hsw
    · rw [if_neg hm] at hsw; cases hsw; simp
  rw [if_neg h6] at hsw
  by_cases h7 : c = '['
  · rw [if_pos h7] at hsw
    by_cases hz : st.memory st.ptr.toNat = 0
    · rw [if_pos hz] at hsw
      cases hfm : find_match code st.pc '[' ']' true with
      | none => rw [hfm] at hsw; simp at hsw
      | some m =>
        rw [hfm] at hsw
        simp only [] at hsw
        by_cases hm : m = -1
        · rw [if_pos hm] at hsw; simp at hsw
        · rw [if_neg hm] at hsw; cases hsw; simp
    · rw [if_neg hz] at hsw; cases hsw; simp
  rw [if_neg h7] at hsw
  by_cases h8 : c = ']'
  · rw [if_pos h8] at hsw
    by_cases hz : st.memory st.ptr.toNat ≠ 0
    · rw [if_pos hz] at hsw
      cases hfm : find_match code st.pc ']' '[' false with
      | none => rw [hfm] at hsw; simp at hsw
      | some m =>
        rw [hfm] at hsw
        simp only [] at hsw
        by_cases hm : m = -1
        · rw [if_pos hm] at hsw; simp at hsw
        · rw [if_neg hm] at hsw; cases hsw; simp
    · rw [if_neg hz] at hsw; cases hsw; simp
  rw [if_neg h8] at hsw
  cases hsw; simp

/-- A `return` inside the `switch` happens at a `,` or at a bracket, and leaves
`pc`, `steps`, tape, pointer and output as they are. -/
theorem exec_switch_ret_keeps (code : List Char) (ib : Nat → Nat) (c : Char) (st st1 : Exec)
    (status : Status) (hsw : exec_switch code ib c st = some (.ret status st1)) :
    st1.pc = st.pc ∧ st1.steps = st.steps ∧ st1.memory = st.memory ∧ st1.ptr = st.ptr ∧
    st1.out = st.out ∧ (c = ',' ∨ c = '[' ∨ c = ']') ∧ status ≠ Status.finished ∧
    status ≠ Status.tooManySteps := by
  unfold exec_switch at hsw
  by_cases h1 : c = '>'
  · rw [if_pos h1] at hsw; simp at hsw
  rw [if_neg h1] at hsw
  by_cases h2 : c = '<'
  · rw [if_pos h2] at hsw; simp at hsw
  rw [if_neg h2] at hsw
  by_cases h3 : c = '+'
  · rw [if_pos h3] at hsw; simp at hsw
  rw [if_neg h3] at hsw
  by_cases h4 : c = '-'
  · rw [if_pos h4] at hsw; simp at hsw
  rw [if_neg h4] at hsw
  by_cases h5 : c = '.'
  · rw [if_pos h5] at hsw; simp at hsw
  rw [if_neg h5] at hsw
  by_cases h6 : c = ','
  · rw [if_pos h6] at hsw
    by_cases hm : (!st.input_mode) = true
    · rw [if_pos hm] at hsw; cases hsw; simp [h6]
    · rw [if_neg hm] at hsw; simp at hsw
  rw [if_neg h6] at hsw
  by_cases h7 : c = '['
  · rw [if_pos h7] at hsw
    by_cases hz : st.memory st.ptr.toNat = 0
    · rw [if_pos hz] at hsw
      cases hfm : find_match code st.pc '[' ']' true with
      | none => rw [hfm] at hsw; simp at hsw
      | some m =>
        rw [hfm] at hsw
        simp only [] at hsw
        by_cases hm : m = -1
        · rw [if_pos hm] at hsw; cases hsw; simp [h7]
        · rw [if_neg hm] at hsw; simp at hsw
    · rw [if_neg hz] at hsw; simp at hsw
  rw [if_neg h7] at hsw
  by_cases h8 : c = ']'
  · rw [if_pos h8] at hsw
    by_cases hz : st.memory st.ptr.toNat ≠ 0
    · rw [if_pos hz] at hsw
      cases hfm : find_match code st.pc ']' '[' false with
      | none => rw [hfm] at hsw; simp at hsw
      | some m =>
        rw [hfm] at hsw
        simp only [] at hsw
        by_cases hm : m = -1
        · rw [if_pos hm] at hsw; cases hsw; simp [h8]
        · rw [if_neg hm] at hsw; simp at hsw
    · rw [if_neg hz] at hsw; simp at hsw
  rw [if_neg h8] at hsw
  simp at hsw


/-- The v2 `switch` leaves `steps` as it is; when `running` is still set behind it,
no message was written. -/
theorem interp_switch_keeps (program : List Char) (c : Char) (st st1 : Interp)
    (hsw : interp_switch program c st = some st1) :
    st1.steps = st.steps ∧
    (st1.running = true → st.running = true ∧ st1.messages = st.messages) := by
  unfold interp_switch at hsw
  by_cases h1 : c = '>'
  · rw [if_pos h1] at hsw; cases hsw; simp
  rw [if_neg h1] at hsw
  by_cases h2 : c = '<'
  · rw [if_pos h2] at hsw; cases hsw; simp
  rw [if_neg h2] at hsw
  by_cases h3 : c = '+'
  · rw [if_pos h3] at hsw; cases hsw; simp
  rw [if_neg h3] at hsw
  by_cases h4 : c = '-'
  · rw [if_pos h4] at hsw; cases hsw; simp
  rw [if_neg h4] at hsw
  by_cases h5 : c = '.'
  · rw [if_pos h5] at hsw
    by_cases hl : st.output_buffer.length < 255
    · rw [if_pos hl] at hsw; cases hsw; simp
    · rw [if_neg hl] at hsw; cases hsw; simp
  rw [if_neg h5] at hsw
  by_cases h6 : c = ','
  · rw [if_pos h6] at hsw
    cases hg : get_input st.kbd with
    | none => rw [hg] at hsw; simp at hsw
    | some x => rw [hg] at hsw; cases hsw; simp
  rw [if_neg h6] at hsw
  by_cases h7 : c = '['
  · rw [if_pos h7] at hsw
    by_cases hz : st.memory st.mem_ptr = 0
    · rw [if_pos hz] at hsw
      cases hfm : find_matching_bracket program st.program_counter '[' ']' true with
      | none => rw [hfm] at hsw; simp at hsw
      | some m =>
        rw [hfm] at hsw
        simp only [] at hsw
        by_cases hm : m ≠ -1
        · rw [if_pos hm] at hsw; cases hsw; simp
        · rw [if_neg hm] at hsw; cases hsw; simp
    · rw [if_neg hz] at hsw; cases hsw; simp
  rw [if_neg h7] at hsw
  by_cases h8 : c = ']'
  · rw [if_pos h8] at hsw
    by_cases hz : st.memory st.mem_ptr ≠ 0
    · rw [if_pos hz] at hsw
      cases hfm : find_matching_bracket program st.program_counter ']' '[' false with
      | none => rw [hfm] at hsw; simp at hsw
      | some m =>
        rw [hfm] at hsw
        simp only [] at hsw
        by_cases hm : m ≠ -1
        · rw [if_pos hm] at hsw; cases hsw; simp
        · rw [if_neg hm] at hsw; cases hsw; simp
    · rw [if_neg hz] at hsw; cases hsw; simp
  rw [if_neg h8] at hsw
  cases hsw
  simp

/-- The F10 poll changes neither `steps` nor `program_counter`; when `running` is
still set behind it, no message was written. -/
theorem poll_stop_keeps (st : Interp) :
    (poll_stop st).steps = st.steps ∧ (poll_stop st).program_counter = st.program_counter ∧
    ((poll_stop st).running = true →
      st.running = true ∧ (poll_stop st).messages = st.messages) := by
  unfold poll_stop
  cases hk : st.kbd with
  | nil => simp
  | cons x rest =>
    cases x with
    | none => simp
    | some c =>
      by_cases hc : c = 0xFA
      · simp [hc]
      · simp [hc]

/-- What the v3 loop reports, in terms of the step count and of the character
under `pc` when it returns. -/
theorem run_loop_report (code : List Char) (ib : Nat → Nat) (N : Int) :
    ∀ (fuel : Nat) (st : Exec) (status : Status) (st' : Exec),
      st.running = true → st.steps ≤ N →
      run_loop code ib N fuel st = some (status, st') →
      st'.steps ≤ N ∧ (status = Status.tooManySteps → st'.steps = N) ∧
      (status = Status.finished → progAt code st'.pc = NUL ∧ st'.steps < N) ∧
      (progAt code st'.pc = NUL →
        (st'.steps < N → status = Status.finished) ∧
        (st'.steps = N → status = Status.tooManySteps)) := by
  intro fuel
  induction fuel with
  | zero =>
    intro st status st' _ _ h
    simp [run_loop] at h
  | succ fuel ih =>
    intro st status st' hr hs h
    simp only [run_loop] at h
    by_cases hcond : progAt code st.pc ≠ NUL ∧ st.steps < N ∧ st.running = true
    · rw [if_pos hcond] at h
      cases hsw : exec_switch code ib (progAt code st.pc) { st with steps := st.steps + 1 } with
      | none => rw [hsw] at h; simp at h
      | some sw =>
        rw [hsw] at h
        cases sw with
        | brk st1 =>
          simp only [] at h
          obtain ⟨k1, k2, _⟩ := exec_switch_brk_keeps _ _ _ _ _ hsw
          exact ih _ status st' (by simpa using k1.trans hr)
            (by have := hcond.2.1; simp only [] at k2 ⊢; omega) h
        | ret status1 st1 =>
          simp only [Option.some.injEq, Prod.mk.injEq] at h
          obtain ⟨rfl, rfl⟩ := h
          obtain ⟨k1, k2, _, _, _, _, k3, k4⟩ := exec_switch_ret_keeps _ _ _ _ _ _ hsw
          simp only [] at k1 k2
          have hpc : progAt code st1.pc ≠ NUL := by rw [k1]; exact hcond.1
          refine ⟨by have := hcond.2.1; omega, fun h => absurd h k4, fun h => absurd h k3,
            fun h => absurd h hpc⟩
    · rw [if_neg hcond] at h
      simp only [Option.some.injEq, Prod.mk.injEq] at h
      obtain ⟨rfl, rfl⟩ := h
      simp only [hr, if_true]
      by_cases hge : st.steps ≥ N
      · rw [if_pos hge]
        refine ⟨hs, fun _ => by omega, fun h => by simp at h, fun _ => ⟨fun h => by omega, fun _ => rfl⟩⟩
      · rw [if_neg hge]
        have hnul : progAt code st.pc = NUL := by
          by_contra hne
          exact hcond ⟨hne, by omega, hr⟩
        refine ⟨hs, fun h => by simp at h, fun _ => ⟨hnul, by omega⟩,
          fun _ => ⟨fun _ => rfl, fun h => by omega⟩⟩

/-- What the v2 loop leaves: the step count stays within the limit, and when
`running` is still set nothing was written on the status line. -/
theorem interp_loop_report (code : List Char) (N : Int) :
    ∀ (fuel : Nat) (st st' : Interp), st.steps ≤ N →
      interp_loop code N fuel st = some st' →
      st'.steps ≤ N ∧
      (st'.running = true → st.running = true ∧ st'.messages = st.messages ∧
        (progAt code st'.program_counter = NUL ∨ st'.steps = N)) := by
  intro fuel
  induction fuel with
  | zero =>
    intro st st' _ h
    simp [interp_loop] at h
  | succ fuel ih =>
    intro st st' hs h
    simp only [interp_loop] at h
    by_cases hcond : st.running = true ∧ progAt code st.program_counter ≠ NUL ∧ st.steps < N
    · rw [if_pos hcond] at h
      cases hsw : interp_switch code (progAt code st.program_counter)
          { st with steps := st.steps + 1 } with
      | none => rw [hsw] at h; simp at h
      | some st1 =>
        rw [hsw] at h
        simp only [] at h
        obtain ⟨k1, k2⟩ := interp_switch_keeps _ _ _ _ hsw
        obtain ⟨p1, _, p3⟩ :=
          poll_stop_keeps { st1 with program_counter := (st1.program_counter + 1) % 65536 }
        simp only [] at k1 k2 p1 p3
        obtain ⟨g1, g2⟩ := ih _ st' (by rw [p1, k1]; omega) h
        refine ⟨g1, fun hr' => ?_⟩
        obtain ⟨g3, g4, g5⟩ := g2 hr'
        obtain ⟨p4, p5⟩ := p3 g3
        obtain ⟨_, k4⟩ := k2 p4
        exact ⟨hcond.1, by rw [g4, p5, k4], g5⟩
    · rw [if_neg hcond] at h
      simp only [Option.some.injEq] at h
      subst h
      refine ⟨hs, fun hr' => ⟨hr', rfl, ?_⟩⟩
      by_cases hnul : progAt code st.program_counter = NUL
      · left; exact hnul
      · right
        by_contra hne
        exact hcond ⟨hr', hnul, by omega⟩


theorem countState_plus (code : List Char) (ib : Nat → Nat) (N : Int) (fuel : Nat) (ip : Int) :
    ∀ (k c i s : Nat), (∀ j, i ≤ j → j < i + k → progAt code (j : Int) = '+') →
      c + k < 256 → ((s + k : Nat) : Int) ≤ N →
      run_loop code ib N (fuel + k) (countState c i s ip)
        = run_loop code ib N fuel (countState (c + k) (i + k) (s + k) ip) := by
  intro k
  induction k with
  | zero => intro c i s _ _ _; rfl
  | succ k ih =>
    intro c i s hp hc hs
    have hpi : progAt code (i : Int) = '+' := hp i (le_refl _) (by omega)
    rw [show fuel + (k + 1) = (fuel + k) + 1 by omega]
    rw [run_loop_brk code ib N (fuel + k) (countState c i s ip)
      { countState (c + 1) i (s + 1) ip with pc := (i : Int) }
      (by show progAt code (i : Int) ≠ NUL; rw [hpi]; decide)
      (by show ((s : Nat) : Int) < N; push_cast at hs; omega) rfl
      (by
        show exec_switch code ib (progAt code (i : Int)) _ = _
        rw [hpi]
        simp only [exec_switch, countState]
        simp [Function.update_idem, Nat.mod_eq_of_lt (show c + 1 < 256 by omega)])]
    have := ih (c + 1) (i + 1) (s + 1) (fun j h1 h2 => hp j (by omega) (by omega)) (by omega)
      (by push_cast at hs ⊢; omega)
    rw [show c + 1 + k = c + (k + 1) by omega, show i + 1 + k = i + (k + 1) by omega,
      show s + 1 + k = s + (k + 1) by omega] at this
    rw [← this]
    simp [countState]

theorem countState_blank (code : List Char) (ib : Nat → Nat) (N : Int) (fuel : Nat) (ip : Int)
    (c : Nat) :
    ∀ (k i s : Nat), (∀ j, i ≤ j → j < i + k → progAt code (j : Int) = ' ') →
      ((s + k : Nat) : Int) ≤ N →
      run_loop code ib N (fuel + k) (countState c i s ip)
        = run_loop code ib N fuel (countState c (i + k) (s + k) ip) := by
  intro k
  induction k with
  | zero => intro i s _ _; rfl
  | succ k ih =>
    intro i s hp hs
    have hpi : progAt code (i : Int) = ' ' := hp i (le_refl _) (by omega)
    rw [show fuel + (k + 1) = (fuel + k) + 1 by omega]
    rw [run_loop_brk code ib N (fuel + k) (countState c i s ip)
      { countState c i (s + 1) ip with pc := (i : Int) }
      (by show progAt code (i : Int) ≠ NUL; rw [hpi]; decide)
      (by show ((s : Nat) : Int) < N; push_cast at hs; omega) rfl
      (by
        show exec_switch code ib (progAt code (i : Int)) _ = _
        rw [hpi]
        simp [exec_switch, countState])]
    have := ih (i + 1) (s + 1) (fun j h1 h2 => hp j (by omega) (by omega))
      (by push_cast at hs ⊢; omega)
    rw [show i + 1 + k = i + (k + 1) by omega,
      show s + 1 + k = s + (k + 1) by omega] at this
    rw [← this]
    simp [countState]


/-- One round of the loop of a `countdown` source: the blanks, `-` and `]`. -/
theorem countState_round (code : List Char) (ib : Nat → Nat) (N : Int) (fuel : Nat) (ip : Int)
    (a L : Nat)
    (hsp : ∀ j, a + 1 ≤ j → j < a + 1 + L → progAt code (j : Int) = ' ')
    (hminus : progAt code ((a + 1 + L : Nat) : Int) = '-')
    (hclose : progAt code ((a + 1 + L + 1 : Nat) : Int) = ']')
    (hmatch : find_match code ((a + 1 + L + 1 : Nat) : Int) ']' '[' false = some (a : Int))
    (c s : Nat) (hc : c + 1 < 256) (hs : ((s + (L + 2) : Nat) : Int) ≤ N) :
    run_loop code ib N (fuel + (L + 2)) (countState (c + 1) (a + 1) s ip)
      = run_loop code ib N fuel
          (countState c (if c = 0 then a + 1 + L + 2 else a + 1) (s + (L + 2)) ip) := by
  rw [show fuel + (L + 2) = (fuel + 2) + L by omega]
  rw [countState_blank code ib N (fuel + 2) ip (c + 1) L (a + 1) s hsp
    (by push_cast at hs ⊢; omega)]
  rw [run_loop_brk code ib N (fuel + 1) (countState (c + 1) (a + 1 + L) (s + L) ip)
    { countState c (a + 1 + L) (s + L + 1) ip with pc := ((a + 1 + L : Nat) : Int) }
    (by show progAt code ((a + 1 + L : Nat) : Int) ≠ NUL; rw [hminus]; decide)
    (by show ((s + L : Nat) : Int) < N; push_cast at hs ⊢; omega) rfl
    (by
      show exec_switch code ib (progAt code ((a + 1 + L : Nat) : Int)) _ = _
      rw [hminus]
      simp only [exec_switch, countState]
      simp [Function.update_idem, show (c + 1 + 255) % 256 = c by omega])]
  by_cases hz : c = 0
  · rw [if_pos hz]
    rw [run_loop_brk code ib N fuel _
      { countState c (a + 1 + L + 1) (s + L + 2) ip with pc := ((a + 1 + L + 1 : Nat) : Int) }
      (by show progAt code ((a + 1 + L : Nat) + 1 : Int) ≠ NUL
          rw [show ((a + 1 + L : Nat) + 1 : Int) = ((a + 1 + L + 1 : Nat) : Int) by push_cast; rfl,
            hclose]; decide)
      (by show ((s + L + 1 : Nat) : Int) < N; push_cast at hs ⊢; omega) rfl
      (by
        show exec_switch code ib (progAt code ((a + 1 + L : Nat) + 1 : Int)) _ = _
        rw [show ((a + 1 + L : Nat) + 1 : Int) = ((a + 1 + L + 1 : Nat) : Int) by push_cast; rfl,
          hclose]
        simp only [exec_switch, countState]
        simp [hz]
        try omega)]
    congr 1
  · rw [if_neg hz]
    rw [run_loop_brk code ib N fuel _
      { countState c (a + 1 + L + 1) (s + L + 2) ip with pc := (a : Int) }
      (by show progAt code ((a + 1 + L : Nat) + 1 : Int) ≠ NUL
          rw [show ((a + 1 + L : Nat) + 1 : Int) = ((a + 1 + L + 1 : Nat) : Int) by push_cast; rfl,
            hclose]; decide)
      (by show ((s + L + 1 : Nat) : Int) < N; push_cast at hs ⊢; omega) rfl
      (by
        show exec_switch code ib (progAt code ((a + 1 + L : Nat) + 1 : Int)) _ = _
        rw [show ((a + 1 + L : Nat) + 1 : Int) = ((a + 1 + L + 1 : Nat) : Int) by push_cast; rfl,
          hclose]
        simp only [exec_switch, countState]
        have hm : find_match code ((a : Int) + 1 + (L : Int) + 1) ']' '[' false
            = some (a : Int) := by
          have := hmatch
          push_cast at this
          exact this
        have hne : ¬ ((a : Int) = -1) := by omega
        simp [hz, hm, hne]
        try omega)]
    congr 1

/-- All rounds of the loop: from cell value `c + 1` behind the `[` to the end of
the source. -/
theorem countState_rounds (code : List Char) (ib : Nat → Nat) (N : Int) (fuel : Nat) (ip : Int)
    (a L : Nat)
    (hsp : ∀ j, a + 1 ≤ j → j < a + 1 + L → progAt code (j : Int) = ' ')
    (hminus : progAt code ((a + 1 + L : Nat) : Int) = '-')
    (hclose : progAt code ((a + 1 + L + 1 : Nat) : Int) = ']')
    (hmatch : find_match code ((a + 1 + L + 1 : Nat) : Int) ']' '[' false = some (a : Int)) :
    ∀ (c s : Nat), c + 1 < 256 → ((s + (c + 1) * (L + 2) : Nat) : Int) ≤ N →
      run_loop code ib N (fuel + (c + 1) * (L + 2)) (countState (c + 1) (a + 1) s ip)
        = run_loop code ib N fuel
            (countState 0 (a + 1 + L + 2) (s + (c + 1) * (L + 2)) ip) := by
  intro c
  induction c with
  | zero =>
    intro s hc hs
    have := countState_round code ib N fuel ip a L hsp hminus hclose hmatch 0 s hc
      (by simpa using hs)
    simpa using this
  | succ c ih =>
    intro s hc hs
    have e1 : (c + 1 + 1) * (L + 2) = (c + 1) * (L + 2) + (L + 2) := by ring
    rw [e1] at hs ⊢
    rw [← Nat.add_assoc fuel]
    rw [countState_round code ib N (fuel + (c + 1) * (L + 2)) ip a L hsp hminus hclose hmatch
      (c + 1) s hc (by push_cast at hs ⊢; nlinarith)]
    rw [if_neg (by omega)]
    rw [ih (s + (L + 2)) (by omega) (by push_cast at hs ⊢; linarith)]
    rw [show s + (L + 2) + (c + 1) * (L + 2) = s + ((c + 1) * (L + 2) + (L + 2)) by ring]

/-- A `countdown` source run with the budget `a * (L + 3) + 1`: the loop reaches
the end of the source after exactly that many steps, and the status is the
step limit. -/
theorem run_program_with_countdown (code : List Char) (a L : Nat)
    (hplus : ∀ j, 0 ≤ j → j < 0 + (a + 1) → progAt code (j : Int) = '+')
    (hopen : progAt code ((a + 1 : Nat) : Int) = '[')
    (hsp : ∀ j, a + 1 + 1 ≤ j → j < a + 1 + 1 + L → progAt code (j : Int) = ' ')
    (hminus : progAt code ((a + 1 + 1 + L : Nat) : Int) = '-')
    (hclose : progAt code ((a + 1 + 1 + L + 1 : Nat) : Int) = ']')
    (hmatch : find_match code ((a + 1 + 1 + L + 1 : Nat) : Int) ']' '[' false
      = some ((a + 1 : Nat) : Int))
    (ha : a + 1 < 256) :
    (run_program_with ((a + 1) * (L + 3) + 1) (ideWith code)).map
        (fun r => (r.1.status, r.1.steps, r.1.pc))
      = some (Status.tooManySteps, (((a + 1) * (L + 3) + 1 : Nat) : Int),
          ((a + 1 + 1 + L + 2 : Nat) : Int)) := by
  unfold run_program_with
  have hst : (⟨fun _ => 0, 0, 0, 0, true, false, (ideWith code).input_pos, []⟩ : Exec)
      = countState 0 0 0 0 := by
    simp [countState, ideWith]
  simp only [hst]
  have hcode : (ideWith code).code = code := rfl
  rw [hcode]
  have e : (a + 1) * (L + 3) + 1 + 1 = (1 + (a + 1) * (L + 2) + 1) + (a + 1) := by ring
  rw [e]
  rw [countState_plus code _ _ (1 + (a + 1) * (L + 2) + 1) 0 (a + 1) 0 0 0 hplus (by omega)
    (by push_cast; nlinarith)]
  rw [run_loop_brk code _ _ (1 + (a + 1) * (L + 2)) (countState (0 + (a + 1)) (0 + (a + 1)) (0 + (a + 1)) 0)
    { countState (a + 1) (a + 1) (a + 1 + 1) 0 with pc := ((a + 1 : Nat) : Int) }
    (by show progAt code ((0 + (a + 1) : Nat) : Int) ≠ NUL
        rw [show 0 + (a + 1) = a + 1 by omega, hopen]; decide)
    (by show ((0 + (a + 1) : Nat) : Int) < _; push_cast; nlinarith) rfl
    (by
      show exec_switch code _ (progAt code ((0 + (a + 1) : Nat) : Int)) _ = _
      rw [show 0 + (a + 1) = a + 1 by omega, hopen]
      simp only [exec_switch, countState]
      simp)]
  have hcs : ({ countState (a + 1) (a + 1) (a + 1 + 1) 0 with pc := ((a + 1 : Nat) : Int) + 1 } : Exec)
      = countState (a + 1) (a + 1 + 1) (a + 1 + 1) 0 := by
    simp [countState]
  simp only [hcs]
  rw [countState_rounds code _ _ 1 0 (a + 1) L hsp hminus hclose hmatch a (a + 1 + 1) ha
    (by push_cast; nlinarith)]
  rw [run_loop_limit _ _ _ 0 _ (by show _ ≤ ((_ : Nat) : Int); push_cast; nlinarith)]
  simp only [Option.map_some', countState]
  congr 2
  · congr 1
    push_cast
    ring


theorem countdown_getD (a L j : Nat) :
    (countdown a L).getD j NUL
      = if j < a then '+' else if j = a then '[' else if j < a + 1 + L then ' '
        else if j = a + 1 + L then '-' else if j = a + 1 + L + 1 then ']' else NUL := by
  unfold countdown
  rw [List.getD_eq_getElem?_getD, List.getElem?_append]
  by_cases h1 : j < a
  · simp [h1, List.getElem?_replicate]
  · simp only [List.length_replicate, h1, if_false]
    by_cases h2 : j = a
    · simp [h2]
    · simp only [h2, if_false]
      obtain ⟨k, rfl⟩ : ∃ k, j = a + 1 + k := ⟨j - a - 1, by omega⟩
      rw [show a + 1 + k - a = k + 1 by omega, List.getElem?_cons_succ, List.getElem?_append]
      by_cases h3 : k < L
      · simp [h3, List.getElem?_replicate]
      · simp only [List.length_replicate, h3, if_false]
        rw [if_neg (by omega)]
        by_cases h4 : k = L
        · simp [h4]
        · by_cases h5 : k = L + 1
          · simp [h5]
            rw [if_pos (by omega)]
          · rw [if_neg (by omega), if_neg (by omega)]
            obtain ⟨m, rfl⟩ : ∃ m, k = L + 2 + m := ⟨k - L - 2, by omega⟩
            rw [show L + 2 + m - L = m + 2 by omega]
            simp

theorem countdown_length (a L : Nat) : (countdown a L).length = a + 1 + L + 2 := by
  simp [countdown]
  omega

theorem countdown_nul (a L : Nat) : ∀ c ∈ countdown a L, c ≠ NUL := by
  intro c hc
  simp only [countdown, List.mem_append, List.mem_cons, List.mem_replicate, List.mem_singleton,
    List.not_mem_nil, or_false] at hc
  rcases hc with ⟨_, h⟩ | h | ⟨_, h⟩ | h | h <;> (rw [h]; decide)

theorem countdown_depthAt (a L : Nat) : ∀ j, j ≤ a + 1 + L + 2 →
    depthAt (countdown a L) j = if j ≤ a then 0 else if j ≤ a + 1 + L + 1 then 1 else 0 := by
  intro j
  induction j with
  | zero => intro _; simp [depthAt_zero]
  | succ j ih =>
    intro hj
    rw [depthAt_succ _ j (by rw [countdown_length]; omega), ih (by omega), countdown_getD]
    split_ifs <;> first | (exfalso; omega) | rfl

theorem countdown_match (a L : Nat) :
    find_match_loop (countdown a L) ']' '[' false ((countdown a L).length + (a + 1 + L + 1) + 2)
      ((a + 1 + L + 1 : Nat) : Int) 1 = some (a : Int) := by
  apply find_match_loop_backward (countdown a L) (countdown_nul a L) 0 a
  · rw [countdown_depthAt a L a (by omega), if_pos (le_refl _)]
  · omega
  · rw [countdown_length]; omega
  · omega
  · rw [countdown_depthAt a L _ (by omega), if_neg (by omega), if_pos (by omega)]; rfl
  · intro j h1 h2
    rw [countdown_depthAt a L j (by omega), if_neg (by omega), if_pos (by omega)]
    decide


/-- The `switch` of v3 always produces a result. -/
theorem exec_switch_total (code : List Char) (ib : Nat → Nat) (c : Char) (st : Exec) :
    ∃ sw, exec_switch code ib c st = some sw := by
  unfold exec_switch
  by_cases h1 : c = '>'
  · rw [if_pos h1]; exact ⟨_, rfl⟩
  rw [if_neg h1]
  by_cases h2 : c = '<'
  · rw [if_pos h2]; exact ⟨_, rfl⟩
  rw [if_neg h2]
  by_cases h3 : c = '+'
  · rw [if_pos h3]; exact ⟨_, rfl⟩
  rw [if_neg h3]
  by_cases h4 : c = '-'
  · rw [if_pos h4]; exact ⟨_, rfl⟩
  rw [if_neg h4]
  by_cases h5 : c = '.'
  · rw [if_pos h5]; exact ⟨_, rfl⟩
  rw [if_neg h5]
  by_cases h6 : c = ','
  · rw [if_pos h6]
    by_cases hm : (!st.input_mode) = true
    · rw [if_pos hm]; exact ⟨_, rfl⟩
    · rw [if_neg hm]; exact ⟨_, rfl⟩
  rw [if_neg h6]
  by_cases h7 : c = '['
  · rw [if_pos h7]
    by_cases hz : st.memory st.ptr.toNat = 0
    · rw [if_pos hz]
      obtain ⟨m, hm⟩ := find_match_total code st.pc '[' ']' true
      rw [hm]
      by_cases hm1 : m = -1
      · simp [hm1]
      · simp [hm1]
    · rw [if_neg hz]; exact ⟨_, rfl⟩
  rw [if_neg h7]
  by_cases h8 : c = ']'
  · rw [if_pos h8]
    by_cases hz : st.memory st.ptr.toNat ≠ 0
    · rw [if_pos hz]
      obtain ⟨m, hm⟩ := find_match_total code st.pc ']' '[' false
      rw [hm]
      by_cases hm1 : m = -1
      · simp [hm1]
      · simp [hm1]
    · rw [if_neg hz]; exact ⟨_, rfl⟩
  rw [if_neg h8]
  exact ⟨_, rfl⟩

/-- The v3 loop returns as soon as the fuel exceeds the steps left. -/
theorem run_loop_total (code : List Char) (ib : Nat → Nat) (N : Int) :
    ∀ (fuel : Nat) (st : Exec), 0 < fuel → N - st.steps < fuel →
      ∃ res, run_loop code ib N fuel st = some res := by
  intro fuel
  induction fuel with
  | zero =>
    intro st h
    omega
  | succ fuel ih =>
    intro st _ h
    simp only [run_loop]
    by_cases hcond : progAt code st.pc ≠ NUL ∧ st.steps < N ∧ st.running = true
    · rw [if_pos hcond]
      obtain ⟨sw, hsw⟩ := exec_switch_total code ib (progAt code st.pc)
        { st with steps := st.steps + 1 }
      rw [hsw]
      cases sw with
      | brk st1 =>
        obtain ⟨_, k2, _⟩ := exec_switch_brk_keeps _ _ _ _ _ hsw
        simp only [] at k2 ⊢
        have := hcond.2.1
        apply ih
        · push_cast at h
          omega
        · simp only []
          push_cast at h
          omega
      | ret status st1 => exact ⟨_, rfl⟩
    · rw [if_neg hcond]
      exact ⟨_, rfl⟩

/-- `run_program` always returns. -/
theorem run_program_with_total (max_steps : Nat) (ide : BrainfuckIDE) :
    ∃ r, run_program_with max_steps ide = some r := by
  unfold run_program_with
  obtain ⟨res, hres⟩ := run_loop_total ide.code ide.input_buffer (max_steps : Int)
    (max_steps + 1)
    { memory := fun _ => 0, ptr := 0, pc := 0, steps := 0, running := true,
      input_mode := false, input_pos := ide.input_pos, out := [] }
    (by omega) (by push_cast; simp)
  simp only [hres]
  exact ⟨_, rfl⟩

theorem countInterp_step (code : List Char) (N : Int) (fuel : Nat) (c i s c1 i1 : Nat)
    (hc : progAt code (i : Int) ≠ NUL) (hs : (s : Int) < N) (hi1 : i1 + 1 < 65536)
    (hsw : interp_switch code (progAt code (i : Int))
      { countInterp c i s with steps := (s : Int) + 1 }
      = some { countInterp c1 i1 (s + 1) with steps := (s : Int) + 1 }) :
    interp_loop code N (fuel + 1) (countInterp c i s)
      = interp_loop code N fuel (countInterp c1 (i1 + 1) (s + 1)) := by
  rw [interp_loop_step_quiet code N fuel (countInterp c i s)
    { countInterp c1 i1 (s + 1) with steps := (s : Int) + 1 }
    (countInterp c1 (i1 + 1) (s + 1)) rfl hc hs hsw (by intro x hx; simp [countInterp] at hx)
    (by simp [countInterp, Nat.mod_eq_of_lt hi1])]

theorem countInterp_plus (code : List Char) (N : Int) (fuel : Nat) :
    ∀ (k c i s : Nat), (∀ j, i ≤ j → j < i + k → progAt code (j : Int) = '+') →
      c + k < 256 → ((s + k : Nat) : Int) ≤ N → i + k < 65536 →
      interp_loop code N (fuel + k) (countInterp c i s)
        = interp_loop code N fuel (countInterp (c + k) (i + k) (s + k)) := by
  intro k
  induction k with
  | zero => intro c i s _ _ _ _; rfl
  | succ k ih =>
    intro c i s hp hc hs hi
    have hpi : progAt code (i : Int) = '+' := hp i (le_refl _) (by omega)
    rw [show fuel + (k + 1) = (fuel + k) + 1 by omega]
    rw [countInterp_step code N (fuel + k) c i s (c + 1) i (by rw [hpi]; decide)
      (by push_cast at hs; omega) (by omega)
      (by
        rw [hpi]
        simp only [interp_switch, countInterp]
        simp [Function.update_idem, Nat.mod_eq_of_lt (show c + 1 < 256 by omega)])]
    have := ih (c + 1) (i + 1) (s + 1) (fun j h1 h2 => hp j (by omega) (by omega)) (by omega)
      (by push_cast at hs ⊢; omega) (by omega)
    rw [show c + 1 + k = c + (k + 1) by omega, show i + 1 + k = i + (k + 1) by omega,
      show s + 1 + k = s + (k + 1) by omega] at this
    exact this

theorem countInterp_blank (code : List Char) (N : Int) (fuel : Nat) (c : Nat) :
    ∀ (k i s : Nat), (∀ j, i ≤ j → j < i + k → progAt code (j : Int) = ' ') →
      ((s + k : Nat) : Int) ≤ N → i + k < 65536 →
      interp_loop code N (fuel + k) (countInterp c i s)
        = interp_loop code N fuel (countInterp c (i + k) (s + k)) := by
  intro k
  induction k with
  | zero => intro i s _ _ _; rfl
  | succ k ih =>
    intro i s hp hs hi
    have hpi : progAt code (i : Int) = ' ' := hp i (le_refl _) (by omega)
    rw [show fuel + (k + 1) = (fuel + k) + 1 by omega]
    rw [countInterp_step code N (fuel + k) c i s c i (by rw [hpi]; decide)
      (by push_cast at hs; omega) (by omega)
      (by
        rw [hpi]
        simp [interp_switch, countInterp])]
    have := ih (i + 1) (s + 1) (fun j h1 h2 => hp j (by omega) (by omega))
      (by push_cast at hs ⊢; omega) (by omega)
    rw [show i + 1 + k = i + (k + 1) by omega,
      show s + 1 + k = s + (k + 1) by omega] at this
    exact this

/-- One round of the loop of a `countdown` source in v2. -/
theorem countInterp_round (code : List Char) (N : Int) (fuel : Nat) (a L : Nat)
    (hsp : ∀ j, a + 1 ≤ j → j < a + 1 + L → progAt code (j : Int) = ' ')
    (hminus : progAt code ((a + 1 + L : Nat) : Int) = '-')
    (hclose : progAt code ((a + 1 + L + 1 : Nat) : Int) = ']')
    (hmatch : find_match code ((a + 1 + L + 1 : Nat) : Int) ']' '[' false = some (a : Int))
    (hlen : a + 1 + L + 2 < 65536)
    (c s : Nat) (hc : c + 1 < 256) (hs : ((s + (L + 2) : Nat) : Int) ≤ N) :
    interp_loop code N (fuel + (L + 2)) (countInterp (c + 1) (a + 1) s)
      = interp_loop code N fuel
          (countInterp c (if c = 0 then a + 1 + L + 2 else a + 1) (s + (L + 2))) := by
  rw [show fuel + (L + 2) = (fuel + 2) + L by omega]
  rw [countInterp_blank code N (fuel + 2) (c + 1) L (a + 1) s hsp
    (by push_cast at hs ⊢; omega) (by omega)]
  rw [countInterp_step code N (fuel + 1) (c + 1) (a + 1 + L) (s + L) c (a + 1 + L)
    (by rw [hminus]; decide) (by push_cast at hs ⊢; omega) (by omega)
    (by
      rw [hminus]
      simp only [interp_switch, countInterp]
      simp [Function.update_idem, show (c + 1 + 255) % 256 = c by omega])]
  by_cases hz : c = 0
  · rw [if_pos hz]
    rw [countInterp_step code N fuel c (a + 1 + L + 1) (s + L + 1) c (a + 1 + L + 1)
      (by rw [hclose]; decide) (by push_cast at hs ⊢; omega) (by omega)
      (by
        rw [hclose]
        simp only [interp_switch, countInterp]
        simp [hz])]
    rw [show a + 1 + L + 1 + 1 = a + 1 + L + 2 by omega,
      show s + L + 1 + 1 = s + (L + 2) by omega]
  · rw [if_neg hz]
    have hm : find_matching_bracket code ((a : Int) + 1 + (L : Int) + 1) ']' '[' false
        = some (a : Int) := by
      have := hmatch
      push_cast at this
      exact this
    have hne : ¬ ((a : Int) = -1) := by omega
    have hmod : ((a : Int) % 65536).toNat = a := by omega
    rw [countInterp_step code N fuel c (a + 1 + L + 1) (s + L + 1) c a
      (by rw [hclose]; decide) (by push_cast at hs ⊢; omega) (by omega)
      (by
        rw [hclose]
        simp only [interp_switch, countInterp]
        simp [hz, hm, hne, hmod])]
    rw [show s + L + 1 + 1 = s + (L + 2) by omega]

/-- All rounds of the loop in v2. -/
theorem countInterp_rounds (code : List Char) (N : Int) (fuel : Nat) (a L : Nat)
    (hsp : ∀ j, a + 1 ≤ j → j < a + 1 + L → progAt code (j : Int) = ' ')
    (hminus : progAt code ((a + 1 + L : Nat) : Int) = '-')
    (hclose : progAt code ((a + 1 + L + 1 : Nat) : Int) = ']')
    (hmatch : find_match code ((a + 1 + L + 1 : Nat) : Int) ']' '[' false = some (a : Int))
    (hlen : a + 1 + L + 2 < 65536) :
    ∀ (c s : Nat), c + 1 < 256 → ((s + (c + 1) * (L + 2) : Nat) : Int) ≤ N →
      interp_loop code N (fuel + (c + 1) * (L + 2)) (countInterp (c + 1) (a + 1) s)
        = interp_loop code N fuel (countInterp 0 (a + 1 + L + 2) (s + (c + 1) * (L + 2))) := by
  intro c
  induction c with
  | zero =>
    intro s hc hs
    have := countInterp_round code N fuel a L hsp hminus hclose hmatch hlen 0 s hc
      (by simpa using hs)
    simpa using this
  | succ c ih =>
    intro s hc hs
    have e1 : (c + 1 + 1) * (L + 2) = (c + 1) * (L + 2) + (L + 2) := by ring
    rw [e1] at hs ⊢
    rw [← Nat.add_assoc fuel]
    rw [countInterp_round code N (fuel + (c + 1) * (L + 2)) a L hsp hminus hclose hmatch hlen
      (c + 1) s hc (by push_cast at hs ⊢; nlinarith)]
    rw [if_neg (by omega)]
    rw [ih (s + (L + 2)) (by omega) (by push_cast at hs ⊢; linarith)]
    rw [show s + (L + 2) + (c + 1) * (L + 2) = s + ((c + 1) * (L + 2) + (L + 2)) by ring]

/-- A `countdown` source run by v2 with the budget `a * (L + 3) + 1` and no key
pressed: the loop reaches the end of the source after exactly that many steps,
and the limit message is written. -/
theorem run_with_countdown (code : List Char) (a L : Nat)
    (hplus : ∀ j, 0 ≤ j → j < 0 + (a + 1) → progAt code (j : Int) = '+')
    (hopen : progAt code ((a + 1 : Nat) : Int) = '[')
    (hsp : ∀ j, a + 1 + 1 ≤ j → j < a + 1 + 1 + L → progAt code (j : Int) = ' ')
    (hminus : progAt code ((a + 1 + 1 + L : Nat) : Int) = '-')
    (hclose : progAt code ((a + 1 + 1 + L + 1 : Nat) : Int) = ']')
    (hmatch : find_match code ((a + 1 + 1 + L + 1 : Nat) : Int) ']' '[' false
      = some ((a + 1 : Nat) : Int))
    (ha : a + 1 < 256) (hlen : a + 1 + 1 + L + 2 < 65536) :
    (run_with ((a + 1) * (L + 3) + 1) code []).map
        (fun r => (r.messages, r.steps, r.program_counter, r.running))
      = some ([Message.limitReached], (((a + 1) * (L + 3) + 1 : Nat) : Int),
          a + 1 + 1 + L + 2, true) := by
  unfold run_with
  have hst : (⟨fun _ => 0, 0, 0, true, [], 0, [], []⟩ : Interp) = countInterp 0 0 0 := by
    simp [countInterp]
  simp only [hst]
  have e : (a + 1) * (L + 3) + 1 + 1 = (1 + (a + 1) * (L + 2) + 1) + (a + 1) := by ring
  rw [e]
  rw [countInterp_plus code _ (1 + (a + 1) * (L + 2) + 1) (a + 1) 0 0 0 hplus (by omega)
    (by push_cast; nlinarith) (by omega)]
  rw [countInterp_step code _ (1 + (a + 1) * (L + 2)) (0 + (a + 1)) (0 + (a + 1)) (0 + (a + 1))
    (a + 1) (a + 1)
    (by rw [show 0 + (a + 1) = a + 1 by omega, hopen]; decide)
    (by push_cast; nlinarith) (by omega)
    (by
      rw [show 0 + (a + 1) = a + 1 by omega, hopen]
      simp only [interp_switch, countInterp]
      simp)]
  rw [show 0 + (a + 1) + 1 = a + 1 + 1 by omega]
  rw [countInterp_rounds code _ 1 (a + 1) L hsp hminus hclose hmatch hlen a (a + 1 + 1) ha
    (by push_cast; nlinarith)]
  have hN : a + 1 + 1 + (a + 1) * (L + 2) = (a + 1) * (L + 3) + 1 := by ring
  rw [hN]
  simp [interp_loop, countInterp]

/-! ## Claims about the final report of a run -/

/-- C29 as stated fails: the source made of 123 `+`, a `[`, 810 blanks, `-` and `]`
(936 characters) counts cell 0 down from 123 and reaches the end of the source
after exactly 100000 steps, without an error; `run_program` of v3 reports the
step limit, not "Program finished", although no instruction remained: `pc` is
936, the position of the terminator.  In the same way the source of 99 `+`, a
`[`, 98 blanks, `-` and `]` (200 characters) ends after exactly 10000 steps and
`run` of v2 (no key pressed) writes the limit message, with `running` still
set and `program_counter` on the terminator. -/
theorem exact_budget_counterexample :
    (countdown 123 810).length = 936 ∧
    progAt (countdown 123 810) 936 = NUL ∧
    (run_program (ideWith (countdown 123 810))).map (fun r => (r.1.status, r.1.steps, r.1.pc))
      = some (Status.tooManySteps, 100000, 936) ∧
    (countdown 99 98).length = 200 ∧
    progAt (countdown 99 98) 200 = NUL ∧
    (run (countdown 99 98) []).map (fun r => (r.messages, r.steps, r.program_counter, r.running))
      = some ([Message.limitReached], 10000, 200, true) := by
  refine ⟨countdown_length 123 810, ?_, ?_, countdown_length 99 98, ?_, ?_⟩
  · have := progAt_length (countdown 123 810)
    rw [countdown_length] at this
    exact this
  · have h := run_program_with_countdown (countdown 123 810) 122 810
      (by intro j _ hj; rw [progAt_nat, countdown_getD, if_pos (by omega)])
      (by rw [progAt_nat, countdown_getD, if_neg (by omega), if_pos (by omega)])
      (by intro j h1 h2
          rw [progAt_nat, countdown_getD, if_neg (by omega), if_neg (by omega), if_pos (by omega)])
      (by rw [progAt_nat, countdown_getD, if_neg (by omega), if_neg (by omega),
            if_neg (by omega), if_pos (by omega)])
      (by rw [progAt_nat, countdown_getD, if_neg (by omega), if_neg (by omega),
            if_neg (by omega), if_neg (by omega), if_pos (by omega)])
      (by have := countdown_match 123 810
          unfold find_match
          simpa using this)
      (by omega)
    exact h
  · have := progAt_length (countdown 99 98)
    rw [countdown_length] at this
    exact this
  · have h := run_with_countdown (countdown 99 98) 98 98
      (by intro j _ hj; rw [progAt_nat, countdown_getD, if_pos (by omega)])
      (by rw [progAt_nat, countdown_getD, if_neg (by omega), if_pos (by omega)])
      (by intro j h1 h2
          rw [progAt_nat, countdown_getD, if_neg (by omega), if_neg (by omega), if_pos (by omega)])
      (by rw [progAt_nat, countdown_getD, if_neg (by omega), if_neg (by omega),
            if_neg (by omega), if_pos (by omega)])
      (by rw [progAt_nat, countdown_getD, if_neg (by omega), if_neg (by omega),
            if_neg (by omega), if_neg (by omega), if_pos (by omega)])
      (by have := countdown_match 99 98
          unfold find_match
          simpa using this)
      (by omega) (by omega)
    exact h

/-- C29 (as amended): a run that reaches the end of the source text without an
error is reported as finished when fewer steps than the budget were executed,
and as stopped for the step limit when the number of executed steps equals the
budget, whether or not an instruction remained.  In v3 `run_program` always
returns, the step count never exceeds the budget, "finished" is reported only
at the end of the source with steps below the budget, and the step limit only
with steps equal to the budget.  In v2 a run that returns with `running` still
set (no unmatched bracket, no F10) has written "finished" at the end of the
source with steps below the budget, and the limit message when the steps equal
the budget. -/
theorem finished_report :
    (∀ (max_steps : Nat) (ide : BrainfuckIDE),
      ∃ r ide', run_program_with max_steps ide = some (r, ide') ∧
        r.steps ≤ (max_steps : Int) ∧
        (r.status = Status.tooManySteps → r.steps = (max_steps : Int)) ∧
        (r.status = Status.finished → progAt ide.code r.pc = NUL ∧ r.steps < (max_steps : Int)) ∧
        (progAt ide.code r.pc = NUL →
          (r.steps < (max_steps : Int) → r.status = Status.finished) ∧
          (r.steps = (max_steps : Int) → r.status = Status.tooManySteps))) ∧
    (∀ (max_steps : Nat) (code : List Char) (kbd : List (Option Nat)) (st : Interp),
      run_with max_steps code kbd = some st → st.running = true →
        st.steps ≤ (max_steps : Int) ∧
        (st.steps < (max_steps : Int) →
          progAt code st.program_counter = NUL ∧
          st.messages = [Message.finishedSuccessfully]) ∧
        (st.steps = (max_steps : Int) → st.messages = [Message.limitReached])) := by
  constructor
  · intro max_steps ide
    obtain ⟨⟨r, ide'⟩, hr⟩ := run_program_with_total max_steps ide
    refine ⟨r, ide', hr, ?_⟩
    unfold run_program_with at hr
    cases hl : run_loop ide.code ide.input_buffer (max_steps : Int) (max_steps + 1)
        { memory := fun _ => 0, ptr := 0, pc := 0, steps := 0, running := true,
          input_mode := false, input_pos := ide.input_pos, out := [] } with
    | none => simp [hl] at hr
    | some res =>
      obtain ⟨status, st'⟩ := res
      simp only [hl, Option.some.injEq, Prod.mk.injEq] at hr
      obtain ⟨rfl, _⟩ := hr
      exact run_loop_report ide.code ide.input_buffer (max_steps : Int) _ _ status st' rfl
        (by simp) hl
  · intro max_steps code kbd st h hrun
    unfold run_with at h
    cases hl : interp_loop code (max_steps : Int) (max_steps + 1)
        { memory := fun _ => 0, mem_ptr := 0, program_counter := 0, running := true,
          output_buffer := [], steps := 0, messages := [], kbd := kbd } with
    | none => simp [hl] at h
    | some st1 =>
      simp only [hl] at h
      obtain ⟨g1, g2⟩ := interp_loop_report code (max_steps : Int) _ _ st1 (by simp) hl
      by_cases hge : st1.steps ≥ (max_steps : Int)
      · rw [if_pos hge] at h
        simp only [Option.some.injEq] at h
        subst h
        simp only [] at hrun ⊢
        obtain ⟨_, g4, _⟩ := g2 hrun
        refine ⟨g1, fun hlt => by omega, fun _ => by rw [g4]; rfl⟩
      · rw [if_neg hge] at h
        by_cases hr1 : st1.running = true
        · rw [if_pos hr1] at h
          simp only [Option.some.injEq] at h
          subst h
          simp only [] at hrun ⊢
          obtain ⟨_, g4, g5⟩ := g2 hr1
          refine ⟨g1, fun _ => ⟨?_, by rw [g4]; rfl⟩, fun heq => by omega⟩
          rcases g5 with g5 | g5
          · exact g5
          · omega
        · rw [if_neg hr1] at h
          simp only [Option.some.injEq] at h
          subst h
          exact absurd hrun hr1



/-- Witness of `finished_report`: "+++" with the budgets 4 and 3, in v3 and v2. -/
theorem finished_report_witness :
    (∃ r ide', run_program_with 4 (ideWith ['+', '+', '+']) = some (r, ide') ∧
        r.steps ≤ ((4 : Nat) : Int) ∧
        (r.status = Status.tooManySteps → r.steps = ((4 : Nat) : Int)) ∧
        (r.status = Status.finished →
          progAt (ideWith ['+', '+', '+']).code r.pc = NUL ∧ r.steps < ((4 : Nat) : Int)) ∧
        (progAt (ideWith ['+', '+', '+']).code r.pc = NUL →
          (r.steps < ((4 : Nat) : Int) → r.status = Status.finished) ∧
          (r.steps = ((4 : Nat) : Int) → r.status = Status.tooManySteps))) ∧
    (run_program_with 4 (ideWith ['+', '+', '+'])).map (fun r => (r.1.status, r.1.steps, r.1.pc))
      = some (Status.finished, 3, 3) ∧
    (run_program_with 3 (ideWith ['+', '+', '+'])).map (fun r => (r.1.status, r.1.steps, r.1.pc))
      = some (Status.tooManySteps, 3, 3) ∧
    (run_with 4 ['+', '+', '+'] []).map (fun r => (r.messages, r.steps, r.program_counter))
      = some ([Message.finishedSuccessfully], 3, 3) ∧
    (run_with 3 ['+', '+', '+'] []).map (fun r => (r.messages, r.steps, r.program_counter))
      = some ([Message.limitReached], 3, 3) :=
  ⟨finished_report.1 4 (ideWith ['+', '+', '+']), by decide, by decide, by decide, by decide⟩

/-! ## Agreement of the two interpreters -/

/-- A position returned by the forward scan lies inside the program. -/
theorem find_match_forward_bound (prog : List Char) (p : Nat) (m : Int)
    (h : find_match prog (p : Int) '[' ']' true = some m) (hm : m ≠ -1) :
    0 ≤ m ∧ m < (prog.length : Int) := by
  unfold find_match at h
  obtain ⟨q, h1, _, h3, _⟩ := find_match_loop_forward_sound prog _ p 1 m h hm
  omega

/-- A position returned by the backward scan lies in front of the start. -/
theorem find_match_backward_bound (prog : List Char) (p : Nat) (hp : p ≤ prog.length) (m : Int)
    (h : find_match prog (p : Int) ']' '[' false = some m) (hm : m ≠ -1) :
    0 ≤ m ∧ m < (prog.length : Int) := by
  unfold find_match at h
  obtain ⟨q, h1, h2, _⟩ := find_match_loop_backward_sound prog _ p 1 m hp h hm
  omega

theorem find_matching_bracket_eq (prog : List Char) (pos : Int) (o c : Char) (f : Bool) :
    find_matching_bracket prog pos o c f = find_match prog pos o c f := rfl

/-- One instruction that lets the v3 loop go on has the same effect in v2. -/
theorem switch_agree_brk (code : List Char) (ib : Nat → Nat) (c : Char) (e e1 : Exec)
    (v : Interp) (hlen : code.length < 65536) (hc : c ≠ ',')
    (hmem : e.memory = v.memory) (hptr : e.ptr = (v.mem_ptr : Int)) (hlt : v.mem_ptr < 30000)
    (hpc : e.pc = (v.program_counter : Int)) (hpcl : v.program_counter ≤ code.length)
    (hsteps : e.steps = v.steps)
    (hout : e.out = v.output_buffer) (hroom : c = '.' → v.output_buffer.length < 255)
    (hsw : exec_switch code ib c e = some (.brk e1)) :
    ∃ v1, interp_switch code c v = some v1 ∧ e1.memory = v1.memory ∧
      e1.ptr = (v1.mem_ptr : Int) ∧ v1.mem_ptr < 30000 ∧ e1.pc = (v1.program_counter : Int) ∧
      v1.program_counter ≤ code.length ∧
      (v1.program_counter = v.program_counter ∨ v1.program_counter < code.length) ∧
      e1.steps = v1.steps ∧ e1.out = v1.output_buffer ∧ v1.running = v.running ∧
      v1.messages = v.messages ∧ v1.kbd = v.kbd ∧ e1.running = e.running ∧
      e1.input_mode = e.input_mode := by
  have hnat : e.ptr.toNat = v.mem_ptr := by rw [hptr]; simp
  by_cases h1 : c = '>'
  · subst h1
    simp only [exec_switch, if_true, Option.some.injEq, Switched.brk.injEq] at hsw
    subst hsw
    refine ⟨{ v with mem_ptr :=
        if (v.mem_ptr + 1) % 65536 ≥ 30000 then 0 else (v.mem_ptr + 1) % 65536 },
      by simp only [interp_switch, if_true], hmem, ?_, ?_, hpc, hpcl, Or.inl rfl, hsteps, hout,
      rfl, rfl, rfl, rfl, rfl⟩
    · simp only [hptr]
      split <;> omega
    · simp only []
      split <;> omega
  by_cases h2 : c = '<'
  · subst h2
    simp [exec_switch] at hsw
    subst hsw
    refine ⟨{ v with mem_ptr := if v.mem_ptr = 0 then 29999 else v.mem_ptr - 1 },
      by simp [interp_switch], hmem, ?_, ?_, hpc, hpcl, Or.inl rfl, hsteps, hout,
      rfl, rfl, rfl, rfl, rfl⟩
    · simp only [hptr]
      split <;> split <;> omega
    · simp only []
      split <;> omega
  by_cases h3 : c = '+'
  · subst h3
    simp [exec_switch] at hsw
    subst hsw
    exact ⟨{ v with
        memory := Function.update v.memory v.mem_ptr ((v.memory v.mem_ptr + 1) % 256) },
      by simp [interp_switch], by simp [hnat, hmem], hptr, hlt, hpc, hpcl, Or.inl rfl,
      hsteps, hout, rfl, rfl, rfl, rfl, rfl⟩
  by_cases h4 : c = '-'
  · subst h4
    simp [exec_switch] at hsw
    subst hsw
    exact ⟨{ v with
        memory := Function.update v.memory v.mem_ptr ((v.memory v.mem_ptr + 255) % 256) },
      by simp [interp_switch], by simp [hnat, hmem], hptr, hlt, hpc, hpcl, Or.inl rfl,
      hsteps, hout, rfl, rfl, rfl, rfl, rfl⟩
  by_cases h5 : c = '.'
  · subst h5
    simp [exec_switch] at hsw
    subst hsw
    exact ⟨{ v with output_buffer := v.output_buffer ++ [v.memory v.mem_ptr] },
      by simp [interp_switch, hroom rfl], hmem, hptr, hlt, hpc, hpcl, Or.inl rfl,
      hsteps, by simp [hnat, hmem, hout], rfl, rfl, rfl, rfl, rfl⟩
  by_cases h7 : c = '['
  · subst h7
    by_cases hz : v.memory v.mem_ptr = 0
    · have hz' : e.memory e.ptr.toNat = 0 := by rw [hnat, hmem]; exact hz
      cases hfm : find_match code e.pc '[' ']' true with
      | none => simp [exec_switch, hz', hfm] at hsw
      | some m =>
        by_cases hm : m = -1
        · simp [exec_switch, hz', hfm, hm] at hsw
        · simp [exec_switch, hz', hfm, hm] at hsw
          subst hsw
          rw [hpc] at hfm
          obtain ⟨b1, b2⟩ := find_match_forward_bound code _ m hfm hm
          refine ⟨{ v with program_counter := (m % 65536).toNat }, ?_, hmem, hptr, hlt, ?_, ?_, ?_,
            hsteps, hout, rfl, rfl, rfl, rfl, rfl⟩
          · simp [interp_switch, hz, find_matching_bracket_eq, hfm, hm]
          · simp only []; omega
          · simp only []; omega
          · right; simp only []; omega
    · have hz' : ¬ e.memory e.ptr.toNat = 0 := by rw [hnat, hmem]; exact hz
      simp [exec_switch, hz'] at hsw
      subst hsw
      exact ⟨v, by simp [interp_switch, hz], hmem, hptr, hlt, hpc, hpcl, Or.inl rfl, hsteps, hout,
        rfl, rfl, rfl, rfl, rfl⟩
  by_cases h8 : c = ']'
  · subst h8
    by_cases hz : v.memory v.mem_ptr = 0
    · have hz' : e.memory e.ptr.toNat = 0 := by rw [hnat, hmem]; exact hz
      simp [exec_switch, hz'] at hsw
      subst hsw
      exact ⟨v, by simp [interp_switch, hz], hmem, hptr, hlt, hpc, hpcl, Or.inl rfl, hsteps, hout,
        rfl, rfl, rfl, rfl, rfl⟩
    · have hz' : ¬ e.memory e.ptr.toNat = 0 := by rw [hnat, hmem]; exact hz
      cases hfm : find_match code e.pc ']' '[' false with
      | none => simp [exec_switch, hz', hfm] at hsw
      | some m =>
        by_cases hm : m = -1
        · simp [exec_switch, hz', hfm, hm] at hsw
        · simp [exec_switch, hz', hfm, hm] at hsw
          subst hsw
          rw [hpc] at hfm
          obtain ⟨b1, b2⟩ := find_match_backward_bound code _ hpcl m hfm hm
          refine ⟨{ v with program_counter := (m % 65536).toNat }, ?_, hmem, hptr, hlt, ?_, ?_, ?_,
            hsteps, hout, rfl, rfl, rfl, rfl, rfl⟩
          · simp [interp_switch, hz, find_matching_bracket_eq, hfm, hm]
          · simp only []; omega
          · simp only []; omega
          · right; simp only []; omega
  · simp [exec_switch, h1, h2, h3, h4, h5, hc, h7, h8] at hsw
    subst hsw
    exact ⟨v, by simp [interp_switch, h1, h2, h3, h4, h5, hc, h7, h8], hmem, hptr, hlt, hpc, hpcl,
      Or.inl rfl, hsteps, hout, rfl, rfl, rfl, rfl, rfl⟩



/-- A `return` of the v3 `switch` at a bracket: v2 clears `running` and writes the
matching message, and changes nothing else. -/
theorem switch_agree_ret (code : List Char) (ib : Nat → Nat) (c : Char) (e e1 : Exec)
    (v : Interp) (status : Status) (hc : c ≠ ',')
    (hmem : e.memory = v.memory) (hptr : e.ptr = (v.mem_ptr : Int))
    (hpc : e.pc = (v.program_counter : Int))
    (hsw : exec_switch code ib c e = some (.ret status e1)) :
    ∃ msg, interp_switch code c v
        = some { v with running := false, messages := v.messages ++ [msg] } ∧
      (status = Status.unmatchedOpen ∧ msg = Message.unmatchedOpen ∨
       status = Status.unmatchedClose ∧ msg = Message.unmatchedClose) := by
  have hnat : e.ptr.toNat = v.mem_ptr := by rw [hptr]; simp
  obtain ⟨_, _, _, _, _, hcs, _, _⟩ := exec_switch_ret_keeps _ _ _ _ _ _ hsw
  rcases hcs with h6 | h7 | h8
  · exact absurd h6 hc
  · subst h7
    by_cases hz : v.memory v.mem_ptr = 0
    · have hz' : e.memory e.ptr.toNat = 0 := by rw [hnat, hmem]; exact hz
      cases hfm : find_match code e.pc '[' ']' true with
      | none => simp [exec_switch, hz', hfm] at hsw
      | some m =>
        by_cases hm : m = -1
        · simp [exec_switch, hz', hfm, hm] at hsw
          rw [hpc] at hfm
          refine ⟨Message.unmatchedOpen, ?_, Or.inl ⟨hsw.1.symm, rfl⟩⟩
          simp [interp_switch, hz, find_matching_bracket_eq, hfm, hm]
        · simp [exec_switch, hz', hfm, hm] at hsw
    · have hz' : ¬ e.memory e.ptr.toNat = 0 := by rw [hnat, hmem]; exact hz
      simp [exec_switch, hz'] at hsw
  · subst h8
    by_cases hz : v.memory v.mem_ptr = 0
    · have hz' : e.memory e.ptr.toNat = 0 := by rw [hnat, hmem]; exact hz
      simp [exec_switch, hz'] at hsw
    · have hz' : ¬ e.memory e.ptr.toNat = 0 := by rw [hnat, hmem]; exact hz
      cases hfm : find_match code e.pc ']' '[' false with
      | none => simp [exec_switch, hz', hfm] at hsw
      | some m =>
        by_cases hm : m = -1
        · simp [exec_switch, hz', hfm, hm] at hsw
          rw [hpc] at hfm
          refine ⟨Message.unmatchedClose, ?_, Or.inr ⟨hsw.1.symm, rfl⟩⟩
          simp [interp_switch, hz, find_matching_bracket_eq, hfm, hm]
        · simp [exec_switch, hz', hfm, hm] at hsw

/-- Steps and output only grow while the v3 loop runs. -/
theorem run_loop_mono (code : List Char) (ib : Nat → Nat) (N : Int) :
    ∀ (fuel : Nat) (st : Exec) (status : Status) (st' : Exec),
      run_loop code ib N fuel st = some (status, st') →
      st.steps ≤ st'.steps ∧ st.out.length ≤ st'.out.length := by
  intro fuel
  induction fuel with
  | zero =>
    intro st status st' h
    simp [run_loop] at h
  | succ fuel ih =>
    intro st status st' h
    simp only [run_loop] at h
    by_cases hcond : progAt code st.pc ≠ NUL ∧ st.steps < N ∧ st.running = true
    · rw [if_pos hcond] at h
      cases hsw : exec_switch code ib (progAt code st.pc) { st with steps := st.steps + 1 } with
      | none => rw [hsw] at h; simp at h
      | some sw =>
        rw [hsw] at h
        cases sw with
        | brk st1 =>
          simp only [] at h
          obtain ⟨_, k2, k3⟩ := exec_switch_brk_keeps _ _ _ _ _ hsw
          obtain ⟨g1, g2⟩ := ih _ status st' h
          simp only [] at k2 k3 g1 g2
          exact ⟨by omega, by omega⟩
        | ret status1 st1 =>
          simp only [Option.some.injEq, Prod.mk.injEq] at h
          obtain ⟨_, rfl⟩ := h
          obtain ⟨_, k2, _, _, k5, _⟩ := exec_switch_ret_keeps _ _ _ _ _ _ hsw
          simp only [] at k2 k5
          exact ⟨by omega, by rw [k5]⟩
    · rw [if_neg hcond] at h
      simp only [Option.some.injEq, Prod.mk.injEq] at h
      obtain ⟨_, rfl⟩ := h
      exact ⟨le_refl _, le_refl _⟩

theorem exec_switch_dot (code : List Char) (ib : Nat → Nat) (e e1 : Exec)
    (hsw : exec_switch code ib '.' e = some (.brk e1)) :
    e1.out.length = e.out.length + 1 := by
  simp [exec_switch] at hsw
  subst hsw
  simp

theorem progAt_mem (code : List Char) (pos : Int) (h : progAt code pos ≠ NUL) :
    progAt code pos ∈ code ∧ pos.toNat < code.length := by
  unfold progAt at h ⊢
  by_cases hlt : pos.toNat < code.length
  · rw [List.getD_eq_getElem _ _ hlt]
    exact ⟨List.getElem_mem hlt, hlt⟩
  · rw [List.getD_eq_default _ _ (by omega)] at h
    exact absurd rfl h


/-- Simulation of the v3 loop by the v2 loop: from states that agree, on a source
without `,`, with the keyboard quiet, a v3 run that takes fewer steps than the
v2 limit and emits at most 255 bytes is reproduced by v2. -/
theorem engines_agree_loop (code : List Char) (ib : Nat → Nat) (N3 N2 : Int) (hN : N2 ≤ N3)
    (hlen : code.length < 65536) (hcomma : ∀ c ∈ code, c ≠ ',') :
    ∀ (fuel3 : Nat) (e : Exec) (v : Interp) (status : Status) (r3 : Exec),
      e.memory = v.memory → e.ptr = (v.mem_ptr : Int) → v.mem_ptr < 30000 →
      e.pc = (v.program_counter : Int) → v.program_counter ≤ code.length →
      e.steps = v.steps → e.out = v.output_buffer → e.running = true → v.running = true →
      (∀ x ∈ v.kbd, x ≠ some 0xFA) →
      run_loop code ib N3 fuel3 e = some (status, r3) → r3.steps < N2 → r3.out.length ≤ 255 →
      ∀ fuel2 : Nat, r3.steps - e.steps + 2 ≤ (fuel2 : Int) →
      ∃ r2, interp_loop code N2 fuel2 v = some r2 ∧ r2.memory = r3.memory ∧
        (r2.mem_ptr : Int) = r3.ptr ∧ r2.steps = r3.steps ∧ r2.output_buffer = r3.out ∧
        (status = Status.finished ∧ r2.running = true ∧ r2.messages = v.messages ∨
         status = Status.unmatchedOpen ∧ r2.running = false ∧
           r2.messages = v.messages ++ [Message.unmatchedOpen] ∨
         status = Status.unmatchedClose ∧ r2.running = false ∧
           r2.messages = v.messages ++ [Message.unmatchedClose]) := by
  intro fuel3
  induction fuel3 with
  | zero =>
    intro e v status r3 _ _ _ _ _ _ _ _ _ _ h
    simp [run_loop] at h
  | succ fuel3 ih =>
    intro e v status r3 hmem hptr hlt hpc hpcl hsteps hout hre hrv hq h hr3 hout3 fuel2 hfuel
    have hmono := run_loop_mono code ib N3 _ e status r3 h
    simp only [run_loop] at h
    by_cases hcond : progAt code e.pc ≠ NUL ∧ e.steps < N3 ∧ e.running = true
    · rw [if_pos hcond] at h
      obtain ⟨hmemb, hpcl'⟩ := progAt_mem code e.pc hcond.1
      have hc : progAt code e.pc ≠ ',' := hcomma _ hmemb
      have hvpc : v.program_counter < code.length := by rw [hpc] at hpcl'; simpa using hpcl'
      have hvc : progAt code (v.program_counter : Int) = progAt code e.pc := by rw [hpc]
      cases hsw : exec_switch code ib (progAt code e.pc) { e with steps := e.steps + 1 } with
      | none => rw [hsw] at h; simp at h
      | some sw =>
        rw [hsw] at h
        cases sw with
        | brk e1 =>
          simp only [] at h
          obtain ⟨m1, m2⟩ := run_loop_mono code ib N3 _ _ status r3 h
          obtain ⟨_, k2, _⟩ := exec_switch_brk_keeps _ _ _ _ _ hsw
          simp only [] at m1 m2 k2
          have hroom : progAt code e.pc = '.' → v.output_buffer.length < 255 := by
            intro hdot
            rw [hdot] at hsw
            have := exec_switch_dot _ _ _ _ hsw
            simp only [] at this
            rw [← hout]
            omega
          obtain ⟨v1, a1, a2, a3, a4, a5, a6, a7, a8, a9, a10, a11, a12, a13, a14⟩ :=
            switch_agree_brk code ib (progAt code e.pc) { e with steps := e.steps + 1 } e1
              { v with steps := v.steps + 1 } hlen hc hmem hptr hlt hpc hpcl
              (by simp only []; rw [hsteps]) hout hroom hsw
          simp only [] at a7 a10 a11 a12 a13
          have hv1pc : v1.program_counter < code.length := by
            rcases a7 with a7 | a7
            · rw [a7]; exact hvpc
            · exact a7
          obtain ⟨f, rfl⟩ : ∃ f, fuel2 = f + 1 := ⟨fuel2 - 1, by omega⟩
          have hq1 : ∀ x ∈ v1.kbd, x ≠ some 0xFA := by rw [a12]; exact hq
          have hstep := interp_loop_step_quiet code N2 f v v1
            { v1 with program_counter := (v1.program_counter + 1) % 65536, kbd := v1.kbd.tail }
            hrv (by rw [hvc]; exact hcond.1) (by rw [← hsteps]; omega)
            (by rw [hvc]; exact a1) hq1 rfl
          rw [hstep]
          have hmod : (v1.program_counter + 1) % 65536 = v1.program_counter + 1 :=
            Nat.mod_eq_of_lt (by omega)
          obtain ⟨r2, b1, b2, b3, b4, b5, b6⟩ := ih { e1 with pc := e1.pc + 1 }
            { v1 with program_counter := (v1.program_counter + 1) % 65536, kbd := v1.kbd.tail }
            status r3 a2 a3 a4
            (by simp only []; rw [a5, hmod]; push_cast; rfl)
            (by simp only []; rw [hmod]; omega)
            a8 a9 (by simp only []; rw [a13]; exact hre) (by rw [a10]; exact hrv)
            (by
              intro x hx
              exact hq1 x (List.mem_of_mem_tail hx))
            h hr3 hout3 f (by simp only []; push_cast at hfuel ⊢; omega)
          refine ⟨r2, b1, b2, b3, b4, b5, ?_⟩
          simp only [] at b6
          rw [a11] at b6
          exact b6
        | ret status1 e1 =>
          simp only [Option.some.injEq, Prod.mk.injEq] at h
          obtain ⟨rfl, rfl⟩ := h
          obtain ⟨k1, k2, k3, k4, k5, _, _, _⟩ := exec_switch_ret_keeps _ _ _ _ _ _ hsw
          simp only [] at k1 k2 k3 k4 k5
          obtain ⟨msg, a1, a2⟩ := switch_agree_ret code ib (progAt code e.pc)
            { e with steps := e.steps + 1 } e1 { v with steps := v.steps + 1 } status1 hc hmem hptr
            hpc hsw
          obtain ⟨f, rfl⟩ : ∃ f, fuel2 = f + 1 + 1 := ⟨fuel2 - 2, by omega⟩
          have hstep := interp_loop_step_quiet code N2 (f + 1) v
            { v with steps := v.steps + 1, running := false, messages := v.messages ++ [msg] }
            { v with steps := v.steps + 1, running := false, messages := v.messages ++ [msg],
                     program_counter := (v.program_counter + 1) % 65536, kbd := v.kbd.tail }
            hrv (by rw [hvc]; exact hcond.1) (by rw [← hsteps]; omega)
            (by rw [hvc]; exact a1) hq rfl
          rw [hstep]
          refine ⟨
            { v with steps := v.steps + 1, running := false, messages := v.messages ++ [msg],
                     program_counter := (v.program_counter + 1) % 65536, kbd := v.kbd.tail },
            by simp [interp_loop], ?_, ?_, ?_, ?_, ?_⟩
          · simp only []; rw [k3, hmem]
          · simp only []; rw [k4, hptr]
          · simp only []; rw [k2, hsteps]
          · simp only []; rw [k5, hout]
          · rcases a2 with ⟨s1, s2⟩ | ⟨s1, s2⟩
            · right; left; exact ⟨s1, rfl, by rw [s2]⟩
            · right; right; exact ⟨s1, rfl, by rw [s2]⟩
    · rw [if_neg hcond] at h
      simp only [Option.some.injEq, Prod.mk.injEq] at h
      obtain ⟨rfl, rfl⟩ := h
      simp only [] at hr3 hout3 hfuel ⊢
      have hnul : progAt code e.pc = NUL := by
        by_contra hne
        exact hcond ⟨hne, by omega, hre⟩
      obtain ⟨f, rfl⟩ : ∃ f, fuel2 = f + 1 := ⟨fuel2 - 1, by omega⟩
      refine ⟨v, ?_, hmem.symm, hptr.symm, hsteps.symm, hout.symm, ?_⟩
      · simp only [interp_loop]
        rw [if_neg]
        intro hc
        rw [← hpc] at hc
        exact hc.2.1 hnul
      · left
        refine ⟨?_, hrv, rfl⟩
        rw [if_neg (by omega), hre]
        rfl


/-- C30: the two interpreters agree.  For every source without `,` (shorter than
65536 characters, the range of the 16-bit `program_counter` of v2; the buffers
of the callers hold at most 2047), with F10 not pressed while v2 runs:
`run_program` of v3 returns, and when its run takes fewer than 10000 steps and
emits at most 255 bytes, `run` of v2 returns with the same output sequence,
the same final tape and pointer, the same step count and the same outcome:
finished in both, or the same unmatched-bracket error in both. -/
theorem interpreters_agree (code : List Char) (kbd : List (Option Nat))
    (hlen : code.length < 65536) (hcomma : ∀ c ∈ code, c ≠ ',')
    (hq : ∀ x ∈ kbd, x ≠ some 0xFA) :
    ∃ r ide', run_program (ideWith code) = some (r, ide') ∧
      (r.steps < 10000 → ide'.term_out.length ≤ 255 →
        ∃ st, run code kbd = some st ∧
          st.output_buffer = ide'.term_out ∧ st.memory = r.memory ∧
          (st.mem_ptr : Int) = r.ptr ∧ st.steps = r.steps ∧
          (r.status = Status.finished ∧ st.messages = [Message.finishedSuccessfully] ∨
           r.status = Status.unmatchedOpen ∧ st.messages = [Message.unmatchedOpen] ∨
           r.status = Status.unmatchedClose ∧ st.messages = [Message.unmatchedClose])) := by
  obtain ⟨⟨r, ide'⟩, hr⟩ := run_program_with_total MAX_STEPS (ideWith code)
  refine ⟨r, ide', hr, ?_⟩
  intro hsteps hout
  unfold run_program_with at hr
  cases hl : run_loop (ideWith code).code (ideWith code).input_buffer (MAX_STEPS : Int)
      (MAX_STEPS + 1)
      { memory := fun _ => 0, ptr := 0, pc := 0, steps := 0, running := true,
        input_mode := false, input_pos := (ideWith code).input_pos, out := [] } with
  | none => simp [hl] at hr
  | some res =>
    obtain ⟨status, r3⟩ := res
    simp only [hl, Option.some.injEq, Prod.mk.injEq] at hr
    obtain ⟨rfl, rfl⟩ := hr
    simp only [ideWith, List.nil_append] at hsteps hout hl ⊢
    obtain ⟨r2, b1, b2, b3, b4, b5, b6⟩ := engines_agree_loop code (fun _ => 0)
      (MAX_STEPS : Int) 10000 (by decide) hlen hcomma (MAX_STEPS + 1)
      { memory := fun _ => 0, ptr := 0, pc := 0, steps := 0, running := true,
        input_mode := false, input_pos := 0, out := [] }
      { memory := fun _ => 0, mem_ptr := 0, program_counter := 0, running := true,
        output_buffer := [], steps := 0, messages := [], kbd := kbd }
      status r3 rfl rfl (by show (0 : Nat) < 30000; omega) rfl (Nat.zero_le _) rfl rfl rfl rfl hq hl
      hsteps hout
      (10000 + 1) (by simp only []; push_cast; omega)
    have hrun : interp_loop code ((10000 : Nat) : Int) (10000 + 1)
        { memory := fun _ => 0, mem_ptr := 0, program_counter := 0, running := true,
          output_buffer := [], steps := 0, messages := [], kbd := kbd } = some r2 := b1
    have hlt : ¬ (r2.steps ≥ ((10000 : Nat) : Int)) := by
      rw [b4]; push_cast; omega
    simp only [List.nil_append] at b6
    rcases b6 with ⟨c1, c2, c3⟩ | ⟨c1, c2, c3⟩ | ⟨c1, c2, c3⟩
    · refine ⟨{ r2 with messages := r2.messages ++ [Message.finishedSuccessfully] }, ?_,
        b5, b2, b3, b4, Or.inl ⟨c1, by simp [c3]⟩⟩
      simp only [run, run_with, hrun, if_neg hlt, c2, if_true]
    · refine ⟨r2, ?_, b5, b2, b3, b4, Or.inr (Or.inl ⟨c1, c3⟩)⟩
      simp only [run, run_with, hrun, if_neg hlt, c2]
      simp
    · refine ⟨r2, ?_, b5, b2, b3, b4, Or.inr (Or.inr ⟨c1, c3⟩)⟩
      simp only [run, run_with, hrun, if_neg hlt, c2]
      simp

set_option maxRecDepth 100000 in
/-- Witness of `interpreters_agree`: the source "++[>+++<-]>." (`timesThree`) with no key pressed. -/
theorem interpreters_agree_witness :
    (∃ r ide', run_program (ideWith timesThree) = some (r, ide') ∧
      (r.steps < 10000 → ide'.term_out.length ≤ 255 →
        ∃ st, run timesThree [] = some st ∧
          st.output_buffer = ide'.term_out ∧ st.memory = r.memory ∧
          (st.mem_ptr : Int) = r.ptr ∧ st.steps = r.steps ∧
          (r.status = Status.finished ∧ st.messages = [Message.finishedSuccessfully] ∨
           r.status = Status.unmatchedOpen ∧ st.messages = [Message.unmatchedOpen] ∨
           r.status = Status.unmatchedClose ∧ st.messages = [Message.unmatchedClose]))) ∧
    (run_program (ideWith timesThree)).map
        (fun r => (r.1.status, r.1.steps, r.1.ptr, r.2.term_out))
      = some (Status.finished, 19, 1, [6]) ∧
    (run timesThree []).map
        (fun st => (st.messages, st.steps, st.mem_ptr, st.output_buffer))
      = some ([Message.finishedSuccessfully], 19, 1, [6]) :=
  ⟨interpreters_agree timesThree [] (by decide) (by decide) (by simp),
    by decide, by decide⟩

/-! ## Lemmas about the generated text -/

theorem holdsText_put (e : Emit) (T : List Char) (c : Char)
    (hpos : e.out_pos = (T.length : Int)) (h : holdsText e.writes T) :
    (put e c).out_pos = ((T ++ [c]).length : Int) ∧ holdsText (put e c).writes (T ++ [c]) := by
  constructor
  · simp [put, hpos]
  · intro i hi
    simp only [put, outputAt, hpos]
    by_cases heq : i = T.length
    · subst heq
      simp
    · have hlt : i < T.length := by
        simp at hi
        omega
      rw [if_neg (by omega), h i hlt, List.getElem?_append_left hlt]

theorem holdsText_putAll (cs : List Char) :
    ∀ (e : Emit) (T : List Char), e.out_pos = (T.length : Int) → holdsText e.writes T →
      (putAll e cs).out_pos = ((T ++ cs).length : Int) ∧
      holdsText (putAll e cs).writes (T ++ cs) := by
  induction cs with
  | nil =>
    intro e T hpos h
    simpa [putAll] using ⟨hpos, h⟩
  | cons c cs ih =>
    intro e T hpos h
    obtain ⟨h1, h2⟩ := holdsText_put e T c hpos h
    have := ih (put e c) (T ++ [c]) h1 h2
    simpa [putAll] using this

theorem holdsText_mark (writes : List (Int × Char)) (T : List Char) (p : Int) (c : Char)
    (hp : (T.length : Int) ≤ p) (h : holdsText writes T) :
    holdsText ((p, c) :: writes) T := by
  intro i hi
  simp only [outputAt]
  rw [if_neg (by omega)]
  exact h i hi

theorem holdsText_take (writes : List (Int × Char)) (T : List Char) (n : Nat)
    (h : holdsText writes T) : holdsText writes (T.take n) := by
  intro i hi
  simp only [List.length_take] at hi
  rw [h i (by omega), List.getElem?_take_of_lt (by omega)]

/-- The indentation loop, when none of its tests fails. -/
theorem holdsText_indent (max : Nat) :
    ∀ (k : Nat) (e : Emit) (T : List Char), e.out_pos = (T.length : Int) →
      holdsText e.writes T → T.length + 2 * k ≤ subU32 max 2 → subU32 max 2 < UINT32_MOD →
      (indent max k e).out_pos = ((T ++ List.replicate (2 * k) ' ').length : Int) ∧
      holdsText (indent max k e).writes (T ++ List.replicate (2 * k) ' ') := by
  intro k
  induction k with
  | zero =>
    intro e T hpos h _ _
    simpa [indent] using ⟨hpos, h⟩
  | succ k ih =>
    intro e T hpos h hroom hm
    have hguard : toU32 e.out_pos < subU32 max 2 := by
      rw [hpos]
      unfold toU32
      have : ((T.length : Int) % (UINT32_MOD : Int)).toNat = T.length := by
        rw [Int.emod_eq_of_lt (by omega) (by omega)]
        simp
      rw [this]
      omega
    simp only [indent, if_pos hguard]
    obtain ⟨h1, h2⟩ := holdsText_put e T ' ' hpos h
    obtain ⟨h3, h4⟩ := holdsText_put (put e ' ') (T ++ [' ']) ' ' h1 h2
    have := ih (put (put e ' ') ' ') (T ++ [' '] ++ [' ']) h3 h4
      (by simp only [List.length_append, List.length_singleton]; omega) hm
    have e1 : T ++ [' '] ++ [' '] ++ List.replicate (2 * k) ' '
        = T ++ List.replicate (2 * (k + 1)) ' ' := by
      rw [show 2 * (k + 1) = (2 * k + 1) + 1 by ring, List.replicate_succ, List.replicate_succ]
      simp
    rw [e1] at this
    exact this


theorem subU32_of_le (max k : Nat) (hk : k ≤ max) (hmax : max < UINT32_MOD) :
    subU32 max k = max - k := by
  unfold subU32
  rw [Int.emod_eq_of_lt (by omega) (by omega)]
  omega

theorem toU32_of_lt (n : Nat) (hn : n < UINT32_MOD) : toU32 (n : Int) = n := by
  unfold toU32
  rw [Int.emod_eq_of_lt (by omega) (by omega)]
  simp

theorem depthAfter_cast (c : Char) (d : Nat) (h : 0 ≤ (d : Int) + bracketWeight c) :
    ((depthAfter c d : Nat) : Int) = (d : Int) + bracketWeight c := by
  unfold depthAfter
  unfold bracketWeight at h ⊢
  by_cases h1 : c = '['
  · rw [if_pos h1, if_pos h1]
    push_cast
    rfl
  · rw [if_neg h1] at h
    rw [if_neg h1, if_neg h1]
    by_cases h2 : c = ']'
    · rw [if_pos h2] at h
      rw [if_pos h2, if_pos h2]
      omega
    · rw [if_neg h2, if_neg h2]
      omega

/-- The emission loop on a balanced source with room to spare: it reaches the end
of the source and has stored one line per instruction behind the text `T`. -/
theorem compile_loop_text (max : Nat) (hmax : max < UINT32_MOD) :
    ∀ (l : List Char) (e : Emit) (T : List Char) (d : Nat),
      e.out_pos = (T.length : Int) → holdsText e.writes T → e.loop_depth = (d : Int) →
      balancedFrom l (d : Int) = true →
      T.length + (emittedBody l d).length + 2 * nesting l d + 117 ≤ max →
      ∃ e', compile_loop max l e = (LoopExit.endOfSource, e') ∧
        e'.out_pos = ((T ++ emittedBody l d).length : Int) ∧
        holdsText e'.writes (T ++ emittedBody l d) ∧ e'.loop_depth = 0 := by
  intro l
  induction l with
  | nil =>
    intro e T d hpos h hd hbal _
    refine ⟨e, rfl, by simpa [emittedBody] using hpos, by simpa [emittedBody] using h, ?_⟩
    have : (d : Int) = 0 := by simpa [balancedFrom] using hbal
    rw [hd, this]
  | cons instr rest ih =>
    intro e T d hpos h hd hbal hfit
    have hn1 : d ≤ nesting (instr :: rest) d := Nat.le_max_left _ _
    have hn2 : nesting rest (depthAfter instr d) ≤ nesting (instr :: rest) d :=
      Nat.le_max_right _ _
    simp only [emittedBody, List.length_append] at hfit
    have hstep : ¬ ((d : Int) + bracketWeight instr < 0) := by
      intro hneg
      simp [balancedFrom, hneg] at hbal
    have hbal' : balancedFrom rest ((depthAfter instr d : Nat) : Int) = true := by
      rw [depthAfter_cast instr d (by omega)]
      simpa [balancedFrom, hstep] using hbal
    have hbud : toU32 e.out_pos < subU32 max 100 := by
      rw [hpos, toU32_of_lt _ (by omega), subU32_of_le _ _ (by omega) hmax]
      omega
    have hk : (e.loop_depth + 1).toNat = d + 1 := by rw [hd]; omega
    obtain ⟨i1, i2⟩ := holdsText_indent max (d + 1) e T hpos h
      (by rw [subU32_of_le _ _ (by omega) hmax]; omega)
      (by rw [subU32_of_le _ _ (by omega) hmax]; omega)
    simp only [compile_loop, if_pos hbud, hk]
    by_cases hclose : instr = ']'
    · subst hclose
      have hd1 : 1 ≤ d := by
        have : bracketWeight ']' = -1 := rfl
        omega
      rw [if_pos rfl]
      simp only [indent_loop_depth, hd]
      rw [if_neg (by omega)]
      have hline : emittedLine d ']' = ['\x7d', '\n'] := by simp [emittedLine]
      have hda : depthAfter ']' d = d - 1 := by simp [depthAfter]
      simp only [hline, hda, List.length_cons, List.length_nil] at hfit hn2
      have := ih
        { out_pos := (put (put
              { out_pos := (indent max (d + 1) e).out_pos - ((((d : Int) - 1) + 1) * 2 + 2),
                loop_depth := (d : Int) - 1, writes := (indent max (d + 1) e).writes }
              '\x7d') '\n').out_pos,
          loop_depth := (d : Int) - 1,
          writes := ((put (put
              { out_pos := (indent max (d + 1) e).out_pos - ((((d : Int) - 1) + 1) * 2 + 2),
                loop_depth := (d : Int) - 1, writes := (indent max (d + 1) e).writes }
              '\x7d') '\n').out_pos, NUL) :: (put (put
              { out_pos := (indent max (d + 1) e).out_pos - ((((d : Int) - 1) + 1) * 2 + 2),
                loop_depth := (d : Int) - 1, writes := (indent max (d + 1) e).writes }
              '\x7d') '\n').writes }
        (T ++ ['\x7d', '\n']) (d - 1) ?_ ?_ ?_ ?_ ?_
      · obtain ⟨e', g1, g2, g3, g4⟩ := this
        refine ⟨e', ?_, ?_, ?_, g4⟩
        · rw [← g1]
          rfl
        · simp only [emittedBody, hline, hda]
          rw [← List.append_assoc]
          exact g2
        · simp only [emittedBody, hline, hda]
          rw [← List.append_assoc]
          exact g3
      · simp [put, i1]
        omega
      · apply holdsText_mark
        · simp [put, i1]
          omega
        · have h0 : holdsText (indent max (d + 1) e).writes T := by
            have := holdsText_take _ _ T.length i2
            simpa using this
          have hp0 : ((indent max (d + 1) e).out_pos - ((((d : Int) - 1) + 1) * 2 + 2))
              = (T.length : Int) := by
            rw [i1]
            simp
            omega
          obtain ⟨p1, p2⟩ := holdsText_put
            { out_pos := (indent max (d + 1) e).out_pos - ((((d : Int) - 1) + 1) * 2 + 2),
              loop_depth := (d : Int) - 1, writes := (indent max (d + 1) e).writes } T '\x7d' hp0 h0
          obtain ⟨_, p4⟩ := holdsText_put _ _ '\n' p1 p2
          simpa using p4
      · simp only []
        omega
      · rw [← hda]
        exact hbal'
      · simp only [List.length_append, List.length_cons, List.length_nil]
        omega
    · rw [if_neg hclose]
      have hline : emittedLine d instr = List.replicate (2 * (d + 1)) ' ' ++ statementOf instr := by
        simp [emittedLine, hclose]
      obtain ⟨q1, q2⟩ := holdsText_putAll (statementOf instr) (indent max (d + 1) e)
        (T ++ List.replicate (2 * (d + 1)) ' ') i1 i2
      have hdq : (putAll (indent max (d + 1) e) (statementOf instr)).loop_depth = (d : Int) := by
        rw [putAll_loop_depth, indent_loop_depth, hd]
      have hda : ((depthAfter instr d : Nat) : Int)
          = if instr = '[' then (d : Int) + 1 else (d : Int) := by
        unfold depthAfter
        by_cases ho : instr = '['
        · simp [ho]
        · simp [ho, hclose]
      have hTT : T ++ List.replicate (2 * (d + 1)) ' ' ++ statementOf instr
          = T ++ emittedLine d instr := by
        rw [hline, List.append_assoc]
      rw [hTT] at q1 q2
      have := ih
        { out_pos := (putAll (indent max (d + 1) e) (statementOf instr)).out_pos,
          loop_depth := ((depthAfter instr d : Nat) : Int),
          writes := ((putAll (indent max (d + 1) e) (statementOf instr)).out_pos, NUL) ::
            (putAll (indent max (d + 1) e) (statementOf instr)).writes }
        (T ++ emittedLine d instr) (depthAfter instr d) q1
        (holdsText_mark _ _ _ _ (by rw [q1]) q2) rfl hbal'
        (by simp only [List.length_append]; omega)
      obtain ⟨e', g1, g2, g3, g4⟩ := this
      refine ⟨e', ?_, ?_, ?_, g4⟩
      · rw [← g1]
        congr 1
        by_cases ho : instr = '['
        · rw [if_pos ho, hda, if_pos ho, hdq]
        · rw [if_neg ho, hda, if_neg ho, ← hdq]
      · simp only [emittedBody]
        rw [← List.append_assoc]
        exact g2
      · simp only [emittedBody]
        rw [← List.append_assoc]
        exact g3


theorem holdsText_strcpyAt (e : Emit) (T text : List Char)
    (hpos : e.out_pos = (T.length : Int)) (h : holdsText e.writes T) :
    holdsText (strcpyAt e text).writes (T ++ text ++ [NUL]) := by
  obtain ⟨h1, h2⟩ := holdsText_putAll text e T hpos h
  obtain ⟨_, h4⟩ := holdsText_putAll [NUL] (putAll e text) (T ++ text) h1 h2
  exact h4

theorem statementOf_nul (instr : Char) : ∀ c ∈ statementOf instr, c ≠ NUL := by
  unfold statementOf
  by_cases h1 : instr = '>'
  · rw [if_pos h1]; decide
  rw [if_neg h1]
  by_cases h2 : instr = '<'
  · rw [if_pos h2]; decide
  rw [if_neg h2]
  by_cases h3 : instr = '+'
  · rw [if_pos h3]; decide
  rw [if_neg h3]
  by_cases h4 : instr = '-'
  · rw [if_pos h4]; decide
  rw [if_neg h4]
  by_cases h5 : instr = '.'
  · rw [if_pos h5]; decide
  rw [if_neg h5]
  by_cases h6 : instr = ','
  · rw [if_pos h6]; decide
  rw [if_neg h6]
  by_cases h7 : instr = '['
  · rw [if_pos h7]; decide
  rw [if_neg h7]
  simp

theorem emittedBody_nul : ∀ (l : List Char) (d : Nat), ∀ c ∈ emittedBody l d, c ≠ NUL := by
  intro l
  induction l with
  | nil => intro d c hc; simp [emittedBody] at hc
  | cons instr rest ih =>
    intro d c hc
    simp only [emittedBody, List.mem_append] at hc
    rcases hc with hc | hc
    · unfold emittedLine at hc
      by_cases hcl : instr = ']'
      · rw [if_pos hcl] at hc
        revert c
        decide
      · rw [if_neg hcl, List.mem_append] at hc
        rcases hc with hc | hc
        · rw [List.mem_replicate] at hc
          rw [hc.2]
          decide
        · exact statementOf_nul instr c hc
    · exact ih _ c hc

/-! ## Claims about the generated text -/

set_option maxRecDepth 100000 in
/-- C25 as stated fails: for the source "[]" (balanced, budget 2048) the claim
describes a text of 176 characters whose `}` line is indented like the `while`
line, so that positions 155 and 156, behind the 138 characters of the header
and the 17 of the `while` line, hold blanks and position 157 the `}`; the
buffer holds `}` at position 155 and the end of the line at 156, as the text
with the `}` at the start of its line does. -/
theorem text_shape_counterexample :
    balanced (optimize_bf_code ['[', ']']) = true ∧
    (compile_to_c ['[', ']'] 2048).1 = true ∧
    (claimedText ['[', ']']).length = 176 ∧
    (claimedText ['[', ']'])[155]? = some ' ' ∧
    (claimedText ['[', ']'])[157]? = some '\x7d' ∧
    outputAt (compile_to_c ['[', ']'] 2048).2 155 = some '\x7d' ∧
    outputAt (compile_to_c ['[', ']'] 2048).2 156 = some '\n' ∧
    (emittedText ['[', ']'])[155]? = some '\x7d' := by
  refine ⟨by decide, by decide, by decide, by decide, by decide, by decide, by decide,
    by decide⟩

set_option maxRecDepth 100000 in
/-- C25 (as amended): shape of the generated text.  For every bracket-balanced
source whose text fits with room to spare (the length of the text plus 100
bytes plus twice the greatest nesting depth is at most `max_size`, a 32-bit
value), `compile_to_c` returns true and the buffer holds, from position 0: the
fixed header, then for each instruction of the filtered source, in order,
exactly one line, made of `2 * (d + 1)` blanks at nesting depth `d` followed by
the statement of the instruction, except that the `}` of a `]` stands at the
start of its line without indentation, then the closing text and the
terminator; no character of the text is a terminator. -/
theorem generated_text_shape (bf_code : List Char) (max_size : Nat)
    (hbal : balanced (optimize_bf_code bf_code) = true)
    (hfit : (emittedText bf_code).length + 2 * nesting (optimize_bf_code bf_code) 0 + 100
      ≤ max_size)
    (hmax : max_size < UINT32_MOD) :
    (compile_to_c bf_code max_size).1 = true ∧
    holdsText (compile_to_c bf_code max_size).2 (emittedText bf_code ++ [NUL]) ∧
    (∀ c ∈ emittedText bf_code, c ≠ NUL) := by
  have hlenH : header.length = 138 := by decide
  have hlenF : footer.length = 17 := by decide
  have hstart1 : compile_start.out_pos = (header.length : Int) := by decide
  have hstart2 : holdsText compile_start.writes header := by
    have h0 : holdsText (strcpyAt { out_pos := 0, loop_depth := 0, writes := [] } header).writes
        ([] ++ header ++ [NUL]) :=
      holdsText_strcpyAt _ [] header rfl (by intro i hi; simp at hi)
    have := holdsText_take _ _ header.length h0
    simpa using this
  have hstart3 : compile_start.loop_depth = ((0 : Nat) : Int) := by decide
  obtain ⟨e', g1, g2, g3, g4⟩ := compile_loop_text max_size hmax (optimize_bf_code bf_code)
    compile_start header 0 hstart1 hstart2 hstart3 hbal
    (by
      simp only [emittedText, List.length_append, hlenH, hlenF] at hfit
      rw [hlenH]
      omega)
  refine ⟨?_, ?_, ?_⟩
  · unfold compile_to_c
    rw [g1]
    simp [g4]
  · unfold compile_to_c
    rw [g1]
    simp only [g4, ne_eq, not_true_eq_false, if_false]
    exact holdsText_strcpyAt e' _ footer g2 g3
  · intro c hc
    simp only [emittedText, List.mem_append] at hc
    rcases hc with (hc | hc) | hc
    · revert c
      decide
    · exact emittedBody_nul _ _ c hc
    · revert c
      decide

set_option maxRecDepth 100000 in
/-- Witness of `generated_text_shape`: the source "+[-[>]]" with the budget 2048. -/
theorem generated_text_shape_witness :
    balanced (optimize_bf_code ['+', '[', '-', '[', '>', ']', ']']) = true ∧
    (emittedText ['+', '[', '-', '[', '>', ']', ']']).length
      + 2 * nesting (optimize_bf_code ['+', '[', '-', '[', '>', ']', ']']) 0 + 100 ≤ 2048 ∧
    ((compile_to_c ['+', '[', '-', '[', '>', ']', ']'] 2048).1 = true ∧
      holdsText (compile_to_c ['+', '[', '-', '[', '>', ']', ']'] 2048).2
        (emittedText ['+', '[', '-', '[', '>', ']', ']'] ++ [NUL]) ∧
      (∀ c ∈ emittedText ['+', '[', '-', '[', '>', ']', ']'], c ≠ NUL)) :=
  ⟨by decide, by decide,
    generated_text_shape ['+', '[', '-', '[', '>', ']', ']'] 2048 (by decide) (by decide)
      (by decide)⟩

/-! ## Claims about a name borne by two entries, and about a wrapped cursor -/

theorem shadowFS_reachable : Reachable shadowFS :=
  Reachable.create _ _ _ _ (Reachable.create _ _ _ _ Reachable.empty)

theorem twinFS_reachable : Reachable twinFS :=
  Reachable.create _ _ _ _ (Reachable.create _ _ _ _ Reachable.empty)

theorem twin12FS_reachable : Reachable twin12FS :=
  Reachable.save _ _ _ _ (Reachable.save _ _ _ _ Reachable.empty)

theorem highFS_reachable : Reachable highFS :=
  Reachable.save _ _ _ _ (Reachable.save _ _ _ _ (Reachable.save _ _ _ _ Reachable.empty))

/-- C3: evaluation of read-only enforcement behind a repeated name.  After
`create_file("X", "a", false)` and `create_file("X", "b", true)` on the empty
store, slot 1 is a used entry named "X" whose `read_only` flag is set, and slot 0
is a used writable entry of the same name.  In this reachable state
`save_file("X", "c", 1)`, `delete_file("X")` and `rename_file("X", "Z")` each
return true and change the store: the save moves `next_free_offset` from 2 to 3
and writes the byte at offset 2, the delete clears `used` of slot 0, the rename
gives slot 0 the name "Z".  The read-only entry in slot 1 stays as it was. -/
theorem read_only_shadowed_by_duplicate :
    Reachable shadowFS ∧
    (shadowFS.files 1).used = true ∧
    (shadowFS.files 1).read_only = true ∧
    strcmp (shadowFS.files 1).name [88] = 0 ∧
    nameHit (shadowFS.files 0) [88] = true ∧
    (shadowFS.files 0).read_only = false ∧
    shadowFS.next_free_offset = 2 ∧
    (save_file shadowFS [88] [99] 1).1 = true ∧
    (save_file shadowFS [88] [99] 1).2.next_free_offset = 3 ∧
    ((save_file shadowFS [88] [99] 1).2.files 0).data_offset = 2 ∧
    (save_file shadowFS [88] [99] 1).2.fs_data 2 = 99 ∧
    (delete_file shadowFS [88]).1 = true ∧
    ((delete_file shadowFS [88]).2.files 0).used = false ∧
    (rename_file shadowFS [88] [90]).1 = true ∧
    strcmp ((rename_file shadowFS [88] [90]).2.files 0).name [90] = 0 ∧
    (save_file shadowFS [88] [99] 1).2.files 1 = shadowFS.files 1 ∧
    (delete_file shadowFS [88]).2.files 1 = shadowFS.files 1 ∧
    (rename_file shadowFS [88] [90]).2.files 1 = shadowFS.files 1 := by
  refine ⟨shadowFS_reachable, by decide!, by decide!, by decide!, by decide!, by decide!, by decide!,
    by decide!, by decide!, by decide!, by decide!, by decide!, by decide!, by decide!, by decide!,
    by decide!, by decide!, by decide!⟩

/-- C15: evaluation of `load_file` after `delete_file` on a repeated name.  After
two calls `create_file("X", ..)` with contents "a" and "b", slots 0 and 1 are
used writable entries named "X".  In this reachable state `delete_file("X")`
returns true and clears slot 0 only, and `load_file("X")` on the resulting
store returns true with the content "b" of slot 1.  The same holds after two calls
`save_file("ABCDEFGH.TXT", ..)`, whose entries both bear the stored name
"ABCDEFGH.TX": `delete_file("ABCDEFGH.TX")` returns true and
`load_file("ABCDEFGH.TX")` still returns true, with the content "b". -/
theorem load_succeeds_after_delete :
    Reachable twinFS ∧
    nameHit (twinFS.files 0) [88] = true ∧
    (twinFS.files 0).read_only = false ∧
    nameHit (twinFS.files 1) [88] = true ∧
    (delete_file twinFS [88]).1 = true ∧
    ((delete_file twinFS [88]).2.files 0).used = false ∧
    ((delete_file twinFS [88]).2.files 1).used = true ∧
    (load_file (delete_file twinFS [88]).2 [88] (fun _ => 0) 0).1 = true ∧
    (load_file (delete_file twinFS [88]).2 [88] (fun _ => 0) 0).2.1 0 = 98 ∧
    (load_file (delete_file twinFS [88]).2 [88] (fun _ => 0) 0).2.2 = 1 ∧
    Reachable twin12FS ∧
    nameHit (twin12FS.files 0) name11 = true ∧
    (twin12FS.files 0).read_only = false ∧
    nameHit (twin12FS.files 1) name11 = true ∧
    (delete_file twin12FS name11).1 = true ∧
    ((delete_file twin12FS name11).2.files 0).used = false ∧
    (load_file (delete_file twin12FS name11).2 name11 (fun _ => 0) 0).1 = true ∧
    (load_file (delete_file twin12FS name11).2 name11 (fun _ => 0) 0).2.1 0 = 98 := by
  refine ⟨twinFS_reachable, by decide!, by decide!, by decide!, by decide!, by decide!, by decide!,
    by decide!, by decide!, by decide!, twin12FS_reachable, by decide!, by decide!, by decide!,
    by decide!, by decide!, by decide!, by decide!⟩

/-- C14: evaluation of an overwrite at a wrapped cursor.  The store holds "K" =
"abc" at offsets 0 to 2 and "X" = "q" at offset 3; the failed call
`save_file("A", .., 0xFFFFFFFB)` has left the cursor at 0xFFFFFFFF.  In this
reachable state `save_file("X", "xy", 2)` on the existing writable name "X"
returns true, takes `data_offset = 0xFFFFFFFF` and leaves `next_free_offset = 1`,
which is not the old cursor plus 2.  The next call `save_file("X", "zz", 2)`
returns true as well, takes `data_offset = 1` and writes offsets 1 and 2 of the
data region, which belong to the used entry "K" (`data_offset = 0`, `size = 3`,
untouched in the table): `load_file("K")` gave "abc" before the call and gives
"azz" after it. -/
theorem save_file_overwrites_at_wrapped_cursor :
    Reachable highFS ∧
    nameHit (highFS.files 1) [88] = true ∧
    (highFS.files 1).read_only = false ∧
    highFS.next_free_offset = 4294967295 ∧
    (save_file highFS [88] [120, 121] 2).1 = true ∧
    (wrappedFS.files 1).data_offset = 4294967295 ∧
    wrappedFS.next_free_offset = 1 ∧
    wrappedFS.next_free_offset ≠ highFS.next_free_offset + 2 ∧
    nameHit (wrappedFS.files 0) [75] = true ∧
    (wrappedFS.files 0).data_offset = 0 ∧
    (wrappedFS.files 0).size = 3 ∧
    nameHit (wrappedFS.files 1) [88] = true ∧
    (wrappedFS.files 1).read_only = false ∧
    (save_file wrappedFS [88] [122, 122] 2).1 = true ∧
    ((save_file wrappedFS [88] [122, 122] 2).2.files 1).data_offset = 1 ∧
    ((save_file wrappedFS [88] [122, 122] 2).2.files 1).size = 2 ∧
    (save_file wrappedFS [88] [122, 122] 2).2.files 0 = wrappedFS.files 0 ∧
    bufferBytes (load_file wrappedFS [75] (fun _ => 0) 0).2.1 3 = [97, 98, 99] ∧
    bufferBytes (load_file (save_file wrappedFS [88] [122, 122] 2).2 [75] (fun _ => 0) 0).2.1 3
      = [97, 122, 122] := by
  refine ⟨highFS_reachable, by decide!, by decide!, by decide!, by decide!, by decide!, by decide!,
    by decide!, by decide!, by decide!, by decide!, by decide!, by decide!, by decide!, by decide!,
    by decide!, by decide!, by decide!, by decide!⟩

end EHDSB
